import Mathlib

/-!
# A shallow embedding of the durak game engine

This file embeds the decision core of the durak card-game engine
(`python_version/main.py`, `players.py`, `tools.py`) in Lean and proves
properties of it.

Modelling conventions:

* Python `Card` objects are mutable and compared by object identity where the
  engine keeps collections; we model object identity with *heap addresses*:
  a `Heap` is a list of `Card` cells and every collection in the game state
  (deck, hands, table, card collection) stores addresses (`Nat`).  Mutating a
  card is a `Heap` update; `make_deepcopy` allocates fresh addresses.
* `None`-able fields (`suit`, `value`, `trump_suit`) are `Option Nat`.
  Python's `x == y` on such fields is `Option` equality (`None == None` is
  `True`, `None == 3` is `False`), which `BEq (Option Nat)` matches exactly.
* Functions that can raise (`discard_card`'s for/else `raise`, asserts,
  list-index errors, `new_trick`'s unknown-name raise) return `Option`,
  with `none` for the raising executions.
* Python `set`s are modelled by duplicate-free lists built with an
  order-preserving insert; all uses in the engine are membership tests,
  filters and iteration, for which this is faithful.
* Randomness (`random.choice` / `random.choices`) is modelled by its
  distribution where a claim is about probabilities, and by explicit choice
  parameters (the value drawn) where a claim is about state evolution.
-/

namespace Durak

/-- A `(suit, value)` identity pair. -/
abbrev SV := Nat × Nat

/-- `tools.Card`.  `suit`/`value`/`trump_suit` start as `None`; exactly the
visibility flags of the Python class are carried. -/
structure Card where
  suit : Option Nat
  value : Option Nat
  trump_suit : Option Nat
  is_public : Bool
  is_private : Bool
  is_unknown : Bool
deriving DecidableEq, Repr

/-- A fresh card, as produced by `Card()` (class attribute defaults). -/
def Card.freshCard : Card :=
  { suit := none, value := none, trump_suit := none,
    is_public := false, is_private := false, is_unknown := true }

instance : Inhabited Card := ⟨Card.freshCard⟩

/-- `Card.reset`: revert every field to the class defaults (the Python method
assigns each of the six attributes; identity is kept by the caller writing the
result back to the same heap address). -/
def Card.reset (_c : Card) : Card :=
  { suit := none, value := none, trump_suit := none,
    is_public := false, is_private := false, is_unknown := true }

/-- `Card.from_suit_value`: `assert self.is_unknown` then bind suit and value.
`none` models the failing assert.  Note that `trump_suit` and the
private/public flags are left untouched. -/
def Card.from_suit_value (c : Card) (s v : Nat) : Option Card :=
  if c.is_unknown then
    some { c with suit := some s, value := some v, is_unknown := false }
  else none

/-- `Card.is_trump`: `self.suit == self.trump_suit` (Python `None == None`
is `True`, matching `Option` equality). -/
def Card.is_trump (c : Card) : Bool :=
  c.suit == c.trump_suit

/-- `Card.make_copy`: a structural copy (the fresh identity is produced by the
caller allocating a new heap cell for the result). -/
def Card.make_copy (c : Card) : Card :=
  { suit := c.suit, value := c.value, trump_suit := c.trump_suit,
    is_public := c.is_public, is_private := c.is_private,
    is_unknown := c.is_unknown }

/-- The card store: cell `r` is the card object at address `r`. -/
abbrev Heap := List Card

/-- Dereference an address (addresses are valid in every state the engine
builds; the default is never observable there). -/
def readCard (h : Heap) (r : Nat) : Card := h.getD r Card.freshCard

/-- Overwrite the card object at an address. -/
def writeCard (h : Heap) (r : Nat) (c : Card) : Heap := h.set r c

/-- The concrete identity of a card, when both suit and value are bound.
A card with an unbound component never equals a concrete `(s, v)` pair in
Python (`None == int` is `False`), so such cards contribute no identity. -/
def cardId (c : Card) : Option SV :=
  match c.suit, c.value with
  | some s, some v => some (s, v)
  | _, _ => none

/-- `players.Player`: only the data the engine manipulates (name and hand);
the hand is a list of card addresses. -/
structure Player where
  name : String
  hand : List Nat
deriving DecidableEq, Repr

/-- `current_action` values. -/
inductive Phase where
  | Attack
  | Defend
  | ThrowCards
deriving DecidableEq, Repr

instance : Inhabited Phase := ⟨Phase.Attack⟩

/-- The action grammar of the engine (`(kind, payload)` tuples).
`throwCards none` is the pass payload `(None,)`. -/
inductive Action where
  | attack (sv : SV)
  | defend (sv : SV)
  | take
  | throwCards (cards : Option (List SV))
  | passAttack
  | reflect (sv : SV)
  | reflectTrump (sv : SV)
deriving DecidableEq, Repr

/-- An enumerated action together with its optional rollout weight
(`allowed_plays` returns 2-tuples or, in the Defend phase, 3-tuples). -/
abbrev WAction := Action × Option ℚ

/-- `main.GameTree` state.  Players are referenced by their index in
`players` (Python compares player objects by identity; distinct indices are
distinct objects).  Cards are referenced by heap address. -/
structure GameState where
  players : List Player
  deck : List Nat
  card_collection : List Nat
  all_cards : List SV
  history : List Action
  attackers : List Nat
  defender : Option Nat
  current_attacker : Nat
  player_to_play : Nat
  draw_order : List Nat
  attacker_to_start_throwing : Option Nat
  last_played_attacker : Option Nat
  reflected_trumps : List SV
  current_action : Phase
  pairs_finished : List (Nat × Nat)
  cards_to_defend : List Nat
  is_end_state : Bool
  loser : Option Nat
  computer_shuffle : Bool
  print_info : Bool
deriving DecidableEq, Repr

instance : Inhabited Player := ⟨⟨"", []⟩⟩

instance : Inhabited GameState :=
  ⟨⟨[], [], [], [], [], [], none, 0, 0, [], none, none, [], Phase.Attack,
    [], [], false, none, true, true⟩⟩

/-- Look up a player object by index. -/
def getPlayer (s : GameState) (i : Nat) : Player := s.players.getD i default

/-- Replace the hand of the player object at an index. -/
def setPlayerHand (s : GameState) (i : Nat) (hd : List Nat) : GameState :=
  { s with players := s.players.set i { getPlayer s i with hand := hd } }

/-- Order-preserving set insert (Python `set.add`). -/
def svInsert (acc : List SV) (sv : SV) : List SV :=
  if sv ∈ acc then acc else acc ++ [sv]

/-- Order-preserving set union (Python `set.update`). -/
def svUnion (acc : List SV) (l : List SV) : List SV :=
  l.foldl svInsert acc

/-- `GameTree.get_non_public_cards`: `all_cards` minus the identities of the
public cards of the collection. -/
def getNonPublicCards (h : Heap) (s : GameState) : List SV :=
  s.all_cards.filter fun sv =>
    ¬ s.card_collection.any fun r =>
      let c := readCard h r
      c.is_public && c.suit == some sv.1 && c.value == some sv.2

/-- `GameTree.get_unknown_cards`: `all_cards` minus the identities of all
cards that are not unknown. -/
def getUnknownCards (h : Heap) (s : GameState) : List SV :=
  s.all_cards.filter fun sv =>
    ¬ s.card_collection.any fun r =>
      let c := readCard h r
      !c.is_unknown && c.suit == some sv.1 && c.value == some sv.2

/-- The identities of the non-unknown cards of a hand
(`[(c.suit, c.value) for c in self.hand if not c.is_unknown]`; identities with
an unbound component never compare equal to a concrete pair and are dropped). -/
def knownIds (h : Heap) (hand : List Nat) : List SV :=
  (hand.filter fun r => !(readCard h r).is_unknown).filterMap
    fun r => cardId (readCard h r)

/-- `Player.possible_card_plays`: each known card contributes its identity,
each unknown card the whole non-public set. -/
def possibleCardPlays (h : Heap) (nonPub : List SV) (hand : List Nat) :
    List SV :=
  hand.foldl
    (fun acc r =>
      let c := readCard h r
      if c.is_unknown then svUnion acc nonPub
      else
        match cardId c with
        | some sv => svInsert acc sv
        | none => acc)
    []

/-- The scan of `Player.discard_card`: first index whose card can produce
`(s, v)` — an unknown card that may be bound to it (it is non-public and not
an identity already known in this hand), or a known card with that identity.
`none` models the for/else `raise`. -/
def discardFindIdx (h : Heap) (nonPub kIds : List SV) (hand : List Nat)
    (sv : SV) : Option Nat :=
  go hand 0
where
  go : List Nat → Nat → Option Nat
    | [], _ => none
    | r :: rest, i =>
      let c := readCard h r
      if c.is_unknown then
        if sv ∈ nonPub ∧ sv ∉ kIds then some i else go rest (i + 1)
      else
        if c.suit = some sv.1 ∧ c.value = some sv.2 then some i
        else go rest (i + 1)

/-- `Player.discard_card`: locate the card (binding an unknown card on the
way), mark it public, and remove it from the hand unless `remove` is false.
Returns the updated heap and state together with the played card's address. -/
def discardCard (h : Heap) (s : GameState) (pIdx : Nat) (sv : SV)
    (remove : Bool) : Option (Heap × GameState × Nat) :=
  let nonPub := getNonPublicCards h s
  let p := getPlayer s pIdx
  let kIds := knownIds h p.hand
  match discardFindIdx h nonPub kIds p.hand sv with
  | none => none
  | some i =>
    match p.hand.get? i with
    | none => none
    | some r =>
      let c := readCard h r
      let c1 := if c.is_unknown then
          { c with suit := some sv.1, value := some sv.2 }
        else c
      let c2 := { c1 with
                  is_unknown := false
                  is_private := false
                  is_public := true }
      let h1 := writeCard h r c2
      let hand1 := if remove then p.hand.eraseIdx i else p.hand
      some (h1, setPlayerHand s pIdx hand1, r)

/-- `Player.fill_hand`: draw from the top of the deck until the hand has six
cards or the deck empties; returns the new deck and hand. -/
def fillHand (deck hand : List Nat) : List Nat × List Nat :=
  let k := min (6 - hand.length) deck.length
  (deck.drop k, hand ++ deck.take k)

/-- One refill step: `self.deck = p.fill_hand(self.deck)` for player `i`. -/
def refillStep (st : GameState) (i : Nat) : GameState :=
  let p := getPlayer st i
  let dh := fillHand st.deck p.hand
  setPlayerHand { st with deck := dh.1 } i dh.2

/-- Refill every player of `order`, in order, threading the deck. -/
def refillOver (order : List Nat) (s : GameState) : GameState :=
  order.foldl refillStep s

/-- Refill every player in `draw_order`, in order
(`for p in self.draw_order: self.deck = p.fill_hand(self.deck)`). -/
def refillDrawOrder (s : GameState) : GameState :=
  refillOver s.draw_order s

/-- The rotation of player indices used by `new_trick`
(`range(idx, idx + people)` reduced mod `people`). -/
def seatRotation (people idx : Nat) : List Nat :=
  (List.range people).map fun k => (idx + k) % people

/-- The living players of `new_trick`: a seat survives when its hand is
non-empty or the deck is non-empty. -/
def livingFrom (s : GameState) (idx : Nat) : List Nat :=
  (seatRotation s.players.length idx).filter fun i =>
    (getPlayer s i).hand ≠ [] ∨ s.deck ≠ []

/-- `GameTree.new_trick`: find the main attacker by name (`none` models the
unknown-name raise), collect the living players and open the trick, or end
the game with the proper loser.  The Python method assigns `is_end_state`,
`loser`, `attackers` only on the branches where it does so; every branch sets
`current_action`, `pairs_finished`, `cards_to_defend`. -/
def newTrick (s : GameState) (main_attacker : String) : Option GameState :=
  match s.players.findIdx? (fun p => p.name = main_attacker) with
  | none => none
  | some idx =>
    match livingFrom s idx with
    | [] =>
      some { s with
             attackers := []
             is_end_state := true
             loser := s.defender
             current_action := Phase.Attack
             pairs_finished := []
             cards_to_defend := [] }
    | [x] =>
      some { s with
             attackers := [x]
             is_end_state := true
             loser := some x
             current_action := Phase.Attack
             pairs_finished := []
             cards_to_defend := [] }
    | a0 :: d :: rest =>
      some { s with
             attackers := a0 :: rest
             defender := some d
             current_attacker := 0
             player_to_play := a0
             draw_order := (a0 :: rest) ++ [d]
             attacker_to_start_throwing := none
             last_played_attacker := none
             reflected_trumps := []
             current_action := Phase.Attack
             pairs_finished := []
             cards_to_defend := [] }

/-- The greedy slot consumption of `Player.can_throw`: remove the first slot
whose permitted-identity set contains `c` (`poss2.pop(idx)`); `none` when no
slot admits `c` (the for/else `return False`). -/
def removeFirstContaining : List (List SV) → SV → Option (List (List SV))
  | [], _ => none
  | p :: ps, c =>
    if c ∈ p then some ps
    else (removeFirstContaining ps c).map (fun ps1 => p :: ps1)

/-- The greedy assignment loop of `Player.can_throw`: assign each card in
order to the first remaining slot that admits it. -/
def greedyAssign : List SV → List (List SV) → Bool
  | [], _ => true
  | c :: cs, slots =>
    match removeFirstContaining slots c with
    | none => false
    | some slots1 => greedyAssign cs slots1

/-- `Player.can_throw`: singleton slots for the known hand cards whose
identity occurs in `cards`, plus `min(fallback, len(cards))` copies of
`fallback_identities` for the unknown hand cards, then the greedy test. -/
def canThrow (h : Heap) (fallback_identities : List SV) (hand : List Nat)
    (cards : List SV) : Bool :=
  let poss := hand.filterMap fun r =>
    let c := readCard h r
    if c.is_unknown then none
    else
      match cardId c with
      | some idn => if idn ∈ cards then some idn else none
      | none => none
  let fallback := (hand.filter fun r => (readCard h r).is_unknown).length
  if poss.length + fallback < cards.length then false
  else
    greedyAssign cards
      (poss.map (fun idn => [idn]) ++
        List.replicate (min fallback cards.length) fallback_identities)

/-- Flatten a list of card pairs (`[card for pair in l for card in pair]`). -/
def pairsFlatL (l : List (Nat × Nat)) : List Nat :=
  l.foldr (fun p acc => p.1 :: p.2 :: acc) []

/-- The table cards of the finished pairs, flattened. -/
def pairsFlat (s : GameState) : List Nat :=
  pairsFlatL s.pairs_finished

/-- The candidate identities of one hand card in the Defend phase: an unknown
card may be any non-public card that is not a known identity of this hand;
a known card has its own identity. -/
def defendIdentities (h : Heap) (s : GameState) (hand : List Nat) (r : Nat) :
    List SV :=
  let c := readCard h r
  if c.is_unknown then
    (getNonPublicCards h s).filter fun sv => sv ∉ knownIds h hand
  else
    match cardId c with
    | some sv => [sv]
    | none => []

/-- Python `value > to_defend.value` as a total test (an unbound table value
cannot occur in the engine; it is modelled as a failing comparison). -/
def valGT (tv : Option Nat) (v : Nat) : Bool :=
  match tv with
  | some t => t < v
  | none => false

/-- One candidate identity's contribution to the `reflect` option list of a
Defend-phase hand card (`allowed_plays`, the reflecting block):
reflecting by laying needs room for one more pile at the hypothetical new
defender, reflecting by showing a trump needs no extra pile but the trump
must not have been used to reflect this trick. -/
def reflectEntries (h : Heap) (s : GameState) (td : Nat) (sv : SV) :
    List Action :=
  if s.pairs_finished.length = 0 then
    match s.attackers.get? (1 % s.attackers.length) with
    | none => []
    | some nd =>
      let max_new_piles : Int :=
        ((getPlayer s nd).hand.length : Int) - s.cards_to_defend.length
      let tdc := readCard h td
      (if 1 ≤ max_new_piles ∧ some sv.2 = tdc.value
        then [Action.reflect sv] else []) ++
      (if 0 ≤ max_new_piles ∧ some sv.2 = tdc.value ∧
          some sv.1 = tdc.trump_suit ∧ sv ∉ s.reflected_trumps
        then [Action.reflectTrump sv] else [])
  else []

/-- One candidate identity's contribution to the `defend` option list of a
Defend-phase hand card: a trump beats any non-trump, and a same-suit card
beats a lower value. -/
def defendEntries (h : Heap) (td : Nat) (sv : SV) : List Action :=
  let tdc := readCard h td
  (if some sv.1 = tdc.trump_suit ∧ tdc.is_trump = false
    then [Action.defend sv] else []) ++
  (if some sv.1 = tdc.suit ∧ valGT tdc.value sv.2 = true
    then [Action.defend sv] else [])

/-- The full `defend` list of one hand card (all candidate identities). -/
def cardDefendList (h : Heap) (td : Nat) (ids : List SV) : List Action :=
  ids.foldl (fun acc sv => acc ++ defendEntries h td sv) []

/-- The full `reflect` list of one hand card (all candidate identities). -/
def cardReflectList (h : Heap) (s : GameState) (td : Nat) (ids : List SV) :
    List Action :=
  ids.foldl (fun acc sv => acc ++ reflectEntries h s td sv) []

/-- `play_options[action] += w` on an insertion-ordered weight table. -/
def addWeight (acc : List (Action × ℚ)) (a : Action) (w : ℚ) :
    List (Action × ℚ) :=
  if acc.any (fun p => p.1 = a) then
    acc.map fun p => if p.1 = a then (p.1, p.2 + w) else p
  else acc ++ [(a, w)]

/-- `for action in acts: play_options[action] += w`. -/
def addWeights (acc : List (Action × ℚ)) (acts : List Action) (w : ℚ) :
    List (Action × ℚ) :=
  acts.foldl (fun ac a => addWeight ac a w) acc

/-- The Defend-phase weight table: each hand card distributes weight 1 over
its defend options and weight 1 over its reflect options (no contribution
when a list is empty, matching the empty Python loop). -/
def playOptions (h : Heap) (s : GameState) (td : Nat) (hand : List Nat) :
    List (Action × ℚ) :=
  hand.foldl
    (fun acc r =>
      let ids := defendIdentities h s hand r
      let dfd := cardDefendList h td ids
      let rfl1 := cardReflectList h s td ids
      let acc1 := addWeights acc dfd (1 / (dfd.length : ℚ))
      addWeights acc1 rfl1 (1 / (rfl1.length : ℚ)))
    []

/-- The Throw-phase table values: the values of the finished pairs and of
the cards awaiting defense. -/
def throwValuesOnTable (h : Heap) (s : GameState) : List (Option Nat) :=
  ((pairsFlat s).map fun r => (readCard h r).value) ++
    (s.cards_to_defend.map fun r => (readCard h r).value)

/-- The Throw-phase candidates: the thrower's playable identities filtered to
values already on the table. -/
def possThrowsOf (h : Heap) (s : GameState) : List SV :=
  (possibleCardPlays h (getNonPublicCards h s)
      (getPlayer s s.player_to_play).hand).filter
    fun sv => some sv.2 ∈ throwValuesOnTable h s

/-- `max_throws = min(available_throws, len(poss_throws), len(player.hand))`
with `available_throws = len(defender.hand) - len(cards_to_defend)` (a Python
`int`, possibly negative). -/
def maxThrowsOf (h : Heap) (s : GameState) : Int :=
  min (min (((getPlayer s (s.defender.getD 0)).hand.length : Int) -
        (s.cards_to_defend.length : Int))
      ((possThrowsOf h s).length : Int))
    (((getPlayer s s.player_to_play).hand.length : Int))

/-- `GameTree.allowed_plays`.  The function is read-only on the heap and
total here: the Python asserts and raises inside it (`attacker == player`,
`cards_to_defend[0]` on an empty list, `No choice of actions`) do not alter
the produced list on the states where they pass, and no claim depends on the
raising executions. -/
def allowedPlays (h : Heap) (s : GameState) : List WAction :=
  let player := s.player_to_play
  match s.current_action with
  | Phase.Attack =>
    let nonPub := getNonPublicCards h s
    let poss0 := possibleCardPlays h nonPub (getPlayer s player).hand
    let passPart : List WAction :=
      if 0 < s.pairs_finished.length then [(Action.passAttack, none)] else []
    let possPlays :=
      if 0 < s.pairs_finished.length then
        let valuesOnTable := (pairsFlat s).map fun r => (readCard h r).value
        poss0.filter fun sv => some sv.2 ∈ valuesOnTable
      else poss0
    let attacksPart : List WAction :=
      if 0 < (getPlayer s (s.defender.getD 0)).hand.length then
        possPlays.map fun sv => (Action.attack sv, none)
      else []
    passPart ++ attacksPart
  | Phase.Defend =>
    match s.cards_to_defend with
    | [] => []
    | td :: _ =>
      let hand := (getPlayer s player).hand
      ((playOptions h s td hand).map fun p => (p.1, some p.2)) ++
        [(Action.take, some (1 / 2 : ℚ))]
  | Phase.ThrowCards =>
    let nonPub := getNonPublicCards h s
    let hand := (getPlayer s player).hand
    let possThrows := possThrowsOf h s
    let maxThrows := maxThrowsOf h s
    (Action.throwCards none, (none : Option ℚ)) ::
      ((List.range' 1 maxThrows.toNat).flatMap fun k =>
        ((List.sublistsLen k possThrows).filter fun l =>
            canThrow h nonPub hand l).map
          fun l => (Action.throwCards (some l), (none : Option ℚ)))

/-- The body of the Throw-phase discard loop of `execute_action`
(`for suit, value in cards_to_throw: discard; cards_to_defend.append`). -/
def throwDiscardsGo : Heap → GameState → List SV → Option (Heap × GameState)
  | h, s, [] => some (h, s)
  | h, s, sv :: rest =>
    match discardCard h s s.player_to_play sv true with
    | none => none
    | some (h1, s1, r) =>
      throwDiscardsGo h1
        { s1 with cards_to_defend := s1.cards_to_defend ++ [r] } rest

/-- The Throw-phase discards: the `(None,)` payload does nothing; an empty
tuple payload would raise on `action[1][0]`. -/
def throwDiscards (h : Heap) (s : GameState) :
    Option (List SV) → Option (Heap × GameState)
  | none => some (h, s)
  | some [] => none
  | some (sv :: rest) => throwDiscardsGo h s (sv :: rest)

/-- The middle of the trick close: the defender's hand takes every card on
the table (`cards_on_table` is the flattened finished pairs followed by the
cards awaiting defense), then every player in `draw_order` refills. -/
def closeIntermediate (s : GameState) (d : Nat) : GameState :=
  refillDrawOrder
    (setPlayerHand s d
      ((getPlayer s d).hand ++ (pairsFlat s ++ s.cards_to_defend)))

/-- The trick close when the throw rotation returns to
`attacker_to_start_throwing`: the defender takes every card on the table,
every player in `draw_order` refills, and a new trick opens with
`attackers[1 % len(attackers)]` as main attacker. -/
def closeTrick (h : Heap) (s : GameState) : Option (Heap × GameState) :=
  match s.defender with
  | none => none
  | some d =>
    let s2 := closeIntermediate s d
    match s2.attackers.get? (1 % s2.attackers.length) with
    | none => none
    | some na =>
      match newTrick s2 (getPlayer s2 na).name with
      | none => none
      | some s3 => some (h, s3)

/-- `GameTree.execute_action`: append the action to the history, then apply
it.  `none` models every raising execution (a failed discard, a failed
assert, an out-of-range list index, a zero-length modulus, the unknown-name
raise of `new_trick`); as a modelling choice, assigning an unset `defender`
into `player_to_play` — on which Python would only crash later — also
fails here. -/
def executeAction (h : Heap) (s0 : GameState) (a : Action) :
    Option (Heap × GameState) :=
  let s := { s0 with history := s0.history ++ [a] }
  match a with
  | Action.attack sv =>
    match discardCard h s s.player_to_play sv true with
    | none => none
    | some (h1, s1, r) =>
      match s1.defender with
      | none => none
      | some d =>
        some (h1, { s1 with
                    last_played_attacker := some s.player_to_play
                    player_to_play := d
                    current_action := Phase.Defend
                    cards_to_defend := s1.cards_to_defend ++ [r] })
  | Action.defend sv =>
    match s.cards_to_defend with
    | [] => none
    | cd :: rest =>
      let sPop := { s with cards_to_defend := rest }
      match discardCard h sPop sPop.player_to_play sv true with
      | none => none
      | some (h1, s1, r) =>
        let s2 := { s1 with pairs_finished := s1.pairs_finished ++ [(cd, r)] }
        if s2.cards_to_defend.length = 0 then
          match s2.attackers.get? s2.current_attacker with
          | none => none
          | some p =>
            some (h1, { s2 with
                        player_to_play := p
                        current_action := Phase.Attack })
        else some (h1, s2)
  | Action.take =>
    match s.attackers.get? s.current_attacker with
    | none => none
    | some p =>
      some (h, { s with
                 current_action := Phase.ThrowCards
                 player_to_play := p
                 attacker_to_start_throwing := some s.current_attacker })
  | Action.throwCards payload =>
    match throwDiscards h s payload with
    | none => none
    | some (h1, s1) =>
      if s1.attackers.length = 0 then none
      else
        let ca1 := (s1.current_attacker + 1) % s1.attackers.length
        match s1.attackers.get? ca1 with
        | none => none
        | some p =>
          let s2 := { s1 with current_attacker := ca1, player_to_play := p }
          match s2.attacker_to_start_throwing with
          | none => none
          | some ast =>
            match s2.attackers.get? ast with
            | none => none
            | some startP =>
              if p = startP then closeTrick h1 s2 else some (h1, s2)
  | Action.passAttack =>
    if s.attackers.length = 0 then none
    else
      let ca1 := (s.current_attacker + 1) % s.attackers.length
      match s.attackers.get? ca1 with
      | none => none
      | some p =>
        let s1 := { s with current_attacker := ca1, player_to_play := p }
        if some p = s1.last_played_attacker then
          let s2 := refillDrawOrder s1
          if s2.cards_to_defend = [] then
            match s2.defender with
            | none => none
            | some d =>
              match newTrick s2 (getPlayer s2 d).name with
              | none => none
              | some s3 => some (h, s3)
          else none
        else some (h, s1)
  | Action.reflect sv =>
    match s.defender with
    | none => none
    | some d =>
      match discardCard h s d sv true with
      | none => none
      | some (h1, s1, r) =>
        let n := s1.attackers.length
        if n = 0 then none
        else
          let j := 1 % n
          match s1.attackers.get? j with
          | none => none
          | some newDef =>
            let att2 := (s1.attackers.eraseIdx j).insertIdx j d
            some (h1, { s1 with
                        last_played_attacker := some s1.player_to_play
                        defender := some newDef
                        draw_order := att2 ++ [newDef]
                        attackers := att2.drop 1 ++ att2.take 1
                        cards_to_defend := s1.cards_to_defend ++ [r]
                        current_action := Phase.Defend
                        player_to_play := newDef })
  | Action.reflectTrump sv =>
    match s.defender with
    | none => none
    | some d =>
      if s.player_to_play = d then
        match discardCard h s s.player_to_play sv false with
        | none => none
        | some (h1, s1, _r) =>
          let n := s1.attackers.length
          if n = 0 then none
          else
            let j := 1 % n
            match s1.attackers.get? j with
            | none => none
            | some newDef =>
              let att2 := (s1.attackers.eraseIdx j).insertIdx j d
              some (h1, { s1 with
                          reflected_trumps := s1.reflected_trumps ++ [sv]
                          last_played_attacker := some s1.player_to_play
                          defender := some newDef
                          draw_order := att2 ++ [newDef]
                          attackers := att2.drop 1 ++ att2.take 1
                          current_action := Phase.Defend
                          player_to_play := newDef })
      else none

/-- The identity table of `make_deepcopy`: `card_ids[id(card)] = copy_card`
assigned in collection order, so an address maps to the copy of its *last*
occurrence in the collection; the copies live at `base`, `base+1`, ….
`none` models the `KeyError` on an address outside the collection. -/
def remapRef (col : List Nat) (base : Nat) (r : Nat) : Option Nat :=
  match col.reverse.findIdx? (fun x => x = r) with
  | none => none
  | some i => some (base + (col.length - 1 - i))

/-- `GameTree.make_deepcopy`: copy every card of the collection to fresh
addresses (in collection order) and remap every card reference — hands,
deck, `cards_to_defend`, `pairs_finished` — through the identity table.
Player objects are cloned (they are per-state records here, and the
attacker/defender/draw-order references are positional indices, which the
identity table preserves); `history` and `reflected_trumps` are copied by
value and `print_info` is forced off. -/
def makeDeepcopy (h : Heap) (s : GameState) : Option (Heap × GameState) := do
  let base := h.length
  let n := s.card_collection.length
  let players1 ← s.players.mapM fun p => do
    let hand1 ← p.hand.mapM (remapRef s.card_collection base)
    pure { p with hand := hand1 }
  let deck1 ← s.deck.mapM (remapRef s.card_collection base)
  let ctd1 ← s.cards_to_defend.mapM (remapRef s.card_collection base)
  let pairs1 ← s.pairs_finished.mapM fun pr => do
    let a ← remapRef s.card_collection base pr.1
    let b ← remapRef s.card_collection base pr.2
    pure (a, b)
  pure (h ++ s.card_collection.map (fun r => (readCard h r).make_copy),
        { s with
          players := players1
          deck := deck1
          cards_to_defend := ctd1
          pairs_finished := pairs1
          card_collection := (List.range n).map (base + ·)
          print_info := false })

/-- A sequence of `execute_action` calls. -/
def executeActions : Heap → GameState → List Action →
    Option (Heap × GameState)
  | h, s, [] => some (h, s)
  | h, s, a :: rest =>
    match executeAction h s a with
    | none => none
    | some (h1, s1) => executeActions h1 s1 rest

/-- The full `(suit, value)` grid (`all_cards`). -/
def allCardsList : List SV :=
  (List.range 4).flatMap fun st => (List.range 9).map fun v => (st, v)

/-- `GameTree.__init__` (computer-shuffle path) with the random bottom-card
draw made explicit.  The redeal loop means a reachable initial state has a
non-ace bottom card, so `bottom.2 ≠ 8` is required; the remaining guards are
the constructor's assertions.  Thirty-six fresh cards are allocated at
addresses 0–35, the bottom card (address 35) is bound and made public, every
card's trump suit becomes the bottom suit, each player in order fills a hand
of six from the top of the deck, and the first trick opens. -/
def initGame (names : List String) (bottom : SV) (main_attacker : String) :
    Option (Heap × GameState) :=
  if 2 ≤ names.length ∧ names.length ≤ 6 ∧ bottom ∈ allCardsList ∧
      bottom.2 ≠ 8 then
    let h0 : Heap := List.replicate 36 Card.freshCard
    let deck0 := List.range 36
    let h1 := writeCard h0 35
      { Card.freshCard with
        suit := some bottom.1
        value := some bottom.2
        is_unknown := false
        is_public := true }
    let h2 := deck0.foldl
      (fun hh r => writeCard hh r { readCard hh r with
                                    trump_suit := some bottom.1 }) h1
    let deal := names.foldl
      (fun (acc : List Player × List Nat) nm =>
        let dh := fillHand acc.2 []
        (acc.1 ++ [{ name := nm, hand := dh.2 }], dh.1))
      ([], deck0)
    let s0 : GameState :=
      { players := deal.1
        deck := deal.2
        card_collection := List.range 36
        all_cards := allCardsList
        history := []
        attackers := []
        defender := none
        current_attacker := 0
        player_to_play := 0
        draw_order := []
        attacker_to_start_throwing := none
        last_played_attacker := none
        reflected_trumps := []
        current_action := Phase.Attack
        pairs_finished := []
        cards_to_defend := []
        is_end_state := false
        loser := none
        computer_shuffle := true
        print_info := true }
    match newTrick s0 main_attacker with
    | none => none
    | some s1 => some (h2, s1)
  else none

/-- The outcome distribution of `tools.choose_random(lst, weights)`:
`random.choice(list(lst))` is uniform, and the `weights` branch calls
`random.choices(list(lst))` *without forwarding the weights*, which by the
Python standard library's semantics is also uniform. -/
def chooseRandomDist (lst : List Action) (weights : Option (List ℚ))
    (a : Action) : ℚ :=
  match weights with
  | none => (lst.count a : ℚ) / lst.length
  | some _ => (lst.count a : ℚ) / lst.length

/-- The outcome distribution of `tools.choose_random_action`: when the first
action carries a weight, strip the payloads into `choose_random` passing the
weight list; otherwise call `choose_random` without weights. -/
def chooseRandomActionDist (l : List WAction) (a : Action) : ℚ :=
  match l with
  | [] => 0
  | (_, w0) :: _ =>
    if w0.isSome then
      chooseRandomDist (l.map Prod.fst) (some (l.map fun p => p.2.getD 0)) a
    else
      chooseRandomDist (l.map Prod.fst) none a

/-- Modelled from the spec: selection "with probability proportional to its
weight component" — each action's probability is the total weight of its
entries divided by the total weight of the list. -/
def weightedChoiceDist (l : List WAction) (a : Action) : ℚ :=
  ((l.filter (fun p => p.1 = a)).map (fun p => p.2.getD 0)).sum /
    (l.map (fun p => p.2.getD 0)).sum

/-! ## Membership lemmas for the set and fold constructions -/

theorem mem_svInsert (acc : List SV) (sv b : SV) :
    b ∈ svInsert acc sv ↔ b ∈ acc ∨ b = sv := by
  by_cases hx : sv ∈ acc
  · simp only [svInsert, if_pos hx]
    constructor
    · exact Or.inl
    · rintro (hb | rfl)
      · exact hb
      · exact hx
  · simp [svInsert, hx]

theorem mem_svUnion (l : List SV) (acc : List SV) (b : SV) :
    b ∈ svUnion acc l ↔ b ∈ acc ∨ b ∈ l := by
  induction l generalizing acc with
  | nil => simp [svUnion]
  | cons x xs ih =>
    show b ∈ svUnion (svInsert acc x) xs ↔ _
    rw [ih, mem_svInsert]
    simp only [List.mem_cons]
    tauto

theorem nodup_svInsert (acc : List SV) (sv : SV) (hn : acc.Nodup) :
    (svInsert acc sv).Nodup := by
  by_cases hx : sv ∈ acc
  · simpa [svInsert, hx] using hn
  · simp only [svInsert, if_neg hx]
    simp [List.nodup_append, hn, hx]

theorem nodup_svUnion (l : List SV) (acc : List SV) (hn : acc.Nodup) :
    (svUnion acc l).Nodup := by
  induction l generalizing acc with
  | nil => simpa [svUnion] using hn
  | cons x xs ih => exact ih _ (nodup_svInsert acc x hn)

/-- Membership in `possible_card_plays`: the identity of a known hand card,
or any non-public identity when the hand holds an unknown card. -/
theorem mem_possibleCardPlays (h : Heap) (nonPub : List SV)
    (hand : List Nat) (b : SV) :
    b ∈ possibleCardPlays h nonPub hand ↔
      ∃ r ∈ hand,
        ((readCard h r).is_unknown = false ∧ cardId (readCard h r) = some b) ∨
        ((readCard h r).is_unknown = true ∧ b ∈ nonPub) := by
  have main : ∀ (hd : List Nat) (acc : List SV),
      b ∈ hd.foldl
        (fun acc r =>
          let c := readCard h r
          if c.is_unknown then svUnion acc nonPub
          else
            match cardId c with
            | some sv => svInsert acc sv
            | none => acc) acc ↔
      b ∈ acc ∨ ∃ r ∈ hd,
        ((readCard h r).is_unknown = false ∧ cardId (readCard h r) = some b) ∨
        ((readCard h r).is_unknown = true ∧ b ∈ nonPub) := by
    intro hd
    induction hd with
    | nil => simp
    | cons r rest ih =>
      intro acc
      simp only [List.foldl_cons]
      by_cases hu : (readCard h r).is_unknown = true
      · rw [if_pos hu, ih, mem_svUnion]
        simp only [List.mem_cons]
        constructor
        · rintro ((hb | hb) | ⟨r1, hr1, hP⟩)
          · exact Or.inl hb
          · exact Or.inr ⟨r, Or.inl rfl, Or.inr ⟨hu, hb⟩⟩
          · exact Or.inr ⟨r1, Or.inr hr1, hP⟩
        · rintro (hb | ⟨r1, (rfl | hr1), hP⟩)
          · exact Or.inl (Or.inl hb)
          · rcases hP with ⟨hf, _⟩ | ⟨_, hb⟩
            · rw [hu] at hf; cases hf
            · exact Or.inl (Or.inr hb)
          · exact Or.inr ⟨r1, hr1, hP⟩
      · rw [if_neg hu]
        rcases hid : cardId (readCard h r) with _ | sv
        · simp only [hid]
          rw [ih]
          simp only [List.mem_cons]
          constructor
          · rintro (hb | ⟨r1, hr1, hP⟩)
            · exact Or.inl hb
            · exact Or.inr ⟨r1, Or.inr hr1, hP⟩
          · rintro (hb | ⟨r1, (rfl | hr1), hP⟩)
            · exact Or.inl hb
            · rcases hP with ⟨_, hc⟩ | ⟨ht, _⟩
              · rw [hid] at hc; cases hc
              · exact absurd ht hu
            · exact Or.inr ⟨r1, hr1, hP⟩
        · simp only [hid]
          rw [ih, mem_svInsert]
          simp only [List.mem_cons]
          constructor
          · rintro ((hb | rfl) | ⟨r1, hr1, hP⟩)
            · exact Or.inl hb
            · exact Or.inr ⟨r, Or.inl rfl,
                Or.inl ⟨by simpa using hu, hid⟩⟩
            · exact Or.inr ⟨r1, Or.inr hr1, hP⟩
          · rintro (hb | ⟨r1, (rfl | hr1), hP⟩)
            · exact Or.inl (Or.inl hb)
            · rcases hP with ⟨_, hc⟩ | ⟨ht, _⟩
              · rw [hid] at hc
                injection hc with hc
                exact Or.inl (Or.inr hc.symm)
              · exact absurd ht hu
            · exact Or.inr ⟨r1, hr1, hP⟩
  rw [possibleCardPlays.eq_def]
  simpa using main hand []

theorem nodup_possibleCardPlays (h : Heap) (nonPub : List SV)
    (hand : List Nat) : (possibleCardPlays h nonPub hand).Nodup := by
  have main : ∀ (hd : List Nat) (acc : List SV), acc.Nodup →
      (hd.foldl
        (fun acc r =>
          let c := readCard h r
          if c.is_unknown then svUnion acc nonPub
          else
            match cardId c with
            | some sv => svInsert acc sv
            | none => acc) acc).Nodup := by
    intro hd
    induction hd with
    | nil => intro acc hacc; simpa using hacc
    | cons r rest ih =>
      intro acc hacc
      simp only [List.foldl_cons]
      apply ih
      by_cases hu : (readCard h r).is_unknown
      · simpa [hu] using nodup_svUnion nonPub acc hacc
      · rcases hid : cardId (readCard h r) with _ | sv
        · simpa [hu, hid] using hacc
        · simpa [hu, hid] using nodup_svInsert acc sv hacc
  rw [possibleCardPlays.eq_def]
  exact main hand [] List.nodup_nil

/-- Membership in an accumulate-by-append fold. -/
theorem mem_foldl_append {α β : Type} (f : β → List α) (ids : List β)
    (acc : List α) (a : α) :
    a ∈ ids.foldl (fun ac sv => ac ++ f sv) acc ↔
      a ∈ acc ∨ ∃ sv ∈ ids, a ∈ f sv := by
  induction ids generalizing acc with
  | nil => simp
  | cons x xs ih =>
    simp only [List.foldl_cons, ih, List.mem_append, List.mem_cons]
    constructor
    · rintro ((hb | hb) | ⟨sv, hsv, hP⟩)
      · exact Or.inl hb
      · exact Or.inr ⟨x, Or.inl rfl, hb⟩
      · exact Or.inr ⟨sv, Or.inr hsv, hP⟩
    · rintro (hb | ⟨sv, (rfl | hsv), hP⟩)
      · exact Or.inl (Or.inl hb)
      · exact Or.inl (Or.inr hP)
      · exact Or.inr ⟨sv, hsv, hP⟩

/-- Keys after `play_options[a] += w`. -/
theorem mem_addWeight_keys (acc : List (Action × ℚ)) (a : Action) (w : ℚ)
    (b : Action) :
    b ∈ (addWeight acc a w).map Prod.fst ↔
      b ∈ acc.map Prod.fst ∨ b = a := by
  by_cases hx : acc.any (fun p => p.1 = a)
  · have ha : a ∈ acc.map Prod.fst := by
      rcases List.any_eq_true.mp hx with ⟨p, hp, hpa⟩
      exact List.mem_map.mpr ⟨p, hp, of_decide_eq_true hpa⟩
    simp only [addWeight, if_pos hx]
    have hkeys : (acc.map fun p => if p.1 = a then (p.1, p.2 + w) else p).map
        Prod.fst = acc.map Prod.fst := by
      rw [List.map_map]
      apply List.map_congr_left
      intro p _
      by_cases hpa : p.1 = a <;> simp [hpa]
    rw [hkeys]
    constructor
    · exact Or.inl
    · rintro (hb | rfl)
      · exact hb
      · exact ha
  · simp only [addWeight, if_neg hx]
    simp

/-- Keys after a whole `for action in acts` weight loop. -/
theorem mem_addWeights_keys (acts : List Action) (acc : List (Action × ℚ))
    (w : ℚ) (b : Action) :
    b ∈ (addWeights acc acts w).map Prod.fst ↔
      b ∈ acc.map Prod.fst ∨ b ∈ acts := by
  induction acts generalizing acc with
  | nil => simp [addWeights]
  | cons x xs ih =>
    show b ∈ (addWeights (addWeight acc x w) xs w).map Prod.fst ↔ _
    rw [ih, mem_addWeight_keys]
    simp only [List.mem_cons]
    tauto

/-- The keys of the Defend-phase weight table are exactly the defend/reflect
options contributed by some hand card. -/
theorem mem_playOptions_keys (h : Heap) (s : GameState) (td : Nat)
    (hand : List Nat) (a : Action) :
    a ∈ (playOptions h s td hand).map Prod.fst ↔
      ∃ r ∈ hand,
        a ∈ cardDefendList h td (defendIdentities h s hand r) ∨
        a ∈ cardReflectList h s td (defendIdentities h s hand r) := by
  have main : ∀ (hd : List Nat) (acc : List (Action × ℚ)),
      a ∈ (hd.foldl
        (fun acc r =>
          let ids := defendIdentities h s hand r
          let dfd := cardDefendList h td ids
          let rfl1 := cardReflectList h s td ids
          let acc1 := addWeights acc dfd (1 / (dfd.length : ℚ))
          addWeights acc1 rfl1 (1 / (rfl1.length : ℚ))) acc).map Prod.fst ↔
      a ∈ acc.map Prod.fst ∨ ∃ r ∈ hd,
        a ∈ cardDefendList h td (defendIdentities h s hand r) ∨
        a ∈ cardReflectList h s td (defendIdentities h s hand r) := by
    intro hd
    induction hd with
    | nil => simp
    | cons r rest ih =>
      intro acc
      simp only [List.foldl_cons]
      rw [ih, mem_addWeights_keys, mem_addWeights_keys]
      simp only [List.mem_cons]
      constructor
      · rintro (((hb | hb) | hb) | ⟨r1, hr1, hP⟩)
        · exact Or.inl hb
        · exact Or.inr ⟨r, Or.inl rfl, Or.inl hb⟩
        · exact Or.inr ⟨r, Or.inl rfl, Or.inr hb⟩
        · exact Or.inr ⟨r1, Or.inr hr1, hP⟩
      · rintro (hb | ⟨r1, (rfl | hr1), hP⟩)
        · exact Or.inl (Or.inl (Or.inl hb))
        · rcases hP with hP | hP
          · exact Or.inl (Or.inl (Or.inr hP))
          · exact Or.inl (Or.inr hP)
        · exact Or.inr ⟨r1, hr1, hP⟩
  rw [playOptions.eq_def]
  simpa using main hand []

/-! ## Theorems -/

/-- C10: `reset()` clears `trump_suit` (together with every other binding);
`from_suit_value` assigns only suit and value, never `trump_suit`; hence a
card that is reset and later rebound keeps `trump_suit = None`, and its
`is_trump()` is false even when the bound suit equals the game's trump
suit (the suit is `some s`, the trump suit `none`). -/
theorem reset_rebind_not_trump (c c1 : Card) (s v : Nat)
    (hb : (Card.reset c).from_suit_value s v = some c1) :
    (Card.reset c).trump_suit = none ∧
    (∀ (c0 c2 : Card) (s0 v0 : Nat),
        c0.from_suit_value s0 v0 = some c2 → c2.trump_suit = c0.trump_suit) ∧
    c1.trump_suit = none ∧ c1.suit = some s ∧ c1.is_trump = false := by
  refine ⟨rfl, ?_, ?_⟩
  · intro c0 c2 s0 v0 h0
    unfold Card.from_suit_value at h0
    by_cases hu : c0.is_unknown
    · simp [hu] at h0
      subst h0
      rfl
    · simp [hu] at h0
  · unfold Card.from_suit_value Card.reset at hb
    simp at hb
    subst hb
    exact ⟨rfl, rfl, rfl⟩

/-- Witness for C10 at a concrete card and the concrete trump suit `2`:
rebinding a reset card to the trump suit still yields a non-trump card. -/
theorem reset_rebind_not_trump_witness :
    ∃ c1 : Card,
      (Card.reset { Card.freshCard with
                    suit := some 2
                    value := some 5
                    trump_suit := some 2
                    is_unknown := false }).from_suit_value 2 7 = some c1 ∧
      c1.trump_suit = none ∧ c1.suit = some 2 ∧ c1.is_trump = false := by
  refine ⟨_, rfl, ?_⟩
  have h := reset_rebind_not_trump
    { Card.freshCard with
      suit := some 2
      value := some 5
      trump_suit := some 2
      is_unknown := false } _ 2 7 rfl
  exact ⟨h.2.2.1, h.2.2.2.1, h.2.2.2.2⟩

/-- C9 (code bug): `choose_random` never forwards its `weights` argument to
`random.choices`, so the "weighted" branch of `choose_random_action` selects
uniformly.  At the two-action input with weights 1 and 3, the code picks the
second action with probability 1/2 while weight-proportional selection (the
spec's behaviour) would pick it with probability 3/4. -/
theorem choose_random_action_ignores_weights :
    chooseRandomActionDist
        [(Action.take, some 1), (Action.passAttack, some 3)]
        Action.passAttack = 1 / 2 ∧
    weightedChoiceDist
        [(Action.take, some 1), (Action.passAttack, some 3)]
        Action.passAttack = 3 / 4 ∧
    ((1 : ℚ) / 2) ≠ 3 / 4 ∧
    (∀ l : List WAction, l ≠ [] → (∀ p ∈ l, p.2 = none) →
      ∀ a, chooseRandomActionDist l a = (l.map Prod.fst).count a /
        ((l.map Prod.fst).length : ℚ)) := by
  refine ⟨?_, ?_, by norm_num, ?_⟩
  · simp [chooseRandomActionDist, chooseRandomDist, List.count_cons]
  · simp [weightedChoiceDist]
    norm_num
  intro l hne hw a
  match l with
  | [] => exact absurd rfl hne
  | (a0, w0) :: rest =>
    have h0 : w0 = none := hw (a0, w0) (List.mem_cons_self _ _)
    simp [chooseRandomActionDist, chooseRandomDist, h0]

/-- C8: the `new_trick` case analysis.  A seat is living iff its hand is
non-empty or the deck is non-empty; with zero living players the state is
terminal and the previous defender loses; with one living player that player
loses; with two or more the second living seat defends, the rest attack, and
the state stays non-terminal. -/
theorem new_trick_cases (s : GameState) (name : String) (s1 : GameState)
    (idx : Nat)
    (hfind : s.players.findIdx? (fun p => p.name = name) = some idx)
    (hend : s.is_end_state = false)
    (hnt : newTrick s name = some s1) :
    (∀ j, j ∈ livingFrom s idx ↔
      j ∈ seatRotation s.players.length idx ∧
        ((getPlayer s j).hand ≠ [] ∨ s.deck ≠ [])) ∧
    (match livingFrom s idx with
     | [] => s1.is_end_state = true ∧ s1.loser = s.defender
     | [x] => s1.is_end_state = true ∧ s1.loser = some x
     | _ :: _ :: _ => s1.is_end_state = false) ∧
    (match livingFrom s idx with
     | a0 :: d :: rest =>
        s1.defender = some d ∧ s1.attackers = a0 :: rest ∧
        s1.current_attacker = 0 ∧ s1.player_to_play = a0 ∧
        s1.draw_order = (a0 :: rest) ++ [d]
     | _ => True) := by
  constructor
  · intro j
    constructor
    · intro hj
      unfold livingFrom at hj
      have := List.mem_filter.mp hj
      refine ⟨this.1, ?_⟩
      have hd := this.2
      simpa using of_decide_eq_true hd
    · intro ⟨h1, h2⟩
      unfold livingFrom
      exact List.mem_filter.mpr ⟨h1, decide_eq_true (by simpa using h2)⟩
  · unfold newTrick at hnt
    rw [hfind] at hnt
    rcases hliv : livingFrom s idx with _ | ⟨a0, _ | ⟨d, rest⟩⟩ <;>
        simp only [hliv] at hnt <;> simp at hnt <;> subst hnt <;>
      simp [hend]

/-- Witness for C8 at the concrete freshly dealt two-player game (two living
players: `P1` attacks, `P2` defends). -/
theorem new_trick_cases_witness :
    ∃ s s1 : GameState,
      newTrick s "P1" = some s1 ∧
      s.players.findIdx? (fun p => p.name = "P1") = some 0 ∧
      livingFrom s 0 = [0, 1] ∧
      s1.defender = some 1 ∧ s1.attackers = [0] ∧
      s1.is_end_state = false := by
  let s : GameState :=
    { players := [⟨"P1", [0]⟩, ⟨"P2", [1]⟩]
      deck := []
      card_collection := List.range 36
      all_cards := allCardsList
      history := []
      attackers := []
      defender := none
      current_attacker := 0
      player_to_play := 0
      draw_order := []
      attacker_to_start_throwing := none
      last_played_attacker := none
      reflected_trumps := []
      current_action := Phase.Attack
      pairs_finished := []
      cards_to_defend := []
      is_end_state := false
      loser := none
      computer_shuffle := true
      print_info := true }

  have hnt : newTrick s "P1" = some ((newTrick s "P1").getD default) := by decide
  have h := new_trick_cases s "P1" ((newTrick s "P1").getD default) 0
    (by decide) (by decide) hnt
  refine ⟨s, (newTrick s "P1").getD default, hnt, by decide, by decide, ?_⟩
  have hliv : livingFrom s 0 = [0, 1] := by decide
  have h3 := h.2.2
  have h2 := h.2.1
  rw [hliv] at h3 h2
  exact ⟨h3.1, h3.2.1, h2⟩

/-- Characterisation of the Attack-phase enumeration: an optional
`PassAttack` (iff a pair is finished), and one attack per playable identity
(filtered to table values when a pair is finished) provided the defender
still holds cards. -/
theorem mem_allowedPlays_attack (h : Heap) (s : GameState)
    (hph : s.current_action = Phase.Attack) (x : WAction) :
    x ∈ allowedPlays h s ↔
      (x = (Action.passAttack, none) ∧ s.pairs_finished ≠ []) ∨
      (∃ sv, x = (Action.attack sv, none) ∧
        (getPlayer s (s.defender.getD 0)).hand ≠ [] ∧
        sv ∈ possibleCardPlays h (getNonPublicCards h s)
            (getPlayer s s.player_to_play).hand ∧
        (s.pairs_finished ≠ [] →
          some sv.2 ∈ (pairsFlat s).map fun r => (readCard h r).value)) := by
  unfold allowedPlays
  rw [hph]
  simp only [List.mem_append]
  by_cases hp : s.pairs_finished = []
  · have hlen : ¬ 0 < s.pairs_finished.length := by simp [hp]
    simp only [if_neg hlen]
    by_cases hdef : (getPlayer s (s.defender.getD 0)).hand = []
    · have hd0 : ¬ 0 < (getPlayer s (s.defender.getD 0)).hand.length := by
        simp [hdef]
      simp only [if_neg hd0, List.not_mem_nil, or_self, false_iff]
      rintro (⟨_, hne⟩ | ⟨sv, _, hne, _⟩)
      · exact hne hp
      · exact hne hdef
    · have hd1 : 0 < (getPlayer s (s.defender.getD 0)).hand.length :=
        List.length_pos.mpr hdef
      simp only [if_pos hd1, List.not_mem_nil, false_or, List.mem_map]
      constructor
      · rintro ⟨sv, hsv, rfl⟩
        exact Or.inr ⟨sv, rfl, hdef, hsv, fun hc => absurd hp hc⟩
      · rintro (⟨_, hne⟩ | ⟨sv, rfl, _, hsv, _⟩)
        · exact absurd hp hne
        · exact ⟨sv, hsv, rfl⟩
  · have hplen : 0 < s.pairs_finished.length := List.length_pos.mpr hp
    simp only [if_pos hplen, List.mem_singleton]
    by_cases hdef : (getPlayer s (s.defender.getD 0)).hand = []
    · have hd0 : ¬ 0 < (getPlayer s (s.defender.getD 0)).hand.length := by
        simp [hdef]
      simp only [if_neg hd0, List.not_mem_nil, or_false]
      constructor
      · rintro rfl
        exact Or.inl ⟨rfl, hp⟩
      · rintro (⟨rfl, _⟩ | ⟨sv, _, hne, _⟩)
        · rfl
        · exact absurd hdef hne
    · have hd1 : 0 < (getPlayer s (s.defender.getD 0)).hand.length :=
        List.length_pos.mpr hdef
      simp only [if_pos hd1, List.mem_map, List.mem_filter]
      constructor
      · rintro (rfl | ⟨sv, ⟨hsv, hval⟩, rfl⟩)
        · exact Or.inl ⟨rfl, hp⟩
        · exact Or.inr ⟨sv, rfl, hdef, hsv,
            fun _ => of_decide_eq_true hval⟩
      · rintro (⟨rfl, _⟩ | ⟨sv, rfl, _, hsv, hval⟩)
        · exact Or.inl rfl
        · exact Or.inr ⟨sv, ⟨hsv, decide_eq_true (hval hp)⟩, rfl⟩

/-- C6: in the Attack phase, `PassAttack` is enumerated iff a pair has been
finished this trick; when one has, every enumerated `Attack(s,v)` has a value
already on the table (in the finished pairs, hence in pairs-or-awaiting);
and attack actions are enumerated only while the defender's hand is
non-empty. -/
theorem attack_phase_actions (h : Heap) (s : GameState)
    (hph : s.current_action = Phase.Attack) :
    ((Action.passAttack, (none : Option ℚ)) ∈ allowedPlays h s ↔
      s.pairs_finished ≠ []) ∧
    (s.pairs_finished ≠ [] → ∀ sv w, (Action.attack sv, w) ∈ allowedPlays h s →
      some sv.2 ∈ ((pairsFlat s).map fun r => (readCard h r).value) ∨
      some sv.2 ∈ (s.cards_to_defend.map fun r => (readCard h r).value)) ∧
    (∀ sv w, (Action.attack sv, w) ∈ allowedPlays h s →
      (getPlayer s (s.defender.getD 0)).hand ≠ []) := by
  refine ⟨?_, ?_, ?_⟩
  · rw [mem_allowedPlays_attack h s hph]
    constructor
    · rintro (⟨_, hne⟩ | ⟨sv, hx, _⟩)
      · exact hne
      · cases hx
    · intro hne
      exact Or.inl ⟨rfl, hne⟩
  · intro hne sv w hx
    rw [mem_allowedPlays_attack h s hph] at hx
    rcases hx with ⟨hx, _⟩ | ⟨sv1, hx, _, _, hval⟩
    · cases hx
    · injection hx with hx1 _
      injection hx1 with hx1
      subst hx1
      exact Or.inl (hval hne)
  · intro sv w hx
    rw [mem_allowedPlays_attack h s hph] at hx
    rcases hx with ⟨hx, _⟩ | ⟨sv1, _, hd, _⟩
    · cases hx
    · exact hd

/-- Witness for C6 at the freshly dealt two-player game (Attack phase, no
pair finished): `PassAttack` is not enumerated, and the defender holds
cards whenever an attack is enumerated. -/
theorem attack_phase_actions_witness :
    ∃ h0 : Heap, ∃ s0 : GameState,
      initGame ["P1", "P2"] (0, 0) "P1" = some (h0, s0) ∧
      s0.current_action = Phase.Attack ∧
      ¬ ((Action.passAttack, (none : Option ℚ)) ∈ allowedPlays h0 s0) := by
  refine ⟨((initGame ["P1", "P2"] (0, 0) "P1").getD default).1,
          ((initGame ["P1", "P2"] (0, 0) "P1").getD default).2,
          by decide, by decide, ?_⟩
  intro hmem
  have h := (attack_phase_actions
    ((initGame ["P1", "P2"] (0, 0) "P1").getD default).1
    ((initGame ["P1", "P2"] (0, 0) "P1").getD default).2
    (by decide)).1
  have : ((initGame ["P1", "P2"] (0, 0) "P1").getD
      default).2.pairs_finished ≠ [] := h.mp hmem
  exact this (by decide)

theorem mem_map_fst {α β : Type} (l : List (α × β)) (a : α) :
    a ∈ l.map Prod.fst ↔ ∃ w, (a, w) ∈ l := by
  rw [List.mem_map]
  constructor
  · rintro ⟨⟨a1, w⟩, hp, rfl⟩
    exact ⟨w, hp⟩
  · rintro ⟨w, hw⟩
    exact ⟨(a, w), hw, rfl⟩

/-- A `Reflect` option is generated for a candidate identity exactly under
the code's conditions: no finished pair, room for one more pile at the
hypothetical new defender, and a matching attack value. -/
theorem reflect_mem_reflectEntries (h : Heap) (s : GameState) (td : Nat)
    (svi sv : SV) :
    Action.reflect sv ∈ reflectEntries h s td svi ↔
      sv = svi ∧ s.pairs_finished = [] ∧
      ∃ nd, s.attackers.get? (1 % s.attackers.length) = some nd ∧
        1 ≤ ((getPlayer s nd).hand.length : Int) -
            (s.cards_to_defend.length : Int) ∧
        some svi.2 = (readCard h td).value := by
  unfold reflectEntries
  by_cases hp : s.pairs_finished.length = 0
  · rw [if_pos hp]
    have hpe : s.pairs_finished = [] := List.length_eq_zero.mp hp
    rcases hnd : s.attackers.get? (1 % s.attackers.length) with _ | nd
    · simp [hpe]
    · simp only [List.mem_append]
      constructor
      · rintro (hmem | hmem) <;> split_ifs at hmem with hc <;>
          simp only [List.mem_singleton, List.not_mem_nil] at hmem
        · cases hmem
          exact ⟨rfl, hpe, nd, rfl, hc.1, hc.2⟩
        · cases hmem
      · rintro ⟨rfl, _, nd1, hnd1, hpile, hval⟩
        injection hnd1 with hnd1
        subst hnd1
        left
        rw [if_pos ⟨hpile, hval⟩]
        exact List.mem_singleton.mpr rfl
  · rw [if_neg hp]
    simp only [List.not_mem_nil, false_iff]
    rintro ⟨_, hpe, _⟩
    exact hp (by simp [hpe])

/-- A `ReflectTrump` option is generated for a candidate identity exactly
under the code's conditions: no finished pair, enough cards at the
hypothetical new defender, matching value, the trump suit, and a trump not
yet used to reflect this trick. -/
theorem reflectTrump_mem_reflectEntries (h : Heap) (s : GameState) (td : Nat)
    (svi sv : SV) :
    Action.reflectTrump sv ∈ reflectEntries h s td svi ↔
      sv = svi ∧ s.pairs_finished = [] ∧
      ∃ nd, s.attackers.get? (1 % s.attackers.length) = some nd ∧
        0 ≤ ((getPlayer s nd).hand.length : Int) -
            (s.cards_to_defend.length : Int) ∧
        some svi.2 = (readCard h td).value ∧
        some svi.1 = (readCard h td).trump_suit ∧
        svi ∉ s.reflected_trumps := by
  unfold reflectEntries
  by_cases hp : s.pairs_finished.length = 0
  · rw [if_pos hp]
    have hpe : s.pairs_finished = [] := List.length_eq_zero.mp hp
    rcases hnd : s.attackers.get? (1 % s.attackers.length) with _ | nd
    · simp [hpe]
    · simp only [List.mem_append]
      constructor
      · rintro (hmem | hmem) <;> split_ifs at hmem with hc <;>
          simp only [List.mem_singleton, List.not_mem_nil] at hmem
        · cases hmem
        · cases hmem
          exact ⟨rfl, hpe, nd, rfl, hc.1, hc.2.1, hc.2.2.1, hc.2.2.2⟩
      · rintro ⟨rfl, _, nd1, hnd1, hpile, hval, htr, href⟩
        injection hnd1 with hnd1
        subst hnd1
        right
        rw [if_pos ⟨hpile, hval, htr, href⟩]
        exact List.mem_singleton.mpr rfl
  · rw [if_neg hp]
    simp only [List.not_mem_nil, false_iff]
    rintro ⟨_, hpe, _⟩
    exact hp (by simp [hpe])

/-- Every defend option is a `Defend` action. -/
theorem defendEntries_shape (h : Heap) (td : Nat) (sv : SV) (a : Action)
    (ha : a ∈ defendEntries h td sv) : a = Action.defend sv := by
  unfold defendEntries at ha
  rw [List.mem_append] at ha
  rcases ha with ha | ha <;> split_ifs at ha <;>
      simp only [List.mem_singleton, List.not_mem_nil] at ha <;>
    exact ha

theorem mem_cardDefendList (h : Heap) (td : Nat) (ids : List SV)
    (a : Action) :
    a ∈ cardDefendList h td ids ↔ ∃ sv ∈ ids, a ∈ defendEntries h td sv := by
  unfold cardDefendList
  rw [mem_foldl_append]
  simp

theorem mem_cardReflectList (h : Heap) (s : GameState) (td : Nat)
    (ids : List SV) (a : Action) :
    a ∈ cardReflectList h s td ids ↔
      ∃ sv ∈ ids, a ∈ reflectEntries h s td sv := by
  unfold cardReflectList
  rw [mem_foldl_append]
  simp

/-- Membership in the Defend-phase enumeration, at the level of action
keys: the weight table's keys plus the always-available `Take`. -/
theorem mem_allowedPlays_defend (h : Heap) (s : GameState) (td : Nat)
    (rest : List Nat) (hph : s.current_action = Phase.Defend)
    (hctd : s.cards_to_defend = td :: rest) (a : Action) :
    (∃ w, (a, w) ∈ allowedPlays h s) ↔
      (a = Action.take ∨
        ∃ r ∈ (getPlayer s s.player_to_play).hand,
          a ∈ cardDefendList h td
              (defendIdentities h s (getPlayer s s.player_to_play).hand r) ∨
          a ∈ cardReflectList h s td
              (defendIdentities h s (getPlayer s s.player_to_play).hand r)) := by
  unfold allowedPlays
  rw [hph, hctd]
  simp only [List.mem_append, List.mem_singleton, List.mem_map]
  constructor
  · rintro ⟨w, ⟨p, hp, hpe⟩ | hpe⟩
    · right
      rw [← mem_playOptions_keys h s td (getPlayer s s.player_to_play).hand]
      injection hpe with hpe1 _
      exact hpe1 ▸ List.mem_map.mpr ⟨p, hp, rfl⟩
    · left
      exact congrArg Prod.fst hpe
  · rintro (rfl | hmem)
    · exact ⟨some (1 / 2 : ℚ), Or.inr rfl⟩
    · rw [← mem_playOptions_keys h s td (getPlayer s s.player_to_play).hand]
        at hmem
      rcases (mem_map_fst _ _).mp hmem with ⟨q, hq⟩
      exact ⟨some q, Or.inl ⟨(a, q), hq, rfl⟩⟩

/-- C5: Defend-phase reflect actions. Soundness: `Reflect(s,v)` is enumerated
only when no pair is finished, `v` matches the head card to defend, and the
hypothetical new defender `attackers[1 % len]` holds at least
`len(cards_to_defend) + 1` cards; `ReflectTrump(s,v)` only when no pair is
finished, the value matches, `s` is the trump suit, `(s,v)` was not already
used to reflect, and the new defender holds at least `len(cards_to_defend)`
cards.  Completeness: every candidate identity of a hand card meeting the
conditions yields the corresponding action. -/
theorem defend_reflect_conditions (h : Heap) (s : GameState) (td : Nat)
    (rest : List Nat) (hph : s.current_action = Phase.Defend)
    (hctd : s.cards_to_defend = td :: rest) :
    (∀ sv w, (Action.reflect sv, w) ∈ allowedPlays h s →
      s.pairs_finished = [] ∧
      some sv.2 = (readCard h td).value ∧
      ∃ nd, s.attackers.get? (1 % s.attackers.length) = some nd ∧
        s.cards_to_defend.length + 1 ≤ (getPlayer s nd).hand.length) ∧
    (∀ sv w, (Action.reflectTrump sv, w) ∈ allowedPlays h s →
      s.pairs_finished = [] ∧
      some sv.2 = (readCard h td).value ∧
      some sv.1 = (readCard h td).trump_suit ∧
      sv ∉ s.reflected_trumps ∧
      ∃ nd, s.attackers.get? (1 % s.attackers.length) = some nd ∧
        s.cards_to_defend.length ≤ (getPlayer s nd).hand.length) ∧
    (∀ r ∈ (getPlayer s s.player_to_play).hand,
      ∀ sv ∈ defendIdentities h s (getPlayer s s.player_to_play).hand r,
      ∀ nd, s.attackers.get? (1 % s.attackers.length) = some nd →
        (s.pairs_finished = [] → some sv.2 = (readCard h td).value →
          s.cards_to_defend.length + 1 ≤ (getPlayer s nd).hand.length →
          ∃ w, (Action.reflect sv, w) ∈ allowedPlays h s) ∧
        (s.pairs_finished = [] → some sv.2 = (readCard h td).value →
          some sv.1 = (readCard h td).trump_suit → sv ∉ s.reflected_trumps →
          s.cards_to_defend.length ≤ (getPlayer s nd).hand.length →
          ∃ w, (Action.reflectTrump sv, w) ∈ allowedPlays h s)) := by
  refine ⟨?_, ?_, ?_⟩
  · intro sv w hmem
    have hx := (mem_allowedPlays_defend h s td rest hph hctd
        (Action.reflect sv)).mp ⟨w, hmem⟩
    rcases hx with hx | ⟨r, _, hx | hx⟩
    · cases hx
    · rcases (mem_cardDefendList _ _ _ _).mp hx with ⟨svi, _, hd⟩
      cases defendEntries_shape h td svi _ hd
    · rcases (mem_cardReflectList _ _ _ _ _).mp hx with ⟨svi, _, hrefl⟩
      rcases (reflect_mem_reflectEntries h s td svi sv).mp hrefl with
        ⟨rfl, hpe, nd, hnd, hpile, hval⟩
      exact ⟨hpe, hval, nd, hnd, by omega⟩
  · intro sv w hmem
    have hx := (mem_allowedPlays_defend h s td rest hph hctd
        (Action.reflectTrump sv)).mp ⟨w, hmem⟩
    rcases hx with hx | ⟨r, _, hx | hx⟩
    · cases hx
    · rcases (mem_cardDefendList _ _ _ _).mp hx with ⟨svi, _, hd⟩
      cases defendEntries_shape h td svi _ hd
    · rcases (mem_cardReflectList _ _ _ _ _).mp hx with ⟨svi, _, hrefl⟩
      rcases (reflectTrump_mem_reflectEntries h s td svi sv).mp hrefl with
        ⟨rfl, hpe, nd, hnd, hpile, hval, htr, hrt⟩
      exact ⟨hpe, hval, htr, hrt, nd, hnd, by omega⟩
  · intro r hr sv hsv nd hnd
    constructor
    · intro hpe hval hpile
      apply (mem_allowedPlays_defend h s td rest hph hctd
        (Action.reflect sv)).mpr
      refine Or.inr ⟨r, hr, Or.inr ?_⟩
      rw [mem_cardReflectList]
      refine ⟨sv, hsv, ?_⟩
      rw [reflect_mem_reflectEntries]
      exact ⟨rfl, hpe, nd, hnd, by omega, hval⟩
    · intro hpe hval htr hrt hpile
      apply (mem_allowedPlays_defend h s td rest hph hctd
        (Action.reflectTrump sv)).mpr
      refine Or.inr ⟨r, hr, Or.inr ?_⟩
      rw [mem_cardReflectList]
      refine ⟨sv, hsv, ?_⟩
      rw [reflectTrump_mem_reflectEntries]
      exact ⟨rfl, hpe, nd, hnd, by omega, hval, htr, hrt⟩

/-! ### A concrete game used by the witnesses: two players, bottom card
`(0,0)` (trump suit 0), `P1` attacks `P2`. -/

def demoInit : Heap × GameState :=
  (initGame ["P1", "P2"] (0, 0) "P1").getD default

def demoAfterAttack : Heap × GameState :=
  (executeAction demoInit.1 demoInit.2 (Action.attack (1, 0))).getD default

def demoAfterDefend : Heap × GameState :=
  (executeAction demoAfterAttack.1 demoAfterAttack.2
    (Action.defend (1, 1))).getD default

def demoAfterTake : Heap × GameState :=
  (executeAction demoAfterAttack.1 demoAfterAttack.2 Action.take).getD default

/-- Witness for C5 at the concrete Defend-phase state after `P1` attacks
with `(1,0)`: the defender's first (unknown) card has the candidate identity
`(2,0)`, which matches the attack value and the new-defender hand bound, so
`Reflect(2,0)` is enumerated. -/
theorem defend_reflect_conditions_witness :
    ∃ w, (Action.reflect (2, 0), w) ∈
      allowedPlays demoAfterAttack.1 demoAfterAttack.2 := by
  have h := (defend_reflect_conditions demoAfterAttack.1 demoAfterAttack.2
    0 [] (by decide) (by decide)).2.2
  exact (h 6 (by decide) (2, 0) (by decide) 0 (by decide)).1
    (by decide) (by decide) (by decide)

/-- Characterisation of the Throw-phase enumeration: the pass, plus one
action per candidate subset of size `1 .. max_throws` passing `can_throw`. -/
theorem mem_allowedPlays_throw (h : Heap) (s : GameState)
    (hph : s.current_action = Phase.ThrowCards) (x : WAction) :
    x ∈ allowedPlays h s ↔
      x = (Action.throwCards none, none) ∨
      ∃ l, x = (Action.throwCards (some l), none) ∧
        List.Sublist l (possThrowsOf h s) ∧ 1 ≤ l.length ∧
        (l.length : Int) ≤ maxThrowsOf h s ∧
        canThrow h (getNonPublicCards h s)
          (getPlayer s s.player_to_play).hand l = true := by
  unfold allowedPlays
  rw [hph]
  simp only [List.mem_cons, List.mem_flatMap, List.mem_map, List.mem_filter,
    List.mem_range'_1, List.mem_sublistsLen]
  constructor
  · rintro (rfl | ⟨k, ⟨hk1, hk2⟩, l, ⟨⟨hsub, hlen⟩, hct⟩, rfl⟩)
    · exact Or.inl rfl
    · refine Or.inr ⟨l, rfl, hsub, ?_, ?_, hct⟩
      · omega
      · subst hlen
        omega
  · rintro (rfl | ⟨l, rfl, hsub, h1, h2, hct⟩)
    · exact Or.inl rfl
    · refine Or.inr ⟨l.length, ⟨h1, ?_⟩, l, ⟨⟨hsub, rfl⟩, hct⟩, rfl⟩
      omega

/-- C4: in the Throw phase, no enumerated subset exceeds
`min(defender_hand − len(cards_to_defend), candidate_count, thrower_hand)`
(`maxThrowsOf`); every candidate subset of size 1 up to that bound passing
`can_throw` is enumerated; and the pass `ThrowCards(None)` is always
enumerated. -/
theorem throw_enumeration_bound (h : Heap) (s : GameState)
    (hph : s.current_action = Phase.ThrowCards) :
    (∀ l w, (Action.throwCards (some l), w) ∈ allowedPlays h s →
      1 ≤ l.length ∧ (l.length : Int) ≤ maxThrowsOf h s ∧
      canThrow h (getNonPublicCards h s)
        (getPlayer s s.player_to_play).hand l = true) ∧
    (∀ l, List.Sublist l (possThrowsOf h s) → 1 ≤ l.length →
      (l.length : Int) ≤ maxThrowsOf h s →
      canThrow h (getNonPublicCards h s)
        (getPlayer s s.player_to_play).hand l = true →
      (Action.throwCards (some l), (none : Option ℚ)) ∈ allowedPlays h s) ∧
    (Action.throwCards none, (none : Option ℚ)) ∈ allowedPlays h s := by
  refine ⟨?_, ?_, ?_⟩
  · intro l w hmem
    rcases (mem_allowedPlays_throw h s hph _).mp hmem with hx |
      ⟨l1, hx, hsub, h1, h2, hct⟩
    · cases hx
    · injection hx with hx1 _
      injection hx1 with hx1
      injection hx1 with hx1
      subst hx1
      exact ⟨h1, h2, hct⟩
  · intro l hsub h1 h2 hct
    exact (mem_allowedPlays_throw h s hph _).mpr
      (Or.inr ⟨l, rfl, hsub, h1, h2, hct⟩)
  · exact (mem_allowedPlays_throw h s hph _).mpr (Or.inl rfl)

set_option maxRecDepth 8000 in
/-- Witness for C4 at the concrete Throw-phase state after the defender
takes: the singleton throw `(2,0)` (same value as the undefended attack
card) is enumerated, and so is the pass. -/
theorem throw_enumeration_bound_witness :
    (Action.throwCards (some [(2, 0)]), (none : Option ℚ)) ∈
      allowedPlays demoAfterTake.1 demoAfterTake.2 ∧
    (Action.throwCards none, (none : Option ℚ)) ∈
      allowedPlays demoAfterTake.1 demoAfterTake.2 := by
  have h := throw_enumeration_bound demoAfterTake.1 demoAfterTake.2 (by decide)
  refine ⟨h.2.1 [(2, 0)] ?_ (by decide) (by decide) (by decide), h.2.2⟩
  exact (List.mem_sublistsLen.mp
    (show [(2, 0)] ∈ List.sublistsLen 1
        (possThrowsOf demoAfterTake.1 demoAfterTake.2) from by decide)).1

/-! ### Structural lemmas: hands, refilling, `new_trick` -/

theorem getPlayer_setPlayerHand_self (s : GameState) (i : Nat)
    (hd : List Nat) (hi : i < s.players.length) :
    getPlayer (setPlayerHand s i hd) i = { getPlayer s i with hand := hd } := by
  show (s.players.set i { getPlayer s i with hand := hd }).getD i default = _
  rw [List.getD_eq_getElem?_getD, List.getElem?_set, if_pos rfl, if_pos hi]
  rfl

theorem getPlayer_setPlayerHand_other (s : GameState) (i j : Nat)
    (hd : List Nat) (hne : j ≠ i) :
    getPlayer (setPlayerHand s i hd) j = getPlayer s j := by
  show (s.players.set i _).getD j default = s.players.getD j default
  rw [List.getD_eq_getElem?_getD, List.getElem?_set_ne (Ne.symm hne),
    List.getD_eq_getElem?_getD]

theorem getPlayer_setPlayerHand_oor (s : GameState) (i j : Nat)
    (hd : List Nat) (hi : ¬ i < s.players.length) :
    getPlayer (setPlayerHand s i hd) j = getPlayer s j := by
  by_cases hij : i = j
  · subst hij
    show (s.players.set i _).getD i default = s.players.getD i default
    rw [List.getD_eq_getElem?_getD, List.getElem?_set, if_pos rfl, if_neg hi,
      List.getD_eq_getElem?_getD, List.getElem?_len_le (by omega)]
  · exact getPlayer_setPlayerHand_other s i j hd (fun hh => hij hh.symm)

theorem setPlayerHand_length (s : GameState) (i : Nat) (hd : List Nat) :
    (setPlayerHand s i hd).players.length = s.players.length := by
  simp [setPlayerHand]

theorem getPlayer_getElem (s : GameState) (p : Nat)
    (hp : p < s.players.length) : getPlayer s p = s.players[p] := by
  unfold getPlayer
  rw [List.getD_eq_getElem?_getD, List.getElem?_eq_getElem hp]
  rfl

theorem setPlayerHand_players (s : GameState) (i : Nat) (hd : List Nat)
    (hi : i < s.players.length) :
    (setPlayerHand s i hd).players =
      s.players.set i { s.players[i] with hand := hd } := by
  unfold setPlayerHand
  rw [getPlayer_getElem s i hi]

theorem refillOver_attackers (order : List Nat) :
    ∀ s : GameState, (refillOver order s).attackers = s.attackers := by
  induction order with
  | nil => intro s; rfl
  | cons i rest ih => intro s; exact (ih (refillStep s i)).trans rfl

theorem refillOver_defender (order : List Nat) :
    ∀ s : GameState, (refillOver order s).defender = s.defender := by
  induction order with
  | nil => intro s; rfl
  | cons i rest ih => intro s; exact (ih (refillStep s i)).trans rfl

theorem refillOver_pairs (order : List Nat) :
    ∀ s : GameState, (refillOver order s).pairs_finished = s.pairs_finished := by
  induction order with
  | nil => intro s; rfl
  | cons i rest ih => intro s; exact (ih (refillStep s i)).trans rfl

theorem refillOver_ctd (order : List Nat) :
    ∀ s : GameState,
      (refillOver order s).cards_to_defend = s.cards_to_defend := by
  induction order with
  | nil => intro s; rfl
  | cons i rest ih => intro s; exact (ih (refillStep s i)).trans rfl

theorem refillOver_players_length (order : List Nat) :
    ∀ s : GameState,
      (refillOver order s).players.length = s.players.length := by
  induction order with
  | nil => intro s; rfl
  | cons i rest ih =>
    intro s
    exact (ih (refillStep s i)).trans (setPlayerHand_length _ _ _)

/-- Refilling only appends cards to a hand. -/
theorem refillOver_hand_extends (order : List Nat) :
    ∀ (s : GameState) (i : Nat), ∃ t,
      (getPlayer (refillOver order s) i).hand = (getPlayer s i).hand ++ t := by
  induction order with
  | nil => intro s i; exact ⟨[], (List.append_nil _).symm⟩
  | cons j rest ih =>
    intro s i
    rcases ih (refillStep s j) i with ⟨t, ht⟩
    have hgoal : (getPlayer (refillOver (j :: rest) s) i).hand =
        (getPlayer (refillOver rest (refillStep s j)) i).hand := rfl
    by_cases hj : i = j
    · subst hj
      by_cases hlt : i < s.players.length
      · have hstep : (getPlayer (refillStep s i) i).hand =
            (getPlayer s i).hand ++
              s.deck.take (min (6 - (getPlayer s i).hand.length)
                s.deck.length) := by
          unfold refillStep fillHand
          rw [getPlayer_setPlayerHand_self _ _ _ (by simpa using hlt)]
        refine ⟨s.deck.take (min (6 - (getPlayer s i).hand.length)
          s.deck.length) ++ t, ?_⟩
        rw [hgoal, ht, hstep, List.append_assoc]
      · have hstep : getPlayer (refillStep s i) i = getPlayer s i := by
          unfold refillStep
          exact getPlayer_setPlayerHand_oor _ _ _ _ (by simpa using hlt)
        exact ⟨t, by rw [hgoal, ht, hstep]⟩
    · have hstep : getPlayer (refillStep s j) i = getPlayer s i := by
        unfold refillStep
        exact getPlayer_setPlayerHand_other _ _ _ _ hj
      exact ⟨t, by rw [hgoal, ht, hstep]⟩

theorem newTrick_facts (s : GameState) (name : String) (s1 : GameState)
    (h : newTrick s name = some s1) :
    s1.players = s.players ∧ s1.pairs_finished = [] ∧
    s1.cards_to_defend = [] ∧ s1.deck = s.deck ∧
    s1.card_collection = s.card_collection := by
  unfold newTrick at h
  rcases hf : s.players.findIdx? (fun p => p.name = name) with _ | idx <;>
    rw [hf] at h
  · cases h
  · rcases hl : livingFrom s idx with _ | ⟨a, _ | ⟨d, rest⟩⟩ <;>
        simp only [hl] at h <;> simp at h <;> subst h <;>
      exact ⟨rfl, rfl, rfl, rfl, rfl⟩

theorem closeIntermediate_attackers (s : GameState) (d : Nat) :
    (closeIntermediate s d).attackers = s.attackers := by
  unfold closeIntermediate refillDrawOrder
  rw [refillOver_attackers]
  rfl

/-- What a successful `closeTrick` produces: the refilled
defender-takes-the-table state feeds `new_trick` with the second attacker's
name, the heap is untouched, and the defender's hand has grown by exactly
the table cards (plus refill draws). -/
theorem closeTrick_spec (h1 : Heap) (s2 : GameState)
    (res : Heap × GameState) (d : Nat)
    (hdef : s2.defender = some d) (hdlt : d < s2.players.length)
    (hct : closeTrick h1 s2 = some res) :
    res.1 = h1 ∧
    (∃ na, (closeIntermediate s2 d).attackers.get?
        (1 % (closeIntermediate s2 d).attackers.length) = some na ∧
      newTrick (closeIntermediate s2 d)
        (getPlayer (closeIntermediate s2 d) na).name = some res.2) ∧
    (∃ t, (getPlayer res.2 d).hand =
      ((getPlayer s2 d).hand ++ (pairsFlat s2 ++ s2.cards_to_defend)) ++ t) ∧
    res.2.pairs_finished = [] ∧ res.2.cards_to_defend = [] := by
  unfold closeTrick at hct
  rw [hdef] at hct
  dsimp only [] at hct
  rcases hna : (closeIntermediate s2 d).attackers.get?
      (1 % (closeIntermediate s2 d).attackers.length) with _ | na <;>
    rw [hna] at hct <;> dsimp only [] at hct
  · cases hct
  · rcases hnt : newTrick (closeIntermediate s2 d)
        (getPlayer (closeIntermediate s2 d) na).name with _ | s3 <;>
      rw [hnt] at hct
    · cases hct
    · injection hct with hct
      subst hct
      refine ⟨rfl, ⟨na, rfl, hnt⟩, ?_, (newTrick_facts _ _ _ hnt).2.1,
        (newTrick_facts _ _ _ hnt).2.2.1⟩
      have hpl := (newTrick_facts _ _ _ hnt).1
      rcases refillOver_hand_extends
          (setPlayerHand s2 d ((getPlayer s2 d).hand ++
            (pairsFlat s2 ++ s2.cards_to_defend))).draw_order
          (setPlayerHand s2 d ((getPlayer s2 d).hand ++
            (pairsFlat s2 ++ s2.cards_to_defend))) d with ⟨t, ht⟩
      refine ⟨t, ?_⟩
      have hg : getPlayer s3 d = getPlayer (closeIntermediate s2 d) d := by
        unfold getPlayer
        rw [hpl]
      rw [hg]
      unfold closeIntermediate refillDrawOrder
      rw [ht, getPlayer_setPlayerHand_self _ _ _ hdlt]

/-- C7: a `ThrowCards` action whose attacker-rotation advance returns to
`attacker_to_start_throwing` closes the trick.  After the payload's discards
produce `(h1, s1)` and the rotation advances to `padv = attackers[ast]`,
every card on the table — both cards of every finished pair, then every card
awaiting defense — is appended to the defender's hand, every player in
`draw_order` refills from the deck in that order (`closeIntermediate`), and
the result is `new_trick` on that state with the second attacker
`attackers[1 % len(attackers)]` as main attacker.  In particular the
defender's final hand starts with their previous hand followed by all table
cards, and the new trick has no finished pairs and no cards to defend. -/
theorem throw_close_trick (h : Heap) (s : GameState) (p : Option (List SV))
    (res : Heap × GameState)
    (hex : executeAction h s (Action.throwCards p) = some res)
    (h1 : Heap) (s1 : GameState)
    (hdis : throwDiscards h
      { s with history := s.history ++ [Action.throwCards p] } p =
        some (h1, s1))
    (hn : ¬ s1.attackers.length = 0)
    (i : Nat) (hast : s1.attacker_to_start_throwing = some i)
    (padv : Nat)
    (hadv : s1.attackers.get?
      ((s1.current_attacker + 1) % s1.attackers.length) = some padv)
    (hst : s1.attackers.get? i = some padv)
    (d : Nat) (hdef : s1.defender = some d)
    (hdlt : d < s1.players.length) :
    res.1 = h1 ∧
    (∃ na, ∃ s2 : GameState,
      s2 = { s1 with
             current_attacker := (s1.current_attacker + 1) % s1.attackers.length
             player_to_play := padv } ∧
      (closeIntermediate s2 d).attackers.get?
        (1 % (closeIntermediate s2 d).attackers.length) = some na ∧
      newTrick (closeIntermediate s2 d)
        (getPlayer (closeIntermediate s2 d) na).name = some res.2 ∧
      (∃ t, (getPlayer res.2 d).hand =
        ((getPlayer s1 d).hand ++ (pairsFlat s1 ++ s1.cards_to_defend)) ++ t)) ∧
    res.2.pairs_finished = [] ∧ res.2.cards_to_defend = [] := by
  simp only [executeAction] at hex
  rw [hdis] at hex
  dsimp only [] at hex
  rw [if_neg hn, hadv] at hex
  dsimp only [] at hex
  rw [hast] at hex
  dsimp only [] at hex
  rw [hst] at hex
  dsimp only [] at hex
  rw [if_pos rfl] at hex
  rw [← hast] at hex
  have hspec := closeTrick_spec h1
    { s1 with
      current_attacker := (s1.current_attacker + 1) % s1.attackers.length
      player_to_play := padv } res d hdef hdlt hex
  refine ⟨hspec.1, ⟨?_, hspec.2.2.2.1, hspec.2.2.2.2⟩⟩
  rcases hspec.2.1 with ⟨na, hna, hnt⟩
  exact ⟨na, _, rfl, hna, hnt, hspec.2.2.1⟩

/-- The state on which the witness close happens: the Throw-phase demo state
with the pass action already appended to the history (no cards thrown). -/
def demoThrowMid : GameState :=
  { demoAfterTake.2 with
    history := demoAfterTake.2.history ++ [Action.throwCards none] }

def demoThrowClose : Heap × GameState :=
  (executeAction demoAfterTake.1 demoAfterTake.2
    (Action.throwCards none)).getD default

set_option maxRecDepth 8000 in
/-- Witness for C7: in the concrete Throw-phase game the single attacker
passes, the rotation returns to `attacker_to_start_throwing`, and the trick
closes — the defender's new hand starts with the old hand followed by every
table card, and the new trick has no pairs and nothing to defend. -/
theorem throw_close_trick_witness :
    executeAction demoAfterTake.1 demoAfterTake.2 (Action.throwCards none) =
      some demoThrowClose ∧
    demoThrowClose.2.pairs_finished = [] ∧
    demoThrowClose.2.cards_to_defend = [] ∧
    ∃ t, (getPlayer demoThrowClose.2 1).hand =
      ((getPlayer demoThrowMid 1).hand ++
        (pairsFlat demoThrowMid ++ demoThrowMid.cards_to_defend)) ++ t := by
  have h := throw_close_trick demoAfterTake.1 demoAfterTake.2 none
    demoThrowClose (by decide) demoAfterTake.1 demoThrowMid (by decide)
    (by decide) 0 (by decide) 0 (by decide) (by decide) 1 (by decide)
    (by decide)
  refine ⟨by decide, h.2.2.1, h.2.2.2, ?_⟩
  rcases h.2.1 with ⟨na, s2, _, _, _, ht⟩
  exact ht

/-! ### Card conservation (C3) -/

/-- All card references in play: the deck, every hand, the cards awaiting
defense and the flattened finished pairs — the places counted by the spec's
36-card invariant. -/
def inPlay (s : GameState) : List Nat :=
  s.deck ++ s.players.flatMap Player.hand ++ s.cards_to_defend ++ pairsFlat s

/-- The closing condition of the `PassAttack` branch: the rotation advance
returns to `last_played_attacker` (a full round of passes). -/
def passCloses (s : GameState) : Bool :=
  !(s.attackers.length == 0) &&
  (match s.attackers.get? ((s.current_attacker + 1) % s.attackers.length) with
   | some p => some p == s.last_played_attacker
   | none => false)

/-- The card references an action removes from play: a trick-closing
`PassAttack` discards the successfully defended pairs; every other action
keeps all cards in play. -/
def removedBy (s : GameState) : Action → List Nat
  | Action.passAttack => if passCloses s then pairsFlat s else []
  | _ => []

theorem pairsFlatL_append (l1 l2 : List (Nat × Nat)) :
    pairsFlatL (l1 ++ l2) = pairsFlatL l1 ++ pairsFlatL l2 := by
  induction l1 with
  | nil => rfl
  | cons p rest ih => simp [pairsFlatL, List.foldr_cons] at ih ⊢; rw [ih]

/-- Replacing one player's hand exchanges exactly that hand in the flattened
hand multiset. -/
theorem handsM_set (players : List Player) (p : Nat) (pl : Player)
    (hp : p < players.length) :
    (((players.set p pl).flatMap Player.hand : List Nat) : Multiset Nat) +
      (players[p].hand : Multiset Nat) =
    ((players.flatMap Player.hand : List Nat) : Multiset Nat) +
      (pl.hand : Multiset Nat) := by
  have hset : players.set p pl =
      players.take p ++ pl :: players.drop (p + 1) := by
    rw [List.set_eq_take_append_cons_drop, if_pos hp]
  have horig : players = players.take p ++ players[p] :: players.drop (p + 1) := by
    conv_lhs => rw [← List.take_append_drop p players]
    rw [List.getElem_cons_drop]
  rw [hset]
  conv_rhs => rw [horig]
  simp only [List.flatMap_append, List.flatMap_cons]
  simp only [← Multiset.coe_add]
  abel

/-- Removing the card at a valid index splits a hand's multiset. -/
theorem hand_erase_multiset (l : List Nat) (i r : Nat)
    (hir : l.get? i = some r) :
    ((l.eraseIdx i : List Nat) : Multiset Nat) + ({r} : Multiset Nat) =
      (l : Multiset Nat) := by
  rw [List.get?_eq_getElem?] at hir
  rcases List.getElem?_eq_some.mp hir with ⟨hi, hr⟩
  rw [List.eraseIdx_eq_take_drop_succ]
  have horig : l = l.take i ++ l[i] :: l.drop (i + 1) := by
    conv_lhs => rw [← List.take_append_drop i l]
    rw [List.getElem_cons_drop]
  conv_rhs => rw [horig, hr]
  rw [show r :: l.drop (i + 1) = [r] ++ l.drop (i + 1) from rfl]
  simp only [← Multiset.coe_add, ← Multiset.coe_singleton]
  abel

/-- Unpacking a successful `discard_card`: the found index, the returned
reference, and the produced heap and state. -/
theorem discardCard_spec (h : Heap) (s : GameState) (pIdx : Nat) (sv : SV)
    (rm : Bool) (h1 : Heap) (s2 : GameState) (r : Nat)
    (hd : discardCard h s pIdx sv rm = some (h1, s2, r)) :
    ∃ i, discardFindIdx h (getNonPublicCards h s)
        (knownIds h (getPlayer s pIdx).hand) (getPlayer s pIdx).hand sv =
          some i ∧
      (getPlayer s pIdx).hand.get? i = some r ∧
      s2 = setPlayerHand s pIdx
        (if rm then (getPlayer s pIdx).hand.eraseIdx i
         else (getPlayer s pIdx).hand) ∧
      h1 = writeCard h r
        { (if (readCard h r).is_unknown then
            { readCard h r with suit := some sv.1, value := some sv.2 }
           else readCard h r) with
          is_unknown := false
          is_private := false
          is_public := true } := by
  simp only [discardCard] at hd
  rcases hfi : discardFindIdx h (getNonPublicCards h s)
      (knownIds h (getPlayer s pIdx).hand) (getPlayer s pIdx).hand sv with
    _ | i <;> rw [hfi] at hd <;> dsimp only [] at hd
  · cases hd
  · rcases hg : (getPlayer s pIdx).hand.get? i with _ | r0 <;>
      rw [hg] at hd <;> dsimp only [] at hd
    · cases hd
    · injection hd with hd
      injection hd with hd1 hd2
      injection hd2 with hd2 hd3
      subst hd1
      subst hd2
      subst hd3
      exact ⟨i, rfl, hg, rfl, rfl⟩

/-- A successful discard implies the player index is valid (an out-of-range
index yields the empty default hand, on which the scan fails). -/
theorem discardCard_pIdx_lt (h : Heap) (s : GameState) (pIdx : Nat) (sv : SV)
    (rm : Bool) (h1 : Heap) (s2 : GameState) (r : Nat)
    (hd : discardCard h s pIdx sv rm = some (h1, s2, r)) :
    pIdx < s.players.length := by
  by_contra hge
  have hp : getPlayer s pIdx = default := by
    unfold getPlayer
    rw [List.getD_eq_getElem?_getD, List.getElem?_len_le (by omega)]
    rfl
  rcases discardCard_spec h s pIdx sv rm h1 s2 r hd with ⟨i, hfi, hg, _⟩
  rw [hp] at hg
  cases hg

/-- Card conservation across a removing discard: the played reference moves
out of the hands; everything else of the state is unchanged. -/
theorem discardCard_conservation (h : Heap) (s : GameState) (pIdx : Nat)
    (sv : SV) (h1 : Heap) (s2 : GameState) (r : Nat)
    (hd : discardCard h s pIdx sv true = some (h1, s2, r)) :
    ((s2.players.flatMap Player.hand : List Nat) : Multiset Nat) +
        ({r} : Multiset Nat) =
      ((s.players.flatMap Player.hand : List Nat) : Multiset Nat) ∧
    s2.deck = s.deck ∧ s2.cards_to_defend = s.cards_to_defend ∧
    s2.pairs_finished = s.pairs_finished ∧ s2.attackers = s.attackers ∧
    s2.defender = s.defender ∧ s2.current_attacker = s.current_attacker ∧
    s2.player_to_play = s.player_to_play ∧ s2.draw_order = s.draw_order ∧
    s2.players.length = s.players.length ∧
    s2.attacker_to_start_throwing = s.attacker_to_start_throwing ∧
    s2.last_played_attacker = s.last_played_attacker ∧
    s2.history = s.history ∧ s2.is_end_state = s.is_end_state ∧
    s2.card_collection = s.card_collection := by
  have hlt := discardCard_pIdx_lt h s pIdx sv true h1 s2 r hd
  rcases discardCard_spec h s pIdx sv true h1 s2 r hd with ⟨i, hfi, hg, hs2, _⟩
  subst hs2
  refine ⟨?_, rfl, rfl, rfl, rfl, rfl, rfl, rfl, rfl,
    setPlayerHand_length _ _ _, rfl, rfl, rfl, rfl, rfl⟩
  have hset := handsM_set s.players pIdx
    { getPlayer s pIdx with hand := (getPlayer s pIdx).hand.eraseIdx i } hlt
  have herase := hand_erase_multiset (getPlayer s pIdx).hand i r hg
  show ((s.players.set pIdx _).flatMap Player.hand : Multiset Nat) + _ = _
  rw [getPlayer_getElem s pIdx hlt] at herase
  calc ((s.players.set pIdx { getPlayer s pIdx with
          hand := (getPlayer s pIdx).hand.eraseIdx i }).flatMap Player.hand :
            Multiset Nat) + ({r} : Multiset Nat)
      = ((s.players.set pIdx { getPlayer s pIdx with
          hand := (getPlayer s pIdx).hand.eraseIdx i }).flatMap Player.hand :
            Multiset Nat) + ({r} : Multiset Nat) +
          (s.players[pIdx].hand : Multiset Nat) -
          (s.players[pIdx].hand : Multiset Nat) := by
        rw [add_tsub_cancel_right]
    _ = ((s.players.flatMap Player.hand : List Nat) : Multiset Nat) := by
        rw [add_right_comm, hset]
        rw [getPlayer_getElem s pIdx hlt]
        show _ + (((s.players[pIdx]).hand.eraseIdx i : List Nat) :
          Multiset Nat) + _ - _ = _
        rw [add_assoc, herase, add_tsub_cancel_right]

/-- Splitting the in-play multiset into its four components. -/
theorem inPlayM_eq (s : GameState) :
    ((inPlay s : List Nat) : Multiset Nat) =
      (s.deck : Multiset Nat) +
      ((s.players.flatMap Player.hand : List Nat) : Multiset Nat) +
      (s.cards_to_defend : Multiset Nat) +
      ((pairsFlat s : List Nat) : Multiset Nat) := by
  unfold inPlay
  simp only [← Multiset.coe_add]

/-- A non-removing discard (`ReflectTrump`) leaves the hand multiset — and
every list of the state — unchanged. -/
theorem discardCard_keep_conservation (h : Heap) (s : GameState) (pIdx : Nat)
    (sv : SV) (h1 : Heap) (s2 : GameState) (r : Nat)
    (hd : discardCard h s pIdx sv false = some (h1, s2, r)) :
    ((s2.players.flatMap Player.hand : List Nat) : Multiset Nat) =
      ((s.players.flatMap Player.hand : List Nat) : Multiset Nat) ∧
    s2.deck = s.deck ∧ s2.cards_to_defend = s.cards_to_defend ∧
    s2.pairs_finished = s.pairs_finished ∧ s2.attackers = s.attackers ∧
    s2.defender = s.defender ∧ s2.player_to_play = s.player_to_play ∧
    s2.draw_order = s.draw_order ∧
    s2.players.length = s.players.length := by
  have hlt := discardCard_pIdx_lt h s pIdx sv false h1 s2 r hd
  rcases discardCard_spec h s pIdx sv false h1 s2 r hd with ⟨i, _, _, hs2, _⟩
  have hpl : s2.players = s.players := by
    rw [hs2]
    show s.players.set pIdx { getPlayer s pIdx with
      hand := (getPlayer s pIdx).hand } = s.players
    rw [getPlayer_getElem s pIdx hlt]
    apply List.ext_getElem
    · simp
    · intro n h1 h2
      rw [List.getElem_set]
      split <;> simp_all
  refine ⟨by rw [hpl], ?_, ?_, ?_, ?_, ?_, ?_, ?_, by rw [hpl]⟩ <;>
      rw [hs2] <;>
    rfl

theorem refillStep_length (st : GameState) (j : Nat) :
    (refillStep st j).players.length = st.players.length :=
  setPlayerHand_length _ _ _

/-- One refill step conserves deck-plus-hands. -/
theorem refillStep_conservation (st : GameState) (i : Nat)
    (hi : i < st.players.length) :
    ((refillStep st i).deck : Multiset Nat) +
        (((refillStep st i).players.flatMap Player.hand : List Nat) :
          Multiset Nat) =
      (st.deck : Multiset Nat) +
        ((st.players.flatMap Player.hand : List Nat) : Multiset Nat) := by
  have hdeck : (refillStep st i).deck = st.deck.drop
      (min (6 - (st.players[i]).hand.length) st.deck.length) := by
    show st.deck.drop (min (6 - (getPlayer st i).hand.length)
      st.deck.length) = _
    rw [getPlayer_getElem st i hi]
  have hplayers : (refillStep st i).players = st.players.set i
      { st.players[i] with
        hand := (st.players[i]).hand ++ st.deck.take
          (min (6 - (st.players[i]).hand.length) st.deck.length) } := by
    show st.players.set i { getPlayer st i with
      hand := (getPlayer st i).hand ++ st.deck.take
        (min (6 - (getPlayer st i).hand.length) st.deck.length) } = _
    rw [getPlayer_getElem st i hi]
  have hset := handsM_set st.players i
    { st.players[i] with
      hand := (st.players[i]).hand ++ st.deck.take
        (min (6 - (st.players[i]).hand.length) st.deck.length) } hi
  rw [hdeck, hplayers]
  have key : ((st.deck.drop (min (6 - (st.players[i]).hand.length)
          st.deck.length) : List Nat) : Multiset Nat) +
        (((st.players.set i { st.players[i] with
          hand := (st.players[i]).hand ++ st.deck.take
            (min (6 - (st.players[i]).hand.length) st.deck.length) }).flatMap
              Player.hand : List Nat) : Multiset Nat) +
        ((st.players[i]).hand : Multiset Nat) =
      ((st.deck : Multiset Nat) +
        ((st.players.flatMap Player.hand : List Nat) : Multiset Nat)) +
        ((st.players[i]).hand : Multiset Nat) := by
    calc ((st.deck.drop (min (6 - (st.players[i]).hand.length)
            st.deck.length) : List Nat) : Multiset Nat) +
          (((st.players.set i { st.players[i] with
            hand := (st.players[i]).hand ++ st.deck.take
              (min (6 - (st.players[i]).hand.length)
                st.deck.length) }).flatMap Player.hand : List Nat) :
                  Multiset Nat) +
          ((st.players[i]).hand : Multiset Nat)
        = ((st.deck.drop (min (6 - (st.players[i]).hand.length)
            st.deck.length) : List Nat) : Multiset Nat) +
            ((((st.players.set i { st.players[i] with
              hand := (st.players[i]).hand ++ st.deck.take
                (min (6 - (st.players[i]).hand.length)
                  st.deck.length) }).flatMap Player.hand : List Nat) :
                    Multiset Nat) +
              ((st.players[i]).hand : Multiset Nat)) := by abel
      _ = ((st.deck.drop (min (6 - (st.players[i]).hand.length)
            st.deck.length) : List Nat) : Multiset Nat) +
            (((st.players.flatMap Player.hand : List Nat) : Multiset Nat) +
              (((st.players[i]).hand ++ st.deck.take
                (min (6 - (st.players[i]).hand.length) st.deck.length) :
                  List Nat) : Multiset Nat)) := by rw [hset]
      _ = ((st.deck.take (min (6 - (st.players[i]).hand.length)
            st.deck.length) : List Nat) : Multiset Nat) +
            ((st.deck.drop (min (6 - (st.players[i]).hand.length)
              st.deck.length) : List Nat) : Multiset Nat) +
            ((st.players.flatMap Player.hand : List Nat) : Multiset Nat) +
            ((st.players[i]).hand : Multiset Nat) := by
          rw [← Multiset.coe_add]
          abel
      _ = ((st.deck : Multiset Nat) +
            ((st.players.flatMap Player.hand : List Nat) : Multiset Nat)) +
            ((st.players[i]).hand : Multiset Nat) := by
          rw [Multiset.coe_add, List.take_append_drop]
  exact add_right_cancel key

/-- The whole refill loop conserves deck-plus-hands when every refilled
index is a real player. -/
theorem refillOver_conservation (order : List Nat) :
    ∀ st : GameState, (∀ i ∈ order, i < st.players.length) →
      ((refillOver order st).deck : Multiset Nat) +
          (((refillOver order st).players.flatMap Player.hand : List Nat) :
            Multiset Nat) =
        (st.deck : Multiset Nat) +
          ((st.players.flatMap Player.hand : List Nat) : Multiset Nat) := by
  induction order with
  | nil => intro st _; rfl
  | cons j rest ih =>
    intro st hdo
    have hj := hdo j (List.mem_cons_self _ _)
    have hrest : ∀ i ∈ rest, i < (refillStep st j).players.length := by
      intro i hi
      rw [refillStep_length]
      exact hdo i (List.mem_cons_of_mem _ hi)
    exact (ih (refillStep st j) hrest).trans (refillStep_conservation st j hj)

/-- The Throw-phase discard loop conserves the in-play multiset (each
discarded card moves from the hand onto the table) and the seating data. -/
theorem throwDiscardsGo_conservation (l : List SV) :
    ∀ (h : Heap) (s : GameState) (h1 : Heap) (s1 : GameState),
      throwDiscardsGo h s l = some (h1, s1) →
      ((inPlay s1 : List Nat) : Multiset Nat) =
          ((inPlay s : List Nat) : Multiset Nat) ∧
        s1.attackers = s.attackers ∧
        s1.current_attacker = s.current_attacker ∧
        s1.attacker_to_start_throwing = s.attacker_to_start_throwing ∧
        s1.defender = s.defender ∧ s1.draw_order = s.draw_order ∧
        s1.players.length = s.players.length ∧
        s1.last_played_attacker = s.last_played_attacker := by
  induction l with
  | nil =>
    intro h s h1 s1 hgo
    injection hgo with hgo
    injection hgo with hgo1 hgo2
    subst hgo2
    exact ⟨rfl, rfl, rfl, rfl, rfl, rfl, rfl, rfl⟩
  | cons sv rest ih =>
    intro h s h1 s1 hgo
    rw [show throwDiscardsGo h s (sv :: rest) =
      (match discardCard h s s.player_to_play sv true with
       | none => none
       | some (h2, s2, r) =>
         throwDiscardsGo h2
           { s2 with cards_to_defend := s2.cards_to_defend ++ [r] } rest)
      from rfl] at hgo
    rcases hdc : discardCard h s s.player_to_play sv true with _ | ⟨h2, s2, r⟩ <;>
      rw [hdc] at hgo <;> dsimp only [] at hgo
    · cases hgo
    · obtain ⟨hM, h1a, h1ca, h1ast, h1def, h1dro, h1len, h1lpa⟩ :=
        ih h2 { s2 with cards_to_defend := s2.cards_to_defend ++ [r] }
          h1 s1 hgo
      rcases discardCard_conservation h s s.player_to_play sv h2 s2 r hdc with
        ⟨hc, hdk, hctd, hpr, hatt, hdef, hca, _hptp, hdro, hlen, hast,
          hlpa, _⟩
      refine ⟨?_, h1a.trans hatt, h1ca.trans hca, h1ast.trans hast,
        h1def.trans hdef, h1dro.trans hdro, h1len.trans hlen,
        h1lpa.trans hlpa⟩
      rw [hM]
      rw [inPlayM_eq, inPlayM_eq]
      show (s2.deck : Multiset Nat) + _ + ((s2.cards_to_defend ++ [r] :
        List Nat) : Multiset Nat) + ((pairsFlatL s2.pairs_finished :
          List Nat) : Multiset Nat) = _
      rw [hdk, hctd, hpr, ← hc]
      rw [← Multiset.coe_add]
      show _ + _ + ((s.cards_to_defend : Multiset Nat) +
        (([r] : List Nat) : Multiset Nat)) + _ = _
      abel

/-- The take-close conserves the in-play multiset: the table cards move
into the defender's hand before the trick scratch state is cleared. -/
theorem closeTrick_conservation (h : Heap) (s : GameState)
    (res : Heap × GameState)
    (hdo : ∀ i ∈ s.draw_order, i < s.players.length)
    (hdef : ∀ d, s.defender = some d → d < s.players.length)
    (hct : closeTrick h s = some res) :
    ((inPlay res.2 : List Nat) : Multiset Nat) =
      ((inPlay s : List Nat) : Multiset Nat) := by
  unfold closeTrick at hct
  rcases hdd : s.defender with _ | d <;> rw [hdd] at hct <;>
    dsimp only [] at hct
  · cases hct
  · have hdlt := hdef d hdd
    have hinnerM : (((setPlayerHand s d ((getPlayer s d).hand ++
          (pairsFlat s ++ s.cards_to_defend))).players.flatMap Player.hand :
            List Nat) : Multiset Nat) =
        ((s.players.flatMap Player.hand : List Nat) : Multiset Nat) +
          ((pairsFlat s : List Nat) : Multiset Nat) +
          (s.cards_to_defend : Multiset Nat) := by
      have hset := handsM_set s.players d
        { s.players[d] with hand := (s.players[d]).hand ++
          (pairsFlat s ++ s.cards_to_defend) } hdlt
      have key : (((setPlayerHand s d ((getPlayer s d).hand ++
            (pairsFlat s ++ s.cards_to_defend))).players.flatMap Player.hand :
              List Nat) : Multiset Nat) + ((getPlayer s d).hand : Multiset Nat) =
          (((s.players.flatMap Player.hand : List Nat) : Multiset Nat) +
            ((pairsFlat s : List Nat) : Multiset Nat) +
            (s.cards_to_defend : Multiset Nat)) +
            ((getPlayer s d).hand : Multiset Nat) := by
        rw [setPlayerHand_players s d _ hdlt, getPlayer_getElem s d hdlt]
        refine hset.trans ?_
        show ((s.players.flatMap Player.hand : List Nat) : Multiset Nat) +
          (((s.players[d]).hand ++ (pairsFlat s ++ s.cards_to_defend) :
            List Nat) : Multiset Nat) = _
        rw [← Multiset.coe_add, ← Multiset.coe_add]
        abel
      exact add_right_cancel key
    rcases hna : (closeIntermediate s d).attackers.get?
        (1 % (closeIntermediate s d).attackers.length) with _ | na <;>
      rw [hna] at hct <;> dsimp only [] at hct
    · cases hct
    · rcases hnt : newTrick (closeIntermediate s d)
          (getPlayer (closeIntermediate s d) na).name with _ | s3 <;>
        rw [hnt] at hct <;> dsimp only [] at hct
      · cases hct
      · injection hct with hct
        subst hct
        obtain ⟨hpl, hpr3, hctd3, hdk3, _⟩ := newTrick_facts _ _ _ hnt
        have hdoI : ∀ i ∈ (setPlayerHand s d ((getPlayer s d).hand ++
            (pairsFlat s ++ s.cards_to_defend))).draw_order,
            i < (setPlayerHand s d ((getPlayer s d).hand ++
              (pairsFlat s ++ s.cards_to_defend))).players.length := by
          intro i hi
          rw [setPlayerHand_length]
          exact hdo i hi
        have hrefill := refillOver_conservation
          ((setPlayerHand s d ((getPlayer s d).hand ++
            (pairsFlat s ++ s.cards_to_defend))).draw_order)
          (setPlayerHand s d ((getPlayer s d).hand ++
            (pairsFlat s ++ s.cards_to_defend))) hdoI
        show ((inPlay s3 : List Nat) : Multiset Nat) = _
        rw [inPlayM_eq, inPlayM_eq]
        rw [show s3.deck = (closeIntermediate s d).deck from by rw [hdk3],
          show s3.players = (closeIntermediate s d).players from by rw [hpl],
          hctd3,
          show pairsFlat s3 = ([] : List Nat) from by
            unfold pairsFlat
            rw [hpr3]
            rfl]
        show ((closeIntermediate s d).deck : Multiset Nat) +
          (((closeIntermediate s d).players.flatMap Player.hand : List Nat) :
            Multiset Nat) +
          (([] : List Nat) : Multiset Nat) +
          (([] : List Nat) : Multiset Nat) = _
        have hciM : ((closeIntermediate s d).deck : Multiset Nat) +
            (((closeIntermediate s d).players.flatMap Player.hand : List Nat) :
              Multiset Nat) =
            (s.deck : Multiset Nat) +
              (((s.players.flatMap Player.hand : List Nat) : Multiset Nat) +
                ((pairsFlat s : List Nat) : Multiset Nat) +
                (s.cards_to_defend : Multiset Nat)) := by
          refine hrefill.trans ?_
          rw [hinnerM]
          rfl
        calc ((closeIntermediate s d).deck : Multiset Nat) +
              (((closeIntermediate s d).players.flatMap Player.hand :
                List Nat) : Multiset Nat) +
              (([] : List Nat) : Multiset Nat) +
              (([] : List Nat) : Multiset Nat)
            = ((closeIntermediate s d).deck : Multiset Nat) +
              (((closeIntermediate s d).players.flatMap Player.hand :
                List Nat) : Multiset Nat) := by
              show _ + 0 + 0 = _
              rw [add_zero, add_zero]
          _ = (s.deck : Multiset Nat) +
              (((s.players.flatMap Player.hand : List Nat) : Multiset Nat) +
                ((pairsFlat s : List Nat) : Multiset Nat) +
                (s.cards_to_defend : Multiset Nat)) := hciM
          _ = (s.deck : Multiset Nat) +
              ((s.players.flatMap Player.hand : List Nat) : Multiset Nat) +
              (s.cards_to_defend : Multiset Nat) +
              ((pairsFlat s : List Nat) : Multiset Nat) := by abel

/-- Conservation through the Throw-phase discards (any payload). -/
theorem throwDiscards_conservation (h : Heap) (s : GameState)
    (p : Option (List SV)) (h2 : Heap) (s2 : GameState)
    (hd : throwDiscards h s p = some (h2, s2)) :
    ((inPlay s2 : List Nat) : Multiset Nat) =
        ((inPlay s : List Nat) : Multiset Nat) ∧
      s2.attackers = s.attackers ∧
      s2.current_attacker = s.current_attacker ∧
      s2.attacker_to_start_throwing = s.attacker_to_start_throwing ∧
      s2.defender = s.defender ∧ s2.draw_order = s.draw_order ∧
      s2.players.length = s.players.length ∧
      s2.last_played_attacker = s.last_played_attacker := by
  match p, hd with
  | none, hd =>
    injection hd with hd
    injection hd with hd1 hd2
    subst hd2
    exact ⟨rfl, rfl, rfl, rfl, rfl, rfl, rfl, rfl⟩
  | some (sv :: rest), hd =>
    exact throwDiscardsGo_conservation (sv :: rest) h s h2 s2 hd

def demoAfterPass : Heap × GameState :=
  (executeAction demoAfterDefend.1 demoAfterDefend.2 Action.passAttack).getD
    default

/-- C3 (amended): every successful `execute_action` preserves the multiset
of in-play card references (deck, hands, cards to defend, flattened finished
pairs), except a trick-closing `PassAttack`, which removes exactly the
flattened finished pairs from play.  The two hypotheses pin the draw-order
and defender indices to real players, which holds in every state the engine
builds (in Python these are object references and cannot dangle). -/
theorem exec_card_conservation (h : Heap) (s : GameState) (a : Action)
    (h1 : Heap) (s1 : GameState)
    (hdo : ∀ i ∈ s.draw_order, i < s.players.length)
    (hdef : ∀ d, s.defender = some d → d < s.players.length)
    (hex : executeAction h s a = some (h1, s1)) :
    ((inPlay s1 : List Nat) : Multiset Nat) +
        ((removedBy s a : List Nat) : Multiset Nat) =
      ((inPlay s : List Nat) : Multiset Nat) := by
  cases a with
  | attack sv =>
    simp only [executeAction] at hex
    rcases hdc : discardCard h
        { s with history := s.history ++ [Action.attack sv] }
        s.player_to_play sv true with _ | ⟨h2, s2, r⟩ <;>
      rw [hdc] at hex <;> dsimp only [] at hex
    · cases hex
    · rcases hdd : s2.defender with _ | d <;> rw [hdd] at hex <;>
        dsimp only [] at hex
      · cases hex
      · injection hex with hex
        injection hex with hexh hexs
        subst hexh
        subst hexs
        rcases discardCard_conservation h _ s.player_to_play sv h2 s2 r hdc
          with ⟨hc, hdk, hctd, hpr, _⟩
        dsimp only [] at hc hdk hctd hpr
        rw [inPlayM_eq, inPlayM_eq]
        simp only [pairsFlat]
        rw [hdk, hctd, hpr, ← hc,
          show removedBy s (Action.attack sv) = [] from rfl,
          ← Multiset.coe_add]
        simp only [Multiset.coe_nil, Multiset.coe_singleton, add_zero]
        abel
  | defend sv =>
    simp only [executeAction] at hex
    rcases hctd0 : s.cards_to_defend with _ | ⟨cd, rest⟩ <;>
      rw [hctd0] at hex <;> dsimp only [] at hex
    · cases hex
    · rcases hdc : discardCard h
          { s with
            history := s.history ++ [Action.defend sv]
            cards_to_defend := rest }
          s.player_to_play sv true with _ | ⟨h2, s2, r⟩ <;>
        rw [hdc] at hex <;> dsimp only [] at hex
      · cases hex
      · rcases discardCard_conservation h _ s.player_to_play sv h2 s2 r hdc
          with ⟨hc, hdk, hctd, hpr, _⟩
        dsimp only [] at hc hdk hctd hpr
        have hfinish : ∀ X : GameState,
            X.deck = s2.deck →
            X.players = s2.players →
            X.cards_to_defend = s2.cards_to_defend →
            X.pairs_finished = s2.pairs_finished ++ [(cd, r)] →
            ((inPlay X : List Nat) : Multiset Nat) +
              ((removedBy s (Action.defend sv) : List Nat) : Multiset Nat) =
              ((inPlay s : List Nat) : Multiset Nat) := by
          intro X hXd hXp hXc hXpr
          rw [inPlayM_eq, inPlayM_eq]
          simp only [pairsFlat]
          rw [hXd, hXp, hXc, hXpr, hdk, hctd, hpr, pairsFlatL_append,
            show pairsFlatL [(cd, r)] = [cd, r] from rfl,
            show removedBy s (Action.defend sv) = [] from rfl,
            hctd0,
            show cd :: rest = [cd] ++ rest from rfl,
            show ([cd, r] : List Nat) = [cd] ++ [r] from rfl, ← hc]
          simp only [← Multiset.coe_add, Multiset.coe_nil,
            Multiset.coe_singleton, add_zero]
          abel
        by_cases hlen : s2.cards_to_defend.length = 0
        · rw [if_pos hlen] at hex
          rcases hga : s2.attackers.get? s2.current_attacker with _ | p <;>
            rw [hga] at hex <;> dsimp only [] at hex
          · cases hex
          · injection hex with hex
            injection hex with hexh hexs
            subst hexh
            subst hexs
            exact hfinish _ rfl rfl rfl rfl
        · rw [if_neg hlen] at hex
          injection hex with hex
          injection hex with hexh hexs
          subst hexh
          subst hexs
          exact hfinish _ rfl rfl rfl rfl
  | take =>
    simp only [executeAction] at hex
    rcases hga : s.attackers.get? s.current_attacker with _ | p <;>
      rw [hga] at hex <;> dsimp only [] at hex
    · cases hex
    · injection hex with hex
      injection hex with hexh hexs
      subst hexh
      subst hexs
      show ((inPlay s : List Nat) : Multiset Nat) +
        (([] : List Nat) : Multiset Nat) = _
      simp
  | throwCards p =>
    simp only [executeAction] at hex
    rcases hdis : throwDiscards h
        { s with history := s.history ++ [Action.throwCards p] } p with
      _ | ⟨h2, s2⟩ <;> rw [hdis] at hex <;> dsimp only [] at hex
    · cases hex
    · obtain ⟨hM, hatt, hca, hast0, hdef2, hdro, hlen, _⟩ :=
        throwDiscards_conservation h _ p h2 s2 hdis
      have hMs : ((inPlay s2 : List Nat) : Multiset Nat) =
          ((inPlay s : List Nat) : Multiset Nat) := hM
      by_cases hn : s2.attackers.length = 0
      · rw [if_pos hn] at hex
        cases hex
      · rw [if_neg hn] at hex
        rcases hadv : s2.attackers.get?
            ((s2.current_attacker + 1) % s2.attackers.length) with _ | padv <;>
          rw [hadv] at hex <;> dsimp only [] at hex
        · cases hex
        · rcases hast : s2.attacker_to_start_throwing with _ | ast <;>
            rw [hast] at hex <;> dsimp only [] at hex
          · cases hex
          · rcases hget : s2.attackers.get? ast with _ | startP <;>
              rw [hget] at hex <;> dsimp only [] at hex
            · cases hex
            · rw [← hast] at hex
              by_cases heq : padv = startP
              · rw [if_pos heq] at hex
                have hdo2 : ∀ i ∈ ({ s2 with
                    current_attacker :=
                      (s2.current_attacker + 1) % s2.attackers.length
                    player_to_play := padv } : GameState).draw_order,
                    i < ({ s2 with
                    current_attacker :=
                      (s2.current_attacker + 1) % s2.attackers.length
                    player_to_play := padv } : GameState).players.length := by
                  intro i hi
                  show i < s2.players.length
                  rw [hlen]
                  refine hdo i ?_
                  rw [show ({ s2 with
                    current_attacker :=
                      (s2.current_attacker + 1) % s2.attackers.length
                    player_to_play := padv } : GameState).draw_order =
                      s2.draw_order from rfl, hdro] at hi
                  exact hi
                have hdef2b : ∀ d, ({ s2 with
                    current_attacker :=
                      (s2.current_attacker + 1) % s2.attackers.length
                    player_to_play := padv } : GameState).defender = some d →
                    d < ({ s2 with
                    current_attacker :=
                      (s2.current_attacker + 1) % s2.attackers.length
                    player_to_play := padv } : GameState).players.length := by
                  intro d hd
                  show d < s2.players.length
                  rw [hlen]
                  refine hdef d ?_
                  rw [show ({ s2 with
                    current_attacker :=
                      (s2.current_attacker + 1) % s2.attackers.length
                    player_to_play := padv } : GameState).defender =
                      s2.defender from rfl, hdef2] at hd
                  exact hd
                have hclose := closeTrick_conservation h2 _ (h1, s1)
                  hdo2 hdef2b hex
                show ((inPlay s1 : List Nat) : Multiset Nat) +
                  (([] : List Nat) : Multiset Nat) = _
                rw [Multiset.coe_nil, add_zero]
                refine hclose.trans ?_
                refine Eq.trans ?_ hMs
                rfl
              · rw [if_neg heq] at hex
                injection hex with hex
                injection hex with hexh hexs
                subst hexh
                subst hexs
                show ((inPlay s2 : List Nat) : Multiset Nat) +
                  (([] : List Nat) : Multiset Nat) = _
                rw [Multiset.coe_nil, add_zero]
                exact hMs
  | passAttack =>
    simp only [executeAction] at hex
    by_cases hn : s.attackers.length = 0
    · rw [if_pos hn] at hex
      cases hex
    · rw [if_neg hn] at hex
      rcases hadv : s.attackers.get?
          ((s.current_attacker + 1) % s.attackers.length) with _ | p <;>
        rw [hadv] at hex <;> dsimp only [] at hex
      · cases hex
      · by_cases heq : some p = s.last_played_attacker
        · rw [if_pos heq] at hex
          have hpc : passCloses s = true := by
            unfold passCloses
            rw [hadv]
            simp [hn, heq]
          have hctdR : (refillDrawOrder ({ s with
              history := s.history ++ [Action.passAttack]
              current_attacker :=
                (s.current_attacker + 1) % s.attackers.length
              player_to_play := p } : GameState)).cards_to_defend =
              s.cards_to_defend := by
            unfold refillDrawOrder
            rw [refillOver_ctd]
          have hdefR : (refillDrawOrder ({ s with
              history := s.history ++ [Action.passAttack]
              current_attacker :=
                (s.current_attacker + 1) % s.attackers.length
              player_to_play := p } : GameState)).defender = s.defender := by
            unfold refillDrawOrder
            rw [refillOver_defender]
          rw [hctdR] at hex
          by_cases hctd0 : s.cards_to_defend = []
          · rw [if_pos hctd0] at hex
            rw [hdefR] at hex
            rcases hdd : s.defender with _ | d <;> rw [hdd] at hex <;>
              dsimp only [] at hex
            · cases hex
            · rw [← hdd] at hex
              rcases hnt : newTrick (refillDrawOrder ({ s with
                  history := s.history ++ [Action.passAttack]
                  current_attacker :=
                    (s.current_attacker + 1) % s.attackers.length
                  player_to_play := p } : GameState))
                  (getPlayer (refillDrawOrder ({ s with
                    history := s.history ++ [Action.passAttack]
                    current_attacker :=
                      (s.current_attacker + 1) % s.attackers.length
                    player_to_play := p } : GameState)) d).name with
                _ | s3 <;> rw [hnt] at hex <;> dsimp only [] at hex
              · cases hex
              · injection hex with hex
                injection hex with hexh hexs
                subst hexh
                subst hexs
                obtain ⟨hpl, hpr3, hctd3, hdk3, _⟩ := newTrick_facts _ _ _ hnt
                have hrefill := refillOver_conservation
                  (({ s with
                    history := s.history ++ [Action.passAttack]
                    current_attacker :=
                      (s.current_attacker + 1) % s.attackers.length
                    player_to_play := p } : GameState).draw_order)
                  ({ s with
                    history := s.history ++ [Action.passAttack]
                    current_attacker :=
                      (s.current_attacker + 1) % s.attackers.length
                    player_to_play := p } : GameState)
                  (by
                    intro i hi
                    show i < s.players.length
                    exact hdo i hi)
                have hprR : (refillDrawOrder ({ s with
                    history := s.history ++ [Action.passAttack]
                    current_attacker :=
                      (s.current_attacker + 1) % s.attackers.length
                    player_to_play := p } : GameState)).pairs_finished =
                    s.pairs_finished := by
                  unfold refillDrawOrder
                  rw [refillOver_pairs]
                rw [inPlayM_eq, inPlayM_eq]
                rw [show s3.deck = (refillDrawOrder ({ s with
                    history := s.history ++ [Action.passAttack]
                    current_attacker :=
                      (s.current_attacker + 1) % s.attackers.length
                    player_to_play := p } : GameState)).deck from by
                  rw [hdk3],
                  show s3.players = (refillDrawOrder ({ s with
                    history := s.history ++ [Action.passAttack]
                    current_attacker :=
                      (s.current_attacker + 1) % s.attackers.length
                    player_to_play := p } : GameState)).players from by
                  rw [hpl],
                  hctd3,
                  show pairsFlat s3 = ([] : List Nat) from by
                    unfold pairsFlat
                    rw [hpr3]
                    rfl,
                  show removedBy s Action.passAttack = pairsFlat s from by
                    unfold removedBy
                    rw [hpc]
                    rfl,
                  show ((s.cards_to_defend : List Nat) : Multiset Nat) =
                      0 from by
                    rw [hctd0]
                    rfl]
                have hrefill2 : ((refillDrawOrder ({ s with
                    history := s.history ++ [Action.passAttack]
                    current_attacker :=
                      (s.current_attacker + 1) % s.attackers.length
                    player_to_play := p } : GameState)).deck : Multiset Nat) +
                    (((refillDrawOrder ({ s with
                    history := s.history ++ [Action.passAttack]
                    current_attacker :=
                      (s.current_attacker + 1) % s.attackers.length
                    player_to_play := p } : GameState)).players.flatMap
                      Player.hand : List Nat) : Multiset Nat) =
                    ((s.deck : List Nat) : Multiset Nat) +
                    ((s.players.flatMap Player.hand : List Nat) :
                      Multiset Nat) := by
                  unfold refillDrawOrder
                  exact hrefill
                simp only [Multiset.coe_nil, add_zero]
                rw [hrefill2]
          · rw [if_neg hctd0] at hex
            cases hex
        · rw [if_neg heq] at hex
          injection hex with hex
          injection hex with hexh hexs
          subst hexh
          subst hexs
          have hpc : passCloses s = false := by
            unfold passCloses
            rw [hadv]
            simp [heq]
          show ((inPlay s : List Nat) : Multiset Nat) +
            ((removedBy s Action.passAttack : List Nat) : Multiset Nat) = _
          rw [show removedBy s Action.passAttack = ([] : List Nat) from by
            unfold removedBy
            rw [hpc]
            rfl]
          simp
  | reflect sv =>
    simp only [executeAction] at hex
    rcases hdd : s.defender with _ | d <;> rw [hdd] at hex <;>
      dsimp only [] at hex
    · cases hex
    · rw [← hdd] at hex
      rcases hdc : discardCard h
          { s with history := s.history ++ [Action.reflect sv] } d sv true
          with _ | ⟨h2, s2, r⟩ <;> rw [hdc] at hex <;> dsimp only [] at hex
      · cases hex
      · by_cases hn : s2.attackers.length = 0
        · rw [if_pos hn] at hex
          cases hex
        · rw [if_neg hn] at hex
          rcases hj : s2.attackers.get? (1 % s2.attackers.length) with
            _ | nd <;> rw [hj] at hex <;> dsimp only [] at hex
          · cases hex
          · injection hex with hex
            injection hex with hexh hexs
            subst hexh
            subst hexs
            rcases discardCard_conservation h _ d sv h2 s2 r hdc with
              ⟨hc, hdk, hctd, hpr, _⟩
            dsimp only [] at hc hdk hctd hpr
            rw [inPlayM_eq, inPlayM_eq]
            simp only [pairsFlat]
            rw [hdk, hctd, hpr, ← hc,
              show removedBy s (Action.reflect sv) = [] from rfl,
              ← Multiset.coe_add]
            simp only [Multiset.coe_nil, Multiset.coe_singleton, add_zero]
            abel
  | reflectTrump sv =>
    simp only [executeAction] at hex
    rcases hdd : s.defender with _ | d <;> rw [hdd] at hex <;>
      dsimp only [] at hex
    · cases hex
    · rw [← hdd] at hex
      by_cases hpd : s.player_to_play = d
      · rw [if_pos hpd] at hex
        rcases hdc : discardCard h
            { s with history := s.history ++ [Action.reflectTrump sv] }
            s.player_to_play sv false with _ | ⟨h2, s2, r⟩ <;>
          rw [hdc] at hex <;> dsimp only [] at hex
        · cases hex
        · by_cases hn : s2.attackers.length = 0
          · rw [if_pos hn] at hex
            cases hex
          · rw [if_neg hn] at hex
            rcases hj : s2.attackers.get? (1 % s2.attackers.length) with
              _ | nd <;> rw [hj] at hex <;> dsimp only [] at hex
            · cases hex
            · injection hex with hex
              injection hex with hexh hexs
              subst hexh
              subst hexs
              rcases discardCard_keep_conservation h _ s.player_to_play sv
                h2 s2 r hdc with ⟨hc, hdk, hctd, hpr, _⟩
              dsimp only [] at hc hdk hctd hpr
              rw [inPlayM_eq, inPlayM_eq]
              simp only [pairsFlat]
              rw [hdk, hctd, hpr, hc,
                show removedBy s (Action.reflectTrump sv) = [] from rfl]
              simp only [Multiset.coe_nil, add_zero]
      · rw [if_neg hpd] at hex
        cases hex

set_option maxRecDepth 8000 in
/-- Witness for the amended C3 at a concrete trick-closing `PassAttack`
(after `P1` attacks with `(1,0)` and `P2` defends with `(1,1)`): the finished
pair's two card references are exactly what leaves play. -/
theorem exec_card_conservation_witness :
    ((inPlay demoAfterPass.2 : List Nat) : Multiset Nat) +
      ((removedBy demoAfterDefend.2 Action.passAttack : List Nat) :
        Multiset Nat) =
      ((inPlay demoAfterDefend.2 : List Nat) : Multiset Nat) :=
  exec_card_conservation demoAfterDefend.1 demoAfterDefend.2 Action.passAttack
    demoAfterPass.1 demoAfterPass.2 (by decide) (by decide) (by decide)

def handRefs (s : GameState) : List Nat := s.players.flatMap Player.hand

def demoCopy : Heap × GameState :=
  (makeDeepcopy demoInit.1 demoInit.2).getD default

def demoCopyRun : Heap × GameState :=
  (executeActions demoCopy.1 demoCopy.2 [Action.attack (1, 0)]).getD default

theorem readCard_writeCard_ne (h : Heap) (r : Nat) (c : Card) (q : Nat)
    (hne : q ≠ r) : readCard (writeCard h r c) q = readCard h q := by
  unfold readCard writeCard
  rw [List.getD_eq_getElem?_getD, List.getD_eq_getElem?_getD,
    List.getElem?_set_ne (fun he => hne he.symm)]

theorem mem_handRefs (s : GameState) (i : Nat) (q : Nat)
    (hq : q ∈ (getPlayer s i).hand) : q ∈ handRefs s := by
  unfold handRefs
  unfold getPlayer at hq
  rw [List.getD_eq_getElem?_getD] at hq
  rcases hlt : s.players[i]? with _ | p
  · rw [hlt] at hq
    cases hq
  · rw [hlt] at hq
    refine List.mem_flatMap.mpr ⟨p, ?_, hq⟩
    exact List.get?_mem (by rw [List.get?_eq_getElem?]; exact hlt)

theorem mem_flatMap_set (pl : List Player) (i : Nat) (p1 : Player) (q : Nat)
    (hq : q ∈ (pl.set i p1).flatMap Player.hand) :
    q ∈ p1.hand ∨ q ∈ pl.flatMap Player.hand := by
  rcases List.mem_flatMap.mp hq with ⟨pp, hpp, hqp⟩
  rcases List.mem_or_eq_of_mem_set hpp with hmem | heq
  · exact Or.inr (List.mem_flatMap.mpr ⟨pp, hmem, hqp⟩)
  · subst heq
    exact Or.inl hqp

theorem mem_inPlay_parts (s : GameState) (q : Nat) :
    q ∈ inPlay s ↔ q ∈ s.deck ∨ q ∈ handRefs s ∨ q ∈ s.cards_to_defend ∨
      q ∈ pairsFlat s := by
  unfold inPlay handRefs
  simp [List.mem_append, or_assoc]

theorem mem_inPlay_of_hand (s : GameState) (q : Nat) (hq : q ∈ handRefs s) :
    q ∈ inPlay s :=
  (mem_inPlay_parts s q).mpr (Or.inr (Or.inl hq))

/-- The heap footprint of a successful `discard_card`: the heap keeps its
length, only the played card's address (a hand card) is written, the hands
can only shrink, and the other card-holding lists are untouched. -/
theorem discardCard_frame (h : Heap) (s : GameState) (pIdx : Nat) (sv : SV)
    (rm : Bool) (h1 : Heap) (s2 : GameState) (r : Nat)
    (hd : discardCard h s pIdx sv rm = some (h1, s2, r)) :
    h1.length = h.length ∧
    r ∈ handRefs s ∧
    (∀ q, q ∉ handRefs s → readCard h1 q = readCard h q) ∧
    (∀ q, q ∈ handRefs s2 → q ∈ handRefs s) ∧
    s2.deck = s.deck ∧ s2.cards_to_defend = s.cards_to_defend ∧
    s2.pairs_finished = s.pairs_finished := by
  rcases discardCard_spec h s pIdx sv rm h1 s2 r hd with ⟨i, hfi, hg, hs2, hh1⟩
  have hrmem : r ∈ handRefs s := mem_handRefs s pIdx r (List.get?_mem hg)
  subst hs2
  subst hh1
  refine ⟨by simp [writeCard], hrmem, ?_, ?_, rfl, rfl, rfl⟩
  · intro q hq
    exact readCard_writeCard_ne h r _ q (fun he => hq (he ▸ hrmem))
  · intro q hq
    unfold handRefs setPlayerHand at hq
    rcases mem_flatMap_set s.players pIdx _ q hq with hin | hin
    · dsimp only [] at hin
      rcases rm with _ | _
      · rw [if_neg (by simp)] at hin
        exact mem_handRefs s pIdx q hin
      · rw [if_pos rfl] at hin
        exact mem_handRefs s pIdx q (List.eraseIdx_subset _ _ hin)
    · exact hin

/-- Pushing `inPlay` membership through a state built from `s2` when each
component lands in `inPlay s`. -/
theorem inPlay_push (s s2 : GameState) (hdk : s2.deck = s.deck)
    (hsub : ∀ q, q ∈ handRefs s2 → q ∈ handRefs s)
    (hctd : ∀ q, q ∈ s2.cards_to_defend → q ∈ inPlay s)
    (hpr : ∀ q, q ∈ pairsFlat s2 → q ∈ inPlay s) :
    ∀ q, q ∈ inPlay s2 → q ∈ inPlay s := by
  intro q hq
  rw [mem_inPlay_parts] at hq
  rcases hq with hq | hq | hq | hq
  · exact (mem_inPlay_parts s q).mpr (Or.inl (hdk ▸ hq))
  · exact mem_inPlay_of_hand s q (hsub q hq)
  · exact hctd q hq
  · exact hpr q hq

/-- The Throw-phase discard loop writes only at hand addresses and moves
cards only between the tracked in-play places. -/
theorem throwDiscardsGo_frame (l : List SV) :
    ∀ h s h1 s1, throwDiscardsGo h s l = some (h1, s1) →
      h1.length = h.length ∧
      (∀ q, q ∉ handRefs s → readCard h1 q = readCard h q) ∧
      (∀ q, q ∈ handRefs s1 → q ∈ handRefs s) ∧
      (∀ q, q ∈ inPlay s1 → q ∈ inPlay s) := by
  induction l with
  | nil =>
    intro h s h1 s1 hd
    injection hd with hd
    injection hd with hd1 hd2
    subst hd1
    subst hd2
    exact ⟨rfl, fun q _ => rfl, fun q hq => hq, fun q hq => hq⟩
  | cons sv rest ih =>
    intro h s h1 s1 hd
    rw [throwDiscardsGo] at hd
    rcases hdc : discardCard h s s.player_to_play sv true with
      _ | ⟨h2, s2, r⟩ <;> rw [hdc] at hd <;> dsimp only [] at hd
    · cases hd
    · obtain ⟨hlen, hr, hfr, hsub, hdk, hctd, hpr⟩ :=
        discardCard_frame h s s.player_to_play sv true h2 s2 r hdc
      obtain ⟨hlen2, hfr2, hsub2, hip2⟩ := ih h2 _ h1 s1 hd
      refine ⟨hlen2.trans hlen, ?_, ?_, ?_⟩
      · intro q hq
        have hq2 : q ∉ handRefs
            { s2 with cards_to_defend := s2.cards_to_defend ++ [r] } :=
          fun hmem => hq (hsub q hmem)
        rw [hfr2 q hq2, hfr q hq]
      · intro q hq
        exact hsub q (hsub2 q hq)
      · intro q hq
        refine inPlay_push s
          ({ s2 with cards_to_defend := s2.cards_to_defend ++ [r] })
          hdk hsub ?_ ?_ q (hip2 q hq)
        · intro q2 hq2a
          have hq2 : q2 ∈ s2.cards_to_defend ++ [r] := hq2a
          rcases List.mem_append.mp hq2 with hq2 | hq2
          · exact (mem_inPlay_parts s q2).mpr
              (Or.inr (Or.inr (Or.inl (hctd ▸ hq2))))
          · rcases List.mem_singleton.mp hq2 with rfl
            exact mem_inPlay_of_hand s q2 hr
        · intro q2 hq2
          refine (mem_inPlay_parts s q2).mpr (Or.inr (Or.inr (Or.inr ?_)))
          have : pairsFlat
              { s2 with cards_to_defend := s2.cards_to_defend ++ [r] } =
              pairsFlat s := by
            unfold pairsFlat
            rw [show ({ s2 with
              cards_to_defend := s2.cards_to_defend ++ [r] } :
                GameState).pairs_finished = s2.pairs_finished from rfl, hpr]
          exact this ▸ hq2

theorem refillStep_subset (st : GameState) (i : Nat) :
    ∀ q, q ∈ inPlay (refillStep st i) → q ∈ inPlay st := by
  intro q hq
  rw [show refillStep st i = setPlayerHand
      { st with deck := (fillHand st.deck (getPlayer st i).hand).1 } i
      (fillHand st.deck (getPlayer st i).hand).2 from rfl] at hq
  rw [mem_inPlay_parts] at hq
  rcases hq with hq | hq | hq | hq
  · refine (mem_inPlay_parts st q).mpr (Or.inl ?_)
    have hq2 : q ∈ st.deck.drop
        (min (6 - (getPlayer st i).hand.length) st.deck.length) := hq
    exact List.drop_subset _ _ hq2
  · unfold handRefs setPlayerHand at hq
    rcases mem_flatMap_set _ i _ q hq with hin | hin
    · have hin2 : q ∈ (getPlayer st i).hand ++ st.deck.take
          (min (6 - (getPlayer st i).hand.length) st.deck.length) := hin
      rcases List.mem_append.mp hin2 with hin3 | hin3
      · exact mem_inPlay_of_hand st q (mem_handRefs st i q hin3)
      · exact (mem_inPlay_parts st q).mpr
          (Or.inl (List.take_subset _ _ hin3))
    · exact mem_inPlay_of_hand st q hin
  · exact (mem_inPlay_parts st q).mpr (Or.inr (Or.inr (Or.inl hq)))
  · exact (mem_inPlay_parts st q).mpr (Or.inr (Or.inr (Or.inr hq)))

theorem refillOver_subset (ord : List Nat) :
    ∀ s q, q ∈ inPlay (refillOver ord s) → q ∈ inPlay s := by
  induction ord with
  | nil => intro s q hq; exact hq
  | cons i rest ih =>
    intro s q hq
    exact refillStep_subset s i q (ih (refillStep s i) q hq)

theorem newTrick_subset (s : GameState) (nm : String) (s3 : GameState)
    (hnt : newTrick s nm = some s3) : ∀ q, q ∈ inPlay s3 → q ∈ inPlay s := by
  obtain ⟨hpl, hpr3, hctd3, hdk3, _⟩ := newTrick_facts s nm s3 hnt
  intro q hq
  rw [mem_inPlay_parts] at hq
  rcases hq with hq | hq | hq | hq
  · exact (mem_inPlay_parts s q).mpr (Or.inl (hdk3 ▸ hq))
  · refine mem_inPlay_of_hand s q ?_
    unfold handRefs at hq ⊢
    exact hpl ▸ hq
  · rw [hctd3] at hq
    cases hq
  · rw [show pairsFlat s3 = ([] : List Nat) from by
      unfold pairsFlat
      rw [hpr3]
      rfl] at hq
    cases hq

theorem closeIntermediate_subset (s : GameState) (d : Nat) :
    ∀ q, q ∈ inPlay (closeIntermediate s d) → q ∈ inPlay s := by
  intro q hq
  have h2 := refillOver_subset _ _ q hq
  rw [mem_inPlay_parts] at h2
  rcases h2 with h2 | h2 | h2 | h2
  · exact (mem_inPlay_parts s q).mpr (Or.inl h2)
  · unfold handRefs setPlayerHand at h2
    rcases mem_flatMap_set _ d _ q h2 with hin | hin
    · have hin2 : q ∈ (getPlayer s d).hand ++
          (pairsFlat s ++ s.cards_to_defend) := hin
      rcases List.mem_append.mp hin2 with hin3 | hin3
      · exact mem_inPlay_of_hand s q (mem_handRefs s d q hin3)
      · rcases List.mem_append.mp hin3 with hin4 | hin4
        · exact (mem_inPlay_parts s q).mpr (Or.inr (Or.inr (Or.inr hin4)))
        · exact (mem_inPlay_parts s q).mpr (Or.inr (Or.inr (Or.inl hin4)))
    · exact mem_inPlay_of_hand s q hin
  · exact (mem_inPlay_parts s q).mpr (Or.inr (Or.inr (Or.inl h2)))
  · exact (mem_inPlay_parts s q).mpr (Or.inr (Or.inr (Or.inr h2)))

theorem closeTrick_subset (h : Heap) (s : GameState) (h1 : Heap)
    (s1 : GameState) (hct : closeTrick h s = some (h1, s1)) :
    h1 = h ∧ ∀ q, q ∈ inPlay s1 → q ∈ inPlay s := by
  simp only [closeTrick] at hct
  rcases hdd : s.defender with _ | d <;> rw [hdd] at hct <;>
    dsimp only [] at hct
  · cases hct
  · rcases hna : (closeIntermediate s d).attackers.get?
        (1 % (closeIntermediate s d).attackers.length) with _ | na <;>
      rw [hna] at hct <;> dsimp only [] at hct
    · cases hct
    · rcases hnt : newTrick (closeIntermediate s d)
          (getPlayer (closeIntermediate s d) na).name with _ | s3 <;>
        rw [hnt] at hct <;> dsimp only [] at hct
      · cases hct
      · injection hct with hct
        injection hct with hcth hcts
        subst hcth
        subst hcts
        refine ⟨rfl, fun q hq => ?_⟩
        exact closeIntermediate_subset s d q (newTrick_subset _ _ _ hnt q hq)

/-- The heap footprint of one `execute_action`: the heap keeps its length,
only in-play addresses of the pre-state are written, and the in-play
addresses of the post-state all come from the pre-state. -/
theorem executeAction_frame (h : Heap) (s : GameState) (a : Action)
    (h1 : Heap) (s1 : GameState)
    (hex : executeAction h s a = some (h1, s1)) :
    h1.length = h.length ∧
    (∀ q, q ∉ inPlay s → readCard h1 q = readCard h q) ∧
    (∀ q, q ∈ inPlay s1 → q ∈ inPlay s) := by
  cases a with
  | attack sv =>
    simp only [executeAction] at hex
    rcases hdc : discardCard h
        { s with history := s.history ++ [Action.attack sv] }
        s.player_to_play sv true with _ | ⟨h2, s2, r⟩ <;>
      rw [hdc] at hex <;> dsimp only [] at hex
    · cases hex
    · rcases hdd : s2.defender with _ | d <;> rw [hdd] at hex <;>
        dsimp only [] at hex
      · cases hex
      · injection hex with hex
        injection hex with hexh hexs
        subst hexh
        subst hexs
        obtain ⟨hlen, hr, hfr, hsub, hdk, hctd, hpr⟩ :=
          discardCard_frame h _ s.player_to_play sv true h2 s2 r hdc
        dsimp only [] at hr hfr hsub hdk hctd hpr
        have hr2 : r ∈ handRefs s := hr
        refine ⟨hlen, fun q hq => hfr q (fun hm => hq
          (mem_inPlay_of_hand s q hm)), ?_⟩
        refine inPlay_push s _ hdk hsub ?_ ?_
        · intro q2 hq2a
          have hq2 : q2 ∈ s2.cards_to_defend ++ [r] := hq2a
          rcases List.mem_append.mp hq2 with hq2 | hq2
          · exact (mem_inPlay_parts s q2).mpr
              (Or.inr (Or.inr (Or.inl (hctd ▸ hq2))))
          · rcases List.mem_singleton.mp hq2 with rfl
            exact mem_inPlay_of_hand s q2 hr2
        · intro q2 hq2a
          have hq2 : q2 ∈ pairsFlat s2 := hq2a
          refine (mem_inPlay_parts s q2).mpr (Or.inr (Or.inr (Or.inr ?_)))
          rw [show pairsFlat s2 = pairsFlat s from by
            unfold pairsFlat
            rw [hpr]] at hq2
          exact hq2
  | defend sv =>
    simp only [executeAction] at hex
    rcases hctd0 : s.cards_to_defend with _ | ⟨cd, rest⟩ <;>
      rw [hctd0] at hex <;> dsimp only [] at hex
    · cases hex
    · rcases hdc : discardCard h
          { s with
            history := s.history ++ [Action.defend sv]
            cards_to_defend := rest }
          s.player_to_play sv true with _ | ⟨h2, s2, r⟩ <;>
        rw [hdc] at hex <;> dsimp only [] at hex
      · cases hex
      · obtain ⟨hlen, hr, hfr, hsub, hdk, hctd, hpr⟩ :=
          discardCard_frame h _ s.player_to_play sv true h2 s2 r hdc
        dsimp only [] at hr hfr hsub hdk hctd hpr
        have hr2 : r ∈ handRefs s := hr
        have hpush : ∀ X : GameState,
            X.deck = s2.deck →
            X.players = s2.players →
            X.cards_to_defend = s2.cards_to_defend →
            X.pairs_finished = s2.pairs_finished ++ [(cd, r)] →
            ∀ q, q ∈ inPlay X → q ∈ inPlay s := by
          intro X hXd hXp hXc hXpr
          refine inPlay_push s X (hXd.trans hdk)
            (fun q hq => hsub q (by
              unfold handRefs at hq ⊢
              rw [hXp] at hq
              exact hq)) ?_ ?_
          · intro q2 hq2
            rw [hXc, hctd] at hq2
            refine (mem_inPlay_parts s q2).mpr
              (Or.inr (Or.inr (Or.inl ?_)))
            rw [hctd0]
            exact List.mem_cons_of_mem cd hq2
          · intro q2 hq2
            have hq3 : q2 ∈ pairsFlatL X.pairs_finished := hq2
            rw [hXpr, pairsFlatL_append] at hq3
            rcases List.mem_append.mp hq3 with hq4 | hq4
            · refine (mem_inPlay_parts s q2).mpr
                (Or.inr (Or.inr (Or.inr ?_)))
              rw [show pairsFlatL s2.pairs_finished = pairsFlat s from by
                unfold pairsFlat
                rw [hpr]] at hq4
              exact hq4
            · have hq5 : q2 ∈ [cd, r] := hq4
              rcases List.mem_cons.mp hq5 with hq6 | hq6
              · refine (mem_inPlay_parts s q2).mpr
                  (Or.inr (Or.inr (Or.inl ?_)))
                rw [hctd0]
                exact List.mem_cons.mpr (Or.inl hq6)
              · rcases List.mem_singleton.mp hq6 with rfl
                exact mem_inPlay_of_hand s q2 hr2
        by_cases hlen0 : s2.cards_to_defend.length = 0
        · rw [if_pos hlen0] at hex
          rcases hga : s2.attackers.get? s2.current_attacker with _ | p <;>
            rw [hga] at hex <;> dsimp only [] at hex
          · cases hex
          · injection hex with hex
            injection hex with hexh hexs
            subst hexh
            subst hexs
            exact ⟨hlen, fun q hq => hfr q (fun hm => hq
              (mem_inPlay_of_hand s q hm)), hpush _ rfl rfl rfl rfl⟩
        · rw [if_neg hlen0] at hex
          injection hex with hex
          injection hex with hexh hexs
          subst hexh
          subst hexs
          exact ⟨hlen, fun q hq => hfr q (fun hm => hq
            (mem_inPlay_of_hand s q hm)), hpush _ rfl rfl rfl rfl⟩
  | take =>
    simp only [executeAction] at hex
    rcases hga : s.attackers.get? s.current_attacker with _ | p <;>
      rw [hga] at hex <;> dsimp only [] at hex
    · cases hex
    · injection hex with hex
      injection hex with hexh hexs
      subst hexh
      subst hexs
      exact ⟨rfl, fun q _ => rfl, fun q hq => hq⟩
  | throwCards p =>
    simp only [executeAction] at hex
    rcases hdis : throwDiscards h
        { s with history := s.history ++ [Action.throwCards p] } p with
      _ | ⟨h2, s2⟩ <;> rw [hdis] at hex <;> dsimp only [] at hex
    · cases hex
    · have hgo : h2.length = h.length ∧
          (∀ q, q ∉ handRefs s → readCard h2 q = readCard h q) ∧
          (∀ q, q ∈ inPlay s2 → q ∈ inPlay s) := by
        match p, hdis with
        | none, hdis =>
          injection hdis with hdis
          injection hdis with hd1 hd2
          subst hd1
          subst hd2
          exact ⟨rfl, fun q _ => rfl, fun q hq => hq⟩
        | some (sv :: rest), hdis =>
          obtain ⟨hl, hf, _, hip⟩ :=
            throwDiscardsGo_frame (sv :: rest) h _ h2 s2 hdis
          exact ⟨hl, hf, hip⟩
      obtain ⟨hlen, hfr, hip⟩ := hgo
      have hframe : ∀ q, q ∉ inPlay s → readCard h2 q = readCard h q :=
        fun q hq => hfr q (fun hm => hq (mem_inPlay_of_hand s q hm))
      by_cases hn : s2.attackers.length = 0
      · rw [if_pos hn] at hex
        cases hex
      · rw [if_neg hn] at hex
        rcases hadv : s2.attackers.get?
            ((s2.current_attacker + 1) % s2.attackers.length) with _ | padv <;>
          rw [hadv] at hex <;> dsimp only [] at hex
        · cases hex
        · rcases hast : s2.attacker_to_start_throwing with _ | ast <;>
            rw [hast] at hex <;> dsimp only [] at hex
          · cases hex
          · rcases hget : s2.attackers.get? ast with _ | startP <;>
              rw [hget] at hex <;> dsimp only [] at hex
            · cases hex
            · rw [← hast] at hex
              by_cases heq : padv = startP
              · rw [if_pos heq] at hex
                obtain ⟨hh, hsub2⟩ := closeTrick_subset h2 _ h1 s1 hex
                subst hh
                refine ⟨hlen, hframe, fun q hq => hip q (hsub2 q hq)⟩
              · rw [if_neg heq] at hex
                injection hex with hex
                injection hex with hexh hexs
                subst hexh
                subst hexs
                exact ⟨hlen, hframe, fun q hq => hip q hq⟩
  | passAttack =>
    simp only [executeAction] at hex
    by_cases hn : s.attackers.length = 0
    · rw [if_pos hn] at hex
      cases hex
    · rw [if_neg hn] at hex
      rcases hadv : s.attackers.get?
          ((s.current_attacker + 1) % s.attackers.length) with _ | p <;>
        rw [hadv] at hex <;> dsimp only [] at hex
      · cases hex
      · by_cases heq : some p = s.last_played_attacker
        · rw [if_pos heq] at hex
          by_cases hctd0 : (refillDrawOrder ({ s with
              history := s.history ++ [Action.passAttack]
              current_attacker :=
                (s.current_attacker + 1) % s.attackers.length
              player_to_play := p } : GameState)).cards_to_defend = []
          · rw [if_pos hctd0] at hex
            rcases hdd : (refillDrawOrder ({ s with
                history := s.history ++ [Action.passAttack]
                current_attacker :=
                  (s.current_attacker + 1) % s.attackers.length
                player_to_play := p } : GameState)).defender with _ | d <;>
              rw [hdd] at hex <;> dsimp only [] at hex
            · cases hex
            · rcases hnt : newTrick (refillDrawOrder ({ s with
                  history := s.history ++ [Action.passAttack]
                  current_attacker :=
                    (s.current_attacker + 1) % s.attackers.length
                  player_to_play := p } : GameState))
                  (getPlayer (refillDrawOrder ({ s with
                    history := s.history ++ [Action.passAttack]
                    current_attacker :=
                      (s.current_attacker + 1) % s.attackers.length
                    player_to_play := p } : GameState)) d).name with
                _ | s3 <;> rw [hnt] at hex <;> dsimp only [] at hex
              · cases hex
              · injection hex with hex
                injection hex with hexh hexs
                subst hexh
                subst hexs
                refine ⟨rfl, fun q _ => rfl, fun q hq => ?_⟩
                exact refillOver_subset
                  (({ s with
                    history := s.history ++ [Action.passAttack]
                    current_attacker :=
                      (s.current_attacker + 1) % s.attackers.length
                    player_to_play := p } : GameState).draw_order)
                  ({ s with
                    history := s.history ++ [Action.passAttack]
                    current_attacker :=
                      (s.current_attacker + 1) % s.attackers.length
                    player_to_play := p } : GameState)
                  q (newTrick_subset _ _ _ hnt q hq)
          · rw [if_neg hctd0] at hex
            cases hex
        · rw [if_neg heq] at hex
          injection hex with hex
          injection hex with hexh hexs
          subst hexh
          subst hexs
          exact ⟨rfl, fun q _ => rfl, fun q hq => hq⟩
  | reflect sv =>
    simp only [executeAction] at hex
    rcases hdd : s.defender with _ | d <;> rw [hdd] at hex <;>
      dsimp only [] at hex
    · cases hex
    · rw [← hdd] at hex
      rcases hdc : discardCard h
          { s with history := s.history ++ [Action.reflect sv] } d sv true
          with _ | ⟨h2, s2, r⟩ <;> rw [hdc] at hex <;> dsimp only [] at hex
      · cases hex
      · by_cases hn : s2.attackers.length = 0
        · rw [if_pos hn] at hex
          cases hex
        · rw [if_neg hn] at hex
          rcases hj : s2.attackers.get? (1 % s2.attackers.length) with
            _ | nd <;> rw [hj] at hex <;> dsimp only [] at hex
          · cases hex
          · injection hex with hex
            injection hex with hexh hexs
            subst hexh
            subst hexs
            obtain ⟨hlen, hr, hfr, hsub, hdk, hctd, hpr⟩ :=
              discardCard_frame h _ d sv true h2 s2 r hdc
            dsimp only [] at hr hfr hsub hdk hctd hpr
            have hr2 : r ∈ handRefs s := hr
            refine ⟨hlen, fun q hq => hfr q (fun hm => hq
              (mem_inPlay_of_hand s q hm)), ?_⟩
            refine inPlay_push s _ hdk hsub ?_ ?_
            · intro q2 hq2a
              have hq2 : q2 ∈ s2.cards_to_defend ++ [r] := hq2a
              rcases List.mem_append.mp hq2 with hq2 | hq2
              · exact (mem_inPlay_parts s q2).mpr
                  (Or.inr (Or.inr (Or.inl (hctd ▸ hq2))))
              · rcases List.mem_singleton.mp hq2 with rfl
                exact mem_inPlay_of_hand s q2 hr2
            · intro q2 hq2a
              have hq2 : q2 ∈ pairsFlat s2 := hq2a
              refine (mem_inPlay_parts s q2).mpr
                (Or.inr (Or.inr (Or.inr ?_)))
              rw [show pairsFlat s2 = pairsFlat s from by
                unfold pairsFlat
                rw [hpr]] at hq2
              exact hq2
  | reflectTrump sv =>
    simp only [executeAction] at hex
    rcases hdd : s.defender with _ | d <;> rw [hdd] at hex <;>
      dsimp only [] at hex
    · cases hex
    · rw [← hdd] at hex
      by_cases hpd : s.player_to_play = d
      · rw [if_pos hpd] at hex
        rcases hdc : discardCard h
            { s with history := s.history ++ [Action.reflectTrump sv] }
            s.player_to_play sv false with _ | ⟨h2, s2, r⟩ <;>
          rw [hdc] at hex <;> dsimp only [] at hex
        · cases hex
        · by_cases hn : s2.attackers.length = 0
          · rw [if_pos hn] at hex
            cases hex
          · rw [if_neg hn] at hex
            rcases hj : s2.attackers.get? (1 % s2.attackers.length) with
              _ | nd <;> rw [hj] at hex <;> dsimp only [] at hex
            · cases hex
            · injection hex with hex
              injection hex with hexh hexs
              subst hexh
              subst hexs
              obtain ⟨hlen, hr, hfr, hsub, hdk, hctd, hpr⟩ :=
                discardCard_frame h _ s.player_to_play sv false h2 s2 r hdc
              dsimp only [] at hr hfr hsub hdk hctd hpr
              refine ⟨hlen, fun q hq => hfr q (fun hm => hq
                (mem_inPlay_of_hand s q hm)), ?_⟩
              refine inPlay_push s _ hdk hsub ?_ ?_
              · intro q2 hq2a
                have hq2 : q2 ∈ s2.cards_to_defend := hq2a
                exact (mem_inPlay_parts s q2).mpr
                  (Or.inr (Or.inr (Or.inl (hctd ▸ hq2))))
              · intro q2 hq2a
                have hq2 : q2 ∈ pairsFlat s2 := hq2a
                refine (mem_inPlay_parts s q2).mpr
                  (Or.inr (Or.inr (Or.inr ?_)))
                rw [show pairsFlat s2 = pairsFlat s from by
                  unfold pairsFlat
                  rw [hpr]] at hq2
                exact hq2
      · rw [if_neg hpd] at hex
        cases hex

/-- The heap footprint of a sequence of `execute_action` calls. -/
theorem executeActions_frame (acts : List Action) :
    ∀ h s hn sn, executeActions h s acts = some (hn, sn) →
      hn.length = h.length ∧
      (∀ q, q ∉ inPlay s → readCard hn q = readCard h q) ∧
      (∀ q, q ∈ inPlay sn → q ∈ inPlay s) := by
  induction acts with
  | nil =>
    intro h s hn sn hx
    injection hx with hx
    injection hx with hx1 hx2
    subst hx1
    subst hx2
    exact ⟨rfl, fun q _ => rfl, fun q hq => hq⟩
  | cons a rest ih =>
    intro h s hn sn hx
    rw [executeActions] at hx
    rcases hea : executeAction h s a with _ | ⟨h2, s2⟩ <;>
      rw [hea] at hx <;> dsimp only [] at hx
    · cases hx
    · obtain ⟨hl1, hf1, hs1⟩ := executeAction_frame h s a h2 s2 hea
      obtain ⟨hl2, hf2, hs2⟩ := ih h2 s2 hn sn hx
      refine ⟨hl2.trans hl1, ?_, fun q hq => hs1 q (hs2 q hq)⟩
      intro q hq
      rw [hf2 q (fun hm => hq (hs1 q hm)), hf1 q hq]

theorem mapM_mem {α β : Type} (f : α → Option β) :
    ∀ (l : List α) (l2 : List β), l.mapM f = some l2 →
      ∀ x ∈ l2, ∃ y ∈ l, f y = some x := by
  intro l
  induction l with
  | nil =>
    intro l2 hl
    rw [List.mapM_nil] at hl
    injection hl with hl
    subst hl
    intro x hx
    cases hx
  | cons a rest ih =>
    intro l2 hl
    rw [List.mapM_cons] at hl
    simp only [Option.bind_eq_bind, Option.pure_def, Option.bind_eq_some,
      Option.some.injEq] at hl
    obtain ⟨b, hb, bs, hbs, hl2⟩ := hl
    subst hl2
    intro x hx
    rcases List.mem_cons.mp hx with rfl | hx
    · exact ⟨a, List.mem_cons_self a rest, hb⟩
    · obtain ⟨y, hy, hfy⟩ := ih bs hbs x hx
      exact ⟨y, List.mem_cons_of_mem a hy, hfy⟩

theorem mem_pairsFlatL (l : List (Nat × Nat)) (q : Nat)
    (hq : q ∈ pairsFlatL l) : ∃ pr ∈ l, q = pr.1 ∨ q = pr.2 := by
  induction l with
  | nil => cases hq
  | cons p rest ih =>
    have hq2 : q ∈ p.1 :: p.2 :: pairsFlatL rest := hq
    rcases List.mem_cons.mp hq2 with rfl | hq3
    · exact ⟨p, List.mem_cons_self p rest, Or.inl rfl⟩
    · rcases List.mem_cons.mp hq3 with rfl | hq4
      · exact ⟨p, List.mem_cons_self p rest, Or.inr rfl⟩
      · obtain ⟨pr, hpr, hc⟩ := ih hq4
        exact ⟨pr, List.mem_cons_of_mem p hpr, hc⟩

theorem remapRef_ge (col : List Nat) (base : Nat) (r x : Nat)
    (h : remapRef col base r = some x) : base ≤ x := by
  unfold remapRef at h
  rcases hf : col.reverse.findIdx? (fun y => y = r) with _ | i <;>
    rw [hf] at h <;> dsimp only [] at h
  · cases h
  · injection h with h
    subst h
    exact Nat.le_add_right base _

/-- `make_deepcopy` leaves every existing heap cell unchanged — it only
appends the copies — and every card reference of the copied state points
into the fresh region. -/
theorem makeDeepcopy_fresh (h : Heap) (s : GameState) (h0 : Heap)
    (T : GameState) (hcp : makeDeepcopy h s = some (h0, T)) :
    (∀ r, r < h.length → readCard h0 r = readCard h r) ∧
    (∀ q, q ∈ inPlay T → h.length ≤ q) := by
  simp only [makeDeepcopy, Option.bind_eq_bind, Option.pure_def,
    Option.bind_eq_some, Option.some.injEq] at hcp
  obtain ⟨players1, hpl, deck1, hdk, ctd1, hctd, pairs1, hprs, hpair⟩ := hcp
  injection hpair with hpair1 hpair2
  subst hpair1
  subst hpair2
  constructor
  · intro r hr
    unfold readCard
    rw [List.getD_eq_getElem?_getD, List.getD_eq_getElem?_getD,
      List.getElem?_append_left hr]
  · intro q hq
    rw [mem_inPlay_parts] at hq
    rcases hq with hq | hq | hq | hq
    · have hq2 : q ∈ deck1 := hq
      obtain ⟨y, _, hfy⟩ := mapM_mem _ _ _ hdk q hq2
      exact remapRef_ge _ _ _ _ hfy
    · have hq2 : q ∈ players1.flatMap Player.hand := hq
      obtain ⟨p1, hp1, hqp⟩ := List.mem_flatMap.mp hq2
      obtain ⟨p0, _, hfp⟩ := mapM_mem _ _ _ hpl p1 hp1
      simp only [Option.bind_eq_bind, Option.pure_def, Option.bind_eq_some,
        Option.some.injEq] at hfp
      obtain ⟨hand1, hh1, hp1eq⟩ := hfp
      subst hp1eq
      obtain ⟨y, _, hfy⟩ := mapM_mem _ _ _ hh1 q hqp
      exact remapRef_ge _ _ _ _ hfy
    · have hq2 : q ∈ ctd1 := hq
      obtain ⟨y, _, hfy⟩ := mapM_mem _ _ _ hctd q hq2
      exact remapRef_ge _ _ _ _ hfy
    · have hq2 : q ∈ pairsFlatL pairs1 := hq
      obtain ⟨pr, hpr, hqpr⟩ := mem_pairsFlatL pairs1 q hq2
      obtain ⟨pr0, _, hfpr⟩ := mapM_mem _ _ _ hprs pr hpr
      simp only [Option.bind_eq_bind, Option.pure_def, Option.bind_eq_some,
        Option.some.injEq] at hfpr
      obtain ⟨a1, ha1, b1, hb1, hpr1⟩ := hfpr
      subst hpr1
      rcases hqpr with rfl | rfl
      · exact remapRef_ge _ _ _ _ ha1
      · exact remapRef_ge _ _ _ _ hb1

/-- C2: a snapshot survives arbitrary `execute_action` sequences applied
to the copy.  In this embedding the original state value `S` is immutable by
construction (its `history`, hands, `deck`, `cards_to_defend` and
`pairs_finished` are the same lists afterwards by definition); the mutable
content is the heap of card objects, and this theorem shows every card
object of the original heap — in particular every one reachable from `S` —
reads back unchanged after `make_deepcopy` and any successful action
sequence on the copy: the copy's references all point into the fresh region,
and `execute_action` only ever writes inside the executing state's in-play
region. -/
theorem deepcopy_frame (h : Heap) (S : GameState) (h0 : Heap) (T : GameState)
    (acts : List Action) (hn : Heap) (Tn : GameState)
    (hcp : makeDeepcopy h S = some (h0, T))
    (hex : executeActions h0 T acts = some (hn, Tn)) :
    ∀ r, r < h.length → readCard hn r = readCard h r := by
  obtain ⟨hpre, hfresh⟩ := makeDeepcopy_fresh h S h0 T hcp
  obtain ⟨_, hframe, _⟩ := executeActions_frame acts h0 T hn Tn hex
  intro r hr
  have hq : r ∉ inPlay T :=
    fun hmem => absurd hr (Nat.not_lt.mpr (hfresh r hmem))
  rw [hframe r hq]
  exact hpre r hr

set_option maxRecDepth 8000 in
/-- Witness for C2 at the concrete initial two-player game: copy the initial
state, play the attack `(1,0)` on the copy, and the original bottom trump
card (address 0 of the original heap — the first card dealt) reads back
unchanged. -/
theorem deepcopy_frame_witness :
    readCard demoCopyRun.1 0 = readCard demoInit.1 0 :=
  deepcopy_frame demoInit.1 demoInit.2 demoCopy.1 demoCopy.2
    [Action.attack (1, 0)] demoCopyRun.1 demoCopyRun.2 (by decide) (by decide)
    0 (by decide)

set_option maxRecDepth 8000 in
/-- Counterexample to C3 as stated: in the two-player game started with trump
bottom card `(0,0)`, after the attack `(1,0)` is defended by `(1,1)`, the
state is reachable and holds 36 in-play card references, yet executing the
(allowed) `PassAttack` closes the trick and leaves only 34: the two cards of
the finished pair are dropped from deck, hands, `cards_to_defend` and
`pairs_finished` alike. -/
theorem exec_card_conservation_cex :
    executeAction demoAfterDefend.1 demoAfterDefend.2 Action.passAttack =
      some demoAfterPass ∧
    (inPlay demoAfterDefend.2).length = 36 ∧
    (inPlay demoAfterPass.2).length = 34 :=
  ⟨by decide, by decide, by decide⟩

theorem cardId_eq_some (c : Card) (sv : SV) :
    cardId c = some sv ↔ c.suit = some sv.1 ∧ c.value = some sv.2 := by
  obtain ⟨a, b⟩ := sv
  unfold cardId
  rcases hs : c.suit with _ | s1 <;> rcases hv : c.value with _ | v1 <;>
    simp [Prod.ext_iff]

theorem mem_knownIds (h : Heap) (hand : List Nat) (sv : SV) :
    sv ∈ knownIds h hand ↔
      ∃ r ∈ hand, (readCard h r).is_unknown = false ∧
        cardId (readCard h r) = some sv := by
  unfold knownIds
  simp only [List.mem_filterMap, List.mem_filter, Bool.not_eq_true']
  constructor
  · rintro ⟨r, ⟨hr, hu⟩, hid⟩
    exact ⟨r, hr, hu, hid⟩
  · rintro ⟨r, hr, hu, hid⟩
    exact ⟨r, ⟨hr, hu⟩, hid⟩

theorem discardFindIdx_go_none (h : Heap) (nonPub kIds : List SV) (sv : SV) :
    ∀ (l : List Nat) (j : Nat),
      discardFindIdx.go h nonPub kIds sv l j = none →
      ∀ r ∈ l,
        ((readCard h r).is_unknown = true → ¬(sv ∈ nonPub ∧ sv ∉ kIds)) ∧
        ((readCard h r).is_unknown = false →
          ¬((readCard h r).suit = some sv.1 ∧
            (readCard h r).value = some sv.2)) := by
  intro l
  induction l with
  | nil =>
    intro j _ r hr
    cases hr
  | cons r0 rest ih =>
    intro j hnone r hr
    simp only [discardFindIdx.go] at hnone
    by_cases hu : (readCard h r0).is_unknown
    · rw [if_pos hu] at hnone
      by_cases hc : sv ∈ nonPub ∧ sv ∉ kIds
      · rw [if_pos hc] at hnone
        cases hnone
      · rw [if_neg hc] at hnone
        rcases List.mem_cons.mp hr with rfl | hr2
        · exact ⟨fun _ => hc, fun hk => by simp [hk] at hu⟩
        · exact ih (j + 1) hnone r hr2
    · rw [if_neg hu] at hnone
      by_cases hm : (readCard h r0).suit = some sv.1 ∧
          (readCard h r0).value = some sv.2
      · rw [if_pos hm] at hnone
        cases hnone
      · rw [if_neg hm] at hnone
        rcases List.mem_cons.mp hr with rfl | hr2
        · exact ⟨fun ht => absurd ht hu, fun _ => hm⟩
        · exact ih (j + 1) hnone r hr2

theorem discardFindIdx_go_found (h : Heap) (nonPub kIds : List SV)
    (sv : SV) :
    ∀ (l : List Nat) (j i : Nat),
      discardFindIdx.go h nonPub kIds sv l j = some i →
      j ≤ i ∧ i - j < l.length ∧
      ∃ r, l.get? (i - j) = some r ∧
        (((readCard h r).is_unknown = true ∧ sv ∈ nonPub ∧ sv ∉ kIds) ∨
         ((readCard h r).is_unknown = false ∧
           (readCard h r).suit = some sv.1 ∧
           (readCard h r).value = some sv.2)) := by
  intro l
  induction l with
  | nil =>
    intro j i hsome
    simp [discardFindIdx.go] at hsome
  | cons r0 rest ih =>
    intro j i hsome
    simp only [discardFindIdx.go] at hsome
    by_cases hu : (readCard h r0).is_unknown
    · rw [if_pos hu] at hsome
      by_cases hc : sv ∈ nonPub ∧ sv ∉ kIds
      · rw [if_pos hc] at hsome
        injection hsome with hsome
        subst hsome
        exact ⟨le_refl j, by simp, r0, by simp, Or.inl ⟨hu, hc⟩⟩
      · rw [if_neg hc] at hsome
        obtain ⟨hji, hlt, r, hget, hP⟩ := ih (j + 1) i hsome
        refine ⟨by omega, ?_, r, ?_, hP⟩
        · simp only [List.length_cons]
          omega
        · rw [show i - j = (i - (j + 1)) + 1 from by omega]
          simpa using hget
    · rw [if_neg hu] at hsome
      by_cases hm : (readCard h r0).suit = some sv.1 ∧
          (readCard h r0).value = some sv.2
      · rw [if_pos hm] at hsome
        injection hsome with hsome
        subst hsome
        exact ⟨le_refl j, by simp, r0, by simp,
          Or.inr ⟨Bool.eq_false_iff.mpr hu, hm⟩⟩
      · rw [if_neg hm] at hsome
        obtain ⟨hji, hlt, r, hget, hP⟩ := ih (j + 1) i hsome
        refine ⟨by omega, ?_, r, ?_, hP⟩
        · simp only [List.length_cons]
          omega
        · rw [show i - j = (i - (j + 1)) + 1 from by omega]
          simpa using hget

/-- A successful scan target exists whenever the requested identity is a
known identity of the hand, or is non-public and the hand holds an unknown
card: exactly the situations `allowed_plays` enumerates from. -/
theorem discardCard_isSome (h : Heap) (s : GameState) (pIdx : Nat) (sv : SV)
    (rm : Bool)
    (hyp : sv ∈ knownIds h (getPlayer s pIdx).hand ∨
      (sv ∈ getNonPublicCards h s ∧
        ∃ r ∈ (getPlayer s pIdx).hand, (readCard h r).is_unknown = true)) :
    (discardCard h s pIdx sv rm).isSome = true := by
  rcases hfi : discardFindIdx h (getNonPublicCards h s)
      (knownIds h (getPlayer s pIdx).hand) (getPlayer s pIdx).hand sv with
    _ | i
  · exfalso
    have hnone := discardFindIdx_go_none h (getNonPublicCards h s)
      (knownIds h (getPlayer s pIdx).hand) sv (getPlayer s pIdx).hand 0 hfi
    by_cases hk : sv ∈ knownIds h (getPlayer s pIdx).hand
    · obtain ⟨r, hr, hku, hkid⟩ := (mem_knownIds h _ sv).mp hk
      obtain ⟨hsuit, hval⟩ := (cardId_eq_some _ sv).mp hkid
      exact (hnone r hr).2 hku ⟨hsuit, hval⟩
    · rcases hyp with hyp | ⟨hnp, r, hr, hru⟩
      · exact hk hyp
      · exact (hnone r hr).1 hru ⟨hnp, hk⟩
  · obtain ⟨hj, hlt, r, hget, _⟩ := discardFindIdx_go_found h
      (getNonPublicCards h s) (knownIds h (getPlayer s pIdx).hand) sv
      (getPlayer s pIdx).hand 0 i hfi
    simp only [Nat.sub_zero] at hlt hget
    simp only [discardCard]
    rw [hfi]
    dsimp only []
    rw [hget]
    rfl

theorem poss_discard_hyp (h : Heap) (nonPub : List SV) (hand : List Nat)
    (sv : SV) (hm : sv ∈ possibleCardPlays h nonPub hand) :
    sv ∈ knownIds h hand ∨
      (sv ∈ nonPub ∧ ∃ r ∈ hand, (readCard h r).is_unknown = true) := by
  rcases (mem_possibleCardPlays h nonPub hand sv).mp hm with ⟨r, hr, hP | hP⟩
  · exact Or.inl ((mem_knownIds h hand sv).mpr ⟨r, hr, hP.1, hP.2⟩)
  · exact Or.inr ⟨hP.2, r, hr, hP.1⟩

theorem defendIds_discard_hyp (h : Heap) (s : GameState) (hand : List Nat)
    (r : Nat) (sv : SV) (hr : r ∈ hand)
    (hm : sv ∈ defendIdentities h s hand r) :
    sv ∈ knownIds h hand ∨
      (sv ∈ getNonPublicCards h s ∧
        ∃ q ∈ hand, (readCard h q).is_unknown = true) := by
  unfold defendIdentities at hm
  by_cases hu : (readCard h r).is_unknown
  · rw [if_pos hu] at hm
    rcases List.mem_filter.mp hm with ⟨hnp, _⟩
    exact Or.inr ⟨hnp, r, hr, hu⟩
  · rw [if_neg hu] at hm
    rcases hid : cardId (readCard h r) with _ | sv0 <;> rw [hid] at hm
    · cases hm
    · rcases List.mem_singleton.mp hm with rfl
      exact Or.inl ((mem_knownIds h hand sv).mpr
        ⟨r, hr, Bool.eq_false_iff.mpr hu, hid⟩)

theorem length_filter_mono {α : Type} (l : List α) (p q : α → Bool)
    (himp : ∀ x ∈ l, p x = true → q x = true) :
    (l.filter p).length ≤ (l.filter q).length := by
  induction l with
  | nil => simp
  | cons a rest ih =>
    have ihr := ih (fun x hx => himp x (List.mem_cons_of_mem a hx))
    simp only [List.filter_cons]
    by_cases hp : p a = true
    · rw [if_pos hp, if_pos (himp a (List.mem_cons_self a rest) hp)]
      simpa using ihr
    · rw [if_neg hp]
      by_cases hq : q a = true
      · rw [if_pos hq]
        simp only [List.length_cons]
        omega
      · rw [if_neg hq]
        exact ihr

theorem refillStep_name (st : GameState) (j i : Nat) :
    (getPlayer (refillStep st j) i).name = (getPlayer st i).name := by
  unfold refillStep
  dsimp only []
  by_cases hj : j < st.players.length
  · by_cases hij : i = j
    · subst hij
      rw [getPlayer_setPlayerHand_self
        ({ st with deck := (fillHand st.deck (getPlayer st i).hand).1 })
        i (fillHand st.deck (getPlayer st i).hand).2 hj]
      rfl
    · rw [getPlayer_setPlayerHand_other
        ({ st with deck := (fillHand st.deck (getPlayer st j).hand).1 })
        j i (fillHand st.deck (getPlayer st j).hand).2 hij]
      rfl
  · rw [getPlayer_setPlayerHand_oor
      ({ st with deck := (fillHand st.deck (getPlayer st j).hand).1 })
      j i (fillHand st.deck (getPlayer st j).hand).2 hj]
    rfl

theorem refillOver_names (order : List Nat) :
    ∀ (st : GameState) (i : Nat),
      (getPlayer (refillOver order st) i).name = (getPlayer st i).name := by
  induction order with
  | nil => intro st i; rfl
  | cons j rest ih =>
    intro st i
    exact (ih (refillStep st j) i).trans (refillStep_name st j i)

theorem newTrick_isSome (s : GameState) (d : Nat)
    (hd : d < s.players.length) :
    (newTrick s (getPlayer s d).name).isSome = true := by
  unfold newTrick
  rcases hfi : s.players.findIdx? (fun p => p.name = (getPlayer s d).name)
    with _ | idx
  · exfalso
    have h1 := List.findIdx?_eq_none_iff.mp hfi
    have h2 := h1 s.players[d] (List.getElem_mem hd)
    rw [getPlayer_getElem s d hd] at h2
    simp at h2
  · rw [hfi]
    dsimp only []
    rcases hl : livingFrom s idx with _ | ⟨x, _ | ⟨y, rest⟩⟩ <;> rfl

theorem removeFirstContaining_split (c : SV) :
    ∀ (slots slots1 : List (List SV)),
      removeFirstContaining slots c = some slots1 →
      ∃ pre sl post, slots = pre ++ sl :: post ∧ c ∈ sl ∧
        slots1 = pre ++ post := by
  intro slots
  induction slots with
  | nil =>
    intro slots1 hr
    cases hr
  | cons p ps ih =>
    intro slots1 hr
    simp only [removeFirstContaining] at hr
    by_cases hc : c ∈ p
    · rw [if_pos hc] at hr
      injection hr with hr
      exact ⟨[], p, ps, by simp, hc, hr.symm⟩
    · rw [if_neg hc] at hr
      rcases hrec : removeFirstContaining ps c with _ | ps1 <;>
        rw [hrec] at hr <;> dsimp only [Option.map] at hr
      · cases hr
      · injection hr with hr
        obtain ⟨pre, sl, post, hps, hcsl, hps1⟩ := ih ps1 hrec
        refine ⟨p :: pre, sl, post, by rw [hps]; rfl, hcsl, ?_⟩
        rw [← hr, hps1]
        rfl

/-- The greedy assignment uses a distinct slot per card, so the cards whose
identity is outside `K` cannot outnumber the slots admitting an identity
outside `K`. -/
theorem greedy_count (K : List SV) :
    ∀ (cs : List SV) (slots : List (List SV)),
      greedyAssign cs slots = true →
      (cs.filter (fun c => c ∉ K)).length ≤
        slots.countP (fun sl => sl.any (fun x => x ∉ K)) := by
  intro cs
  induction cs with
  | nil =>
    intro slots _
    simp
  | cons c rest ih =>
    intro slots hg
    simp only [greedyAssign] at hg
    rcases hrc : removeFirstContaining slots c with _ | slots1 <;>
      rw [hrc] at hg
    · cases hg
    · obtain ⟨pre, sl, post, hsl, hcsl, hsl1⟩ :=
        removeFirstContaining_split c slots slots1 hrc
      have ihr := ih slots1 hg
      subst hsl
      subst hsl1
      simp only [List.filter_cons]
      by_cases hck : c ∉ K
      · rw [if_pos (decide_eq_true hck)]
        have hadm : (sl.any fun x => decide (x ∉ K)) = true :=
          List.any_eq_true.mpr ⟨c, hcsl, decide_eq_true hck⟩
        simp only [decide_not] at hadm
        simp [List.countP_append, List.countP_cons, hadm] at ihr ⊢
        omega
      · rw [if_neg (fun hd => hck (of_decide_eq_true hd))]
        simp only [List.countP_append, List.countP_cons] at ihr ⊢
        omega

theorem poss_mem_knownIds (h : Heap) (hand : List Nat) (cards : List SV)
    (idn : SV)
    (hm : idn ∈ hand.filterMap (fun r =>
      let c := readCard h r
      if c.is_unknown then none
      else
        match cardId c with
        | some idn => if idn ∈ cards then some idn else none
        | none => none)) :
    idn ∈ knownIds h hand := by
  rcases List.mem_filterMap.mp hm with ⟨r, hr, hf⟩
  dsimp only [] at hf
  by_cases hu : (readCard h r).is_unknown
  · rw [if_pos hu] at hf
    cases hf
  · rw [if_neg hu] at hf
    rcases hid : cardId (readCard h r) with _ | idn0 <;> rw [hid] at hf <;>
      dsimp only [] at hf
    · cases hf
    · by_cases hcc : idn0 ∈ cards
      · rw [if_pos hcc] at hf
        injection hf with hf
        subst hf
        exact (mem_knownIds h hand idn0).mpr
          ⟨r, hr, Bool.eq_false_iff.mpr hu, hid⟩
      · rw [if_neg hcc] at hf
        cases hf

/-- `can_throw` implies the chosen cards whose identity is not a known
identity of the hand are at most the number of unknown hand cards. -/
theorem canThrow_count (h : Heap) (fallback_identities : List SV)
    (hand : List Nat) (cards : List SV)
    (hct : canThrow h fallback_identities hand cards = true) :
    (cards.filter (fun c => c ∉ knownIds h hand)).length ≤
      (hand.filter (fun r => (readCard h r).is_unknown)).length := by
  simp only [canThrow] at hct
  split_ifs at hct with hlen
  have hK := greedy_count (knownIds h hand) cards _ hct
  refine hK.trans ?_
  have hmap : (List.countP (fun sl => sl.any (fun x => x ∉ knownIds h hand))
      ((hand.filterMap (fun r =>
        let c := readCard h r
        if c.is_unknown then none
        else
          match cardId c with
          | some idn => if idn ∈ cards then some idn else none
          | none => none)).map (fun idn => [idn]))) = 0 := by
    rw [List.countP_eq_zero]
    intro sl hsl
    rcases List.mem_map.mp hsl with ⟨idn, hidn, rfl⟩
    have hkn := poss_mem_knownIds h hand cards idn hidn
    simp [hkn]
  rw [List.countP_append, hmap, Nat.zero_add]
  refine le_trans (List.countP_le_length _) ?_
  rw [List.length_replicate]
  exact min_le_left _ _

theorem mem_eraseIdx_of_ne (l : List Nat) (i r q : Nat)
    (hget : l.get? i = some r) (hq : q ∈ l) (hne : q ≠ r) :
    q ∈ l.eraseIdx i := by
  rw [List.get?_eq_getElem?] at hget
  rcases List.getElem?_eq_some.mp hget with ⟨hi, hr⟩
  rw [List.eraseIdx_eq_take_drop_succ]
  have horig : l = l.take i ++ l[i] :: l.drop (i + 1) := by
    conv_lhs => rw [← List.take_append_drop i l]
    rw [List.getElem_cons_drop]
  rw [horig] at hq
  rcases List.mem_append.mp hq with hq1 | hq2
  · exact List.mem_append.mpr (Or.inl hq1)
  · rcases List.mem_cons.mp hq2 with heq | hq3
    · exact absurd (heq.trans hr) hne
    · exact List.mem_append.mpr (Or.inr hq3)

theorem readCard_writeCard_self (h : Heap) (r : Nat) (c2 : Card)
    (hr : r < h.length) : readCard (writeCard h r c2) r = c2 := by
  unfold readCard writeCard
  rw [List.getD_eq_getElem?_getD, List.getElem?_set, if_pos rfl, if_pos hr]
  rfl

/-- Known identities distinct from the discarded one survive the discard
(same known card, unwritten address, still in the shrunken hand). -/
theorem knownIds_step (h : Heap) (hand : List Nat) (i r : Nat) (c2 : Card)
    (csv : SV) (hget : hand.get? i = some r)
    (hrid : (readCard h r).is_unknown = false →
      cardId (readCard h r) = some csv)
    (c1 : SV) (hne : c1 ≠ csv) (hm : c1 ∈ knownIds h hand) :
    c1 ∈ knownIds (writeCard h r c2) (hand.eraseIdx i) := by
  obtain ⟨q, hq, hqu, hqid⟩ := (mem_knownIds h hand c1).mp hm
  have hqr : q ≠ r := by
    rintro rfl
    rw [hrid hqu] at hqid
    injection hqid with hqid
    exact hne hqid.symm
  refine (mem_knownIds _ _ c1).mpr
    ⟨q, mem_eraseIdx_of_ne hand i r q hget hq hqr, ?_, ?_⟩
  · rw [readCard_writeCard_ne h r c2 q hqr]
    exact hqu
  · rw [readCard_writeCard_ne h r c2 q hqr]
    exact hqid

/-- In a duplicate-free hand, discarding removes the written address from
the hand, so the unknown-card count drops by one exactly when the discarded
card was unknown. -/
theorem unknown_count_step (h : Heap) (hand : List Nat) (i r : Nat)
    (c2 : Card) (hget : hand.get? i = some r) (hnd : hand.Nodup) :
    ((hand.eraseIdx i).filter
        (fun q => (readCard (writeCard h r c2) q).is_unknown)).length =
      (hand.filter (fun q => (readCard h q).is_unknown)).length -
        (if (readCard h r).is_unknown then 1 else 0) := by
  rw [List.get?_eq_getElem?] at hget
  rcases List.getElem?_eq_some.mp hget with ⟨hi, hr⟩
  have horig : hand = hand.take i ++ hand[i] :: hand.drop (i + 1) := by
    conv_lhs => rw [← List.take_append_drop i hand]
    rw [List.getElem_cons_drop]
  have hnd2 := hnd
  rw [horig, hr] at hnd2
  rw [List.nodup_append] at hnd2
  obtain ⟨hnd3, hnd4, hdisj⟩ := hnd2
  have hrtake : r ∉ hand.take i :=
    fun hmem => hdisj hmem (List.mem_cons_self r _)
  have hrdrop : r ∉ hand.drop (i + 1) := by
    rw [List.nodup_cons] at hnd4
    exact hnd4.1
  have hfiltake : (hand.take i).filter
      (fun q => (readCard (writeCard h r c2) q).is_unknown) =
      (hand.take i).filter (fun q => (readCard h q).is_unknown) := by
    refine List.filter_congr ?_
    intro q hq
    rw [readCard_writeCard_ne h r c2 q (fun he => hrtake (he ▸ hq))]
  have hfildrop : (hand.drop (i + 1)).filter
      (fun q => (readCard (writeCard h r c2) q).is_unknown) =
      (hand.drop (i + 1)).filter (fun q => (readCard h q).is_unknown) := by
    refine List.filter_congr ?_
    intro q hq
    rw [readCard_writeCard_ne h r c2 q (fun he => hrdrop (he ▸ hq))]
  rw [List.eraseIdx_eq_take_drop_succ, List.filter_append, hfiltake,
    hfildrop]
  conv_rhs => rw [horig, hr]
  rw [List.filter_append, List.filter_cons]
  by_cases hru : (readCard h r).is_unknown
  · rw [if_pos hru, if_pos hru]
    simp only [List.length_append, List.length_cons]
    omega
  · rw [if_neg hru, if_neg hru]
    simp only [List.length_append]
    omega

/-- Writing a public card with a different identity cannot make a
non-public identity public. -/
theorem nonPub_write_preserve (h : Heap) (s : GameState) (r : Nat)
    (c2 : Card) (csv : SV) (hsuit : c2.suit = some csv.1)
    (hval : c2.value = some csv.2) (c1 : SV) (hne : c1 ≠ csv)
    (hm : c1 ∈ getNonPublicCards h s) :
    c1 ∈ getNonPublicCards (writeCard h r c2) s := by
  unfold getNonPublicCards at hm ⊢
  rw [List.mem_filter] at hm ⊢
  refine ⟨hm.1, decide_eq_true ?_⟩
  have hm2 : ¬ (s.card_collection.any fun q =>
      let c := readCard h q
      c.is_public && c.suit == some c1.1 && c.value == some c1.2) = true :=
    of_decide_eq_true hm.2
  intro hany
  rcases List.any_eq_true.mp hany with ⟨q, hq, hqP⟩
  dsimp only [] at hqP
  by_cases hqr : q = r
  · subst hqr
    by_cases hlen : q < h.length
    · rw [readCard_writeCard_self h q c2 hlen] at hqP
      simp only [Bool.and_eq_true, beq_iff_eq] at hqP
      obtain ⟨⟨_, hs1⟩, hs2⟩ := hqP
      rw [hsuit] at hs1
      rw [hval] at hs2
      injection hs1 with hs1
      injection hs2 with hs2
      exact hne (Prod.ext hs1.symm hs2.symm)
    · have heq : writeCard h q c2 = h :=
        List.set_eq_of_length_le (by omega)
      rw [heq] at hqP
      exact hm2 (List.any_eq_true.mpr ⟨q, hq, hqP⟩)
  · rw [readCard_writeCard_ne h r c2 q hqr] at hqP
    exact hm2 (List.any_eq_true.mpr ⟨q, hq, hqP⟩)

/-- The written card of a successful discard: its position, the produced
state, and what the scan tells about the found card. -/
theorem discardCard_written (h : Heap) (s : GameState) (pIdx : Nat) (sv : SV)
    (rm : Bool) (h1 : Heap) (s2 : GameState) (r : Nat)
    (hd : discardCard h s pIdx sv rm = some (h1, s2, r)) :
    ∃ i, (getPlayer s pIdx).hand.get? i = some r ∧
      s2 = setPlayerHand s pIdx
        (if rm then (getPlayer s pIdx).hand.eraseIdx i
         else (getPlayer s pIdx).hand) ∧
      ∃ c2 : Card, h1 = writeCard h r c2 ∧ c2.is_unknown = false ∧
        c2.suit = some sv.1 ∧ c2.value = some sv.2 ∧
        ((readCard h r).is_unknown = false →
          cardId (readCard h r) = some sv) ∧
        ((readCard h r).is_unknown = true →
          sv ∉ knownIds h (getPlayer s pIdx).hand) := by
  rcases discardCard_spec h s pIdx sv rm h1 s2 r hd with ⟨i, hfi, hg, hs2, hh1⟩
  obtain ⟨_, _, r0, hget0, hP⟩ := discardFindIdx_go_found h
    (getNonPublicCards h s) (knownIds h (getPlayer s pIdx).hand) sv
    (getPlayer s pIdx).hand 0 i hfi
  simp only [Nat.sub_zero] at hget0
  rw [hg] at hget0
  injection hget0 with hget0
  subst hget0
  refine ⟨i, hg, hs2, _, hh1, rfl, ?_, ?_, ?_, ?_⟩
  · rcases hP with ⟨hu, _, _⟩ | ⟨hu, hsu, _⟩
    · show (if (readCard h r).is_unknown = true then
          { readCard h r with suit := some sv.1, value := some sv.2 }
        else readCard h r).suit = some sv.1
      rw [if_pos hu]
    · show (if (readCard h r).is_unknown = true then
          { readCard h r with suit := some sv.1, value := some sv.2 }
        else readCard h r).suit = some sv.1
      rw [if_neg (by simp [hu])]
      exact hsu
  · rcases hP with ⟨hu, _, _⟩ | ⟨hu, _, hva⟩
    · show (if (readCard h r).is_unknown = true then
          { readCard h r with suit := some sv.1, value := some sv.2 }
        else readCard h r).value = some sv.2
      rw [if_pos hu]
    · show (if (readCard h r).is_unknown = true then
          { readCard h r with suit := some sv.1, value := some sv.2 }
        else readCard h r).value = some sv.2
      rw [if_neg (by simp [hu])]
      exact hva
  · intro hk
    rcases hP with ⟨hu, _, _⟩ | ⟨_, hsu, hva⟩
    · rw [hk] at hu
      cases hu
    · exact (cardId_eq_some _ sv).mpr ⟨hsu, hva⟩
  · intro hk
    rcases hP with ⟨_, _, hnk⟩ | ⟨hu, _, _⟩
    · exact hnk
    · rw [hk] at hu
      cases hu

/-- Sequential success of the Throw-phase discard loop: every requested
identity is found in turn, because distinct identities keep the surviving
known cards and the non-public pool intact, and the unknown cards do not
run out. -/
theorem throwGo_success :
    ∀ (cs : List SV) (h : Heap) (s : GameState),
      cs.Nodup →
      (getPlayer s s.player_to_play).hand.Nodup →
      (∀ c ∈ cs, c ∈ knownIds h (getPlayer s s.player_to_play).hand ∨
        c ∈ getNonPublicCards h s) →
      (cs.filter (fun c => c ∉ knownIds h
          (getPlayer s s.player_to_play).hand)).length ≤
        ((getPlayer s s.player_to_play).hand.filter
          (fun r => (readCard h r).is_unknown)).length →
      (throwDiscardsGo h s cs).isSome = true := by
  intro cs
  induction cs with
  | nil =>
    intro h s _ _ _ _
    rfl
  | cons c rest ih =>
    intro h s hnd hhand hmem hcount
    have hcrest : c ∉ rest := (List.nodup_cons.mp hnd).1
    have hsucc : (discardCard h s s.player_to_play c true).isSome = true := by
      refine discardCard_isSome h s s.player_to_play c true ?_
      by_cases hk : c ∈ knownIds h (getPlayer s s.player_to_play).hand
      · exact Or.inl hk
      · rcases hmem c (List.mem_cons_self c rest) with hk2 | hnp
        · exact absurd hk2 hk
        · refine Or.inr ⟨hnp, ?_⟩
          have h1 : 1 ≤ ((getPlayer s s.player_to_play).hand.filter
              (fun r => (readCard h r).is_unknown)).length := by
            refine le_trans ?_ hcount
            simp only [List.filter_cons]
            rw [if_pos (decide_eq_true hk)]
            simp
          have h2 : ((getPlayer s s.player_to_play).hand.filter
              (fun r => (readCard h r).is_unknown)) ≠ [] := by
            intro hcon
            rw [hcon] at h1
            cases h1
          obtain ⟨q, hq⟩ := List.exists_mem_of_ne_nil _ h2
          rcases List.mem_filter.mp hq with ⟨hq1, hq2⟩
          exact ⟨q, hq1, hq2⟩
    simp only [throwDiscardsGo]
    rcases hdc : discardCard h s s.player_to_play c true with _ | ⟨h2, s2, r⟩
    · rw [hdc] at hsucc
      cases hsucc
    · dsimp only []
      have hplt := discardCard_pIdx_lt h s s.player_to_play c true h2 s2 r hdc
      obtain ⟨i, hget, hs2, c2, hh2, hc2u, hc2s, hc2v, hknown, hunknown⟩ :=
        discardCard_written h s s.player_to_play c true h2 s2 r hdc
      have hrmem : r ∈ (getPlayer s s.player_to_play).hand :=
        List.get?_mem hget
      have hhand2 : (getPlayer s2 s2.player_to_play).hand =
          (getPlayer s s.player_to_play).hand.eraseIdx i := by
        rw [hs2]
        show (getPlayer
          (setPlayerHand s s.player_to_play
            (if true then (getPlayer s s.player_to_play).hand.eraseIdx i
             else (getPlayer s s.player_to_play).hand))
          s.player_to_play).hand = _
        rw [getPlayer_setPlayerHand_self s s.player_to_play _ hplt]
        rfl
      have hkstep : ∀ c1 ∈ rest,
          c1 ∈ knownIds h (getPlayer s s.player_to_play).hand →
          c1 ∈ knownIds h2 (getPlayer s2 s2.player_to_play).hand := by
        intro c1 hc1 hc1k
        rw [hhand2, hh2]
        refine knownIds_step h _ i r c2 c hget hknown c1 ?_ hc1k
        rintro rfl
        exact hcrest hc1
      refine ih h2 ({ s2 with cards_to_defend := s2.cards_to_defend ++ [r] })
        ((List.nodup_cons.mp hnd).2) ?_ ?_ ?_
      · show ((getPlayer s2 s2.player_to_play).hand).Nodup
        rw [hhand2]
        exact List.Nodup.sublist (List.eraseIdx_sublist _ i) hhand
      · intro c1 hc1
        have hc1ne : c1 ≠ c := fun he => hcrest (he ▸ hc1)
        rcases hmem c1 (List.mem_cons_of_mem c hc1) with hc1k | hc1np
        · exact Or.inl (hkstep c1 hc1 hc1k)
        · refine Or.inr ?_
          show c1 ∈ getNonPublicCards h2 s2
          rw [hh2, hs2]
          exact nonPub_write_preserve h s r c2 c hc2s hc2v c1 hc1ne hc1np
      · show (rest.filter (fun c1 => c1 ∉ knownIds h2
            (getPlayer s2 s2.player_to_play).hand)).length ≤
          ((getPlayer s2 s2.player_to_play).hand.filter
            (fun q => (readCard h2 q).is_unknown)).length
        have hucount : ((getPlayer s2 s2.player_to_play).hand.filter
            (fun q => (readCard h2 q).is_unknown)).length =
            ((getPlayer s s.player_to_play).hand.filter
              (fun q => (readCard h q).is_unknown)).length -
              (if (readCard h r).is_unknown then 1 else 0) := by
          rw [hhand2, hh2]
          exact unknown_count_step h _ i r c2 hget hhand
        have hmono : (rest.filter (fun c1 => c1 ∉ knownIds h2
            (getPlayer s2 s2.player_to_play).hand)).length ≤
            (rest.filter (fun c1 => c1 ∉ knownIds h
              (getPlayer s s.player_to_play).hand)).length := by
          refine length_filter_mono rest _ _ ?_
          intro c1 hc1 hdec
          refine decide_eq_true ?_
          intro hc1k
          exact absurd (hkstep c1 hc1 hc1k)
            (of_decide_eq_true hdec)
        rw [hucount]
        by_cases hk : c ∈ knownIds h (getPlayer s s.player_to_play).hand
        · have hru : (readCard h r).is_unknown = false := by
            by_cases hru0 : (readCard h r).is_unknown = true
            · exact absurd hk (hunknown hru0)
            · exact Bool.eq_false_iff.mpr hru0
          rw [hru, if_neg (by simp)]
          refine le_trans hmono ?_
          have hcons : ((c :: rest).filter (fun c1 => c1 ∉ knownIds h
              (getPlayer s s.player_to_play).hand)) =
              rest.filter (fun c1 => c1 ∉ knownIds h
                (getPlayer s s.player_to_play).hand) := by
            simp only [List.filter_cons]
            rw [if_neg (fun hd => (of_decide_eq_true hd) hk)]
          rw [hcons] at hcount
          omega
        · have hru : (readCard h r).is_unknown = true := by
            by_cases hru0 : (readCard h r).is_unknown = true
            · exact hru0
            · exfalso
              have hknown2 := hknown (Bool.eq_false_iff.mpr hru0)
              exact hk ((mem_knownIds h _ c).mpr
                ⟨r, hrmem, Bool.eq_false_iff.mpr hru0, hknown2⟩)
          rw [hru, if_pos rfl]
          have hcons : ((c :: rest).filter (fun c1 => c1 ∉ knownIds h
              (getPlayer s s.player_to_play).hand)).length =
              (rest.filter (fun c1 => c1 ∉ knownIds h
                (getPlayer s s.player_to_play).hand)).length + 1 := by
            simp only [List.filter_cons, decide_not]
            rw [if_pos (by simpa using decide_eq_true hk)]
            simp
          rw [hcons] at hcount
          omega

/-- The structural invariants of engine-built states that `execute_action`
relies on (in Python these hold because the fields are object references
maintained together; here they are proved for every reachable state). -/
structure WF (s : GameState) : Prop where
  nodup : (inPlay s).Nodup
  att_lt : ∀ i ∈ s.attackers, i < s.players.length
  dro_lt : ∀ i ∈ s.draw_order, i < s.players.length
  def_lt : ∀ d, s.defender = some d → d < s.players.length
  att_ne : s.is_end_state = false → s.attackers ≠ []
  ca_lt : s.is_end_state = false →
    s.current_attacker < s.attackers.length
  def_some : s.is_end_state = false → s.defender ≠ none
  defend_ptp : s.is_end_state = false →
    s.current_action = Phase.Defend → s.defender = some s.player_to_play
  attack_ctd : s.is_end_state = false →
    s.current_action = Phase.Attack → s.cards_to_defend = []
  throw_atst : s.is_end_state = false →
    s.current_action = Phase.ThrowCards →
    ∃ i, s.attacker_to_start_throwing = some i ∧
      i < s.attackers.length

theorem get?_some_of_lt {α : Type} (l : List α) (i : Nat)
    (hi : i < l.length) : l.get? i = some l[i] := by
  rw [List.get?_eq_getElem?, List.getElem?_eq_getElem hi]

theorem closeIntermediate_defender (s : GameState) (d : Nat) :
    (closeIntermediate s d).defender = s.defender := by
  unfold closeIntermediate refillDrawOrder
  rw [refillOver_defender]
  rfl

theorem closeIntermediate_players_length (s : GameState) (d : Nat) :
    (closeIntermediate s d).players.length = s.players.length := by
  unfold closeIntermediate refillDrawOrder
  rw [refillOver_players_length]
  exact setPlayerHand_length _ _ _

/-- A trick close cannot fail on a state with a live defender and a
non-empty attacker list of real players. -/
theorem closeTrick_isSome (h : Heap) (s : GameState) (d : Nat)
    (hdef : s.defender = some d) (hatt : s.attackers ≠ [])
    (hattlt : ∀ i ∈ s.attackers, i < s.players.length) :
    (closeTrick h s).isSome = true := by
  unfold closeTrick
  rw [hdef]
  dsimp only []
  have hlen0 : s.attackers.length ≠ 0 :=
    fun hc => hatt (List.length_eq_zero.mp hc)
  have hlt : 1 % s.attackers.length < s.attackers.length :=
    Nat.mod_lt _ (Nat.pos_of_ne_zero hlen0)
  rw [closeIntermediate_attackers]
  rw [get?_some_of_lt s.attackers _ hlt]
  dsimp only []
  have hnalt : s.attackers[1 % s.attackers.length] <
      (closeIntermediate s d).players.length := by
    rw [closeIntermediate_players_length]
    exact hattlt _ (List.getElem_mem hlt)
  have hsome := newTrick_isSome (closeIntermediate s d) _ hnalt
  rcases hnt : newTrick (closeIntermediate s d)
      (getPlayer (closeIntermediate s d)
        s.attackers[1 % s.attackers.length]).name with _ | s3
  · rw [hnt] at hsome
    cases hsome
  · rfl

/-- Every Attack-phase play of `allowed_plays` is accepted. -/
theorem accepted_attack_phase (h : Heap) (s : GameState) (hwf : WF s)
    (hne : s.is_end_state = false) (hph : s.current_action = Phase.Attack)
    (a : Action) (w : Option ℚ) (hmem : (a, w) ∈ allowedPlays h s) :
    (executeAction h s a).isSome = true := by
  rcases (mem_allowedPlays_attack h s hph (a, w)).mp hmem with
    ⟨hx, _⟩ | ⟨sv, hx, _, hposs, _⟩
  · have ha : a = Action.passAttack := congrArg Prod.fst hx
    subst ha
    simp only [executeAction]
    have hlen0 : s.attackers.length ≠ 0 :=
      fun hc => (hwf.att_ne hne) (List.length_eq_zero.mp hc)
    rw [if_neg hlen0]
    have hlt : (s.current_attacker + 1) % s.attackers.length <
        s.attackers.length := Nat.mod_lt _ (Nat.pos_of_ne_zero hlen0)
    rw [get?_some_of_lt s.attackers _ hlt]
    dsimp only []
    by_cases hlpa : some s.attackers[(s.current_attacker + 1) %
        s.attackers.length] = s.last_played_attacker
    · rw [if_pos hlpa]
      have hctdR : (refillDrawOrder ({ s with
          history := s.history ++ [Action.passAttack]
          current_attacker := (s.current_attacker + 1) % s.attackers.length
          player_to_play := s.attackers[(s.current_attacker + 1) %
            s.attackers.length] } : GameState)).cards_to_defend =
          s.cards_to_defend := by
        unfold refillDrawOrder
        rw [refillOver_ctd]
      have hdefR : (refillDrawOrder ({ s with
          history := s.history ++ [Action.passAttack]
          current_attacker := (s.current_attacker + 1) % s.attackers.length
          player_to_play := s.attackers[(s.current_attacker + 1) %
            s.attackers.length] } : GameState)).defender = s.defender := by
        unfold refillDrawOrder
        rw [refillOver_defender]
      rw [hctdR, if_pos (hwf.attack_ctd hne hph), hdefR]
      rcases hdd : s.defender with _ | d
      · exact absurd hdd (hwf.def_some hne)
      · dsimp only []
        rw [← hdd]
        have hdlt : d < (refillDrawOrder ({ s with
            history := s.history ++ [Action.passAttack]
            current_attacker :=
              (s.current_attacker + 1) % s.attackers.length
            player_to_play := s.attackers[(s.current_attacker + 1) %
              s.attackers.length] } : GameState)).players.length := by
          rw [show (refillDrawOrder ({ s with
            history := s.history ++ [Action.passAttack]
            current_attacker :=
              (s.current_attacker + 1) % s.attackers.length
            player_to_play := s.attackers[(s.current_attacker + 1) %
              s.attackers.length] } : GameState)).players.length =
              s.players.length from by
            unfold refillDrawOrder
            rw [refillOver_players_length]]
          exact hwf.def_lt d hdd
        have hsome := newTrick_isSome _ d hdlt
        rcases hnt : newTrick (refillDrawOrder ({ s with
            history := s.history ++ [Action.passAttack]
            current_attacker :=
              (s.current_attacker + 1) % s.attackers.length
            player_to_play := s.attackers[(s.current_attacker + 1) %
              s.attackers.length] } : GameState))
            (getPlayer (refillDrawOrder ({ s with
              history := s.history ++ [Action.passAttack]
              current_attacker :=
                (s.current_attacker + 1) % s.attackers.length
              player_to_play := s.attackers[(s.current_attacker + 1) %
                s.attackers.length] } : GameState)) d).name with _ | s3
        · rw [hnt] at hsome
          cases hsome
        · rfl
    · rw [if_neg hlpa]
      rfl
  · have ha : a = Action.attack sv := congrArg Prod.fst hx
    subst ha
    simp only [executeAction]
    have hsucc : (discardCard h
        { s with history := s.history ++ [Action.attack sv] }
        s.player_to_play sv true).isSome = true := by
      refine discardCard_isSome _ _ _ _ _ ?_
      exact poss_discard_hyp h (getNonPublicCards h s)
        (getPlayer s s.player_to_play).hand sv hposs
    rcases hdc : discardCard h
        { s with history := s.history ++ [Action.attack sv] }
        s.player_to_play sv true with _ | ⟨h1, s1, r⟩
    · rw [hdc] at hsucc
      cases hsucc
    · dsimp only []
      obtain ⟨i, _, _, hs1, _⟩ := discardCard_spec h _ s.player_to_play sv
        true h1 s1 r hdc
      have hdef1 : s1.defender = s.defender := by
        rw [hs1]
        rfl
      rcases hdd : s1.defender with _ | d
      · rw [hdef1] at hdd
        exact absurd hdd (hwf.def_some hne)
      · rfl

theorem reflectEntries_shape (h : Heap) (s : GameState) (td : Nat) (sv : SV)
    (a : Action) (ha : a ∈ reflectEntries h s td sv) :
    a = Action.reflect sv ∨ a = Action.reflectTrump sv := by
  unfold reflectEntries at ha
  by_cases hp : s.pairs_finished.length = 0
  · rw [if_pos hp] at ha
    rcases hnd : s.attackers.get? (1 % s.attackers.length) with _ | nd <;>
      rw [hnd] at ha
    · cases ha
    · dsimp only [] at ha
      rcases List.mem_append.mp ha with ha | ha <;> split_ifs at ha <;>
        simp only [List.mem_singleton, List.not_mem_nil] at ha
      · exact Or.inl ha
      · exact Or.inr ha
  · rw [if_neg hp] at ha
    cases ha

theorem hand_nodup_of_inPlay (s : GameState)
    (hnd : (inPlay s).Nodup) (p : Nat) : (getPlayer s p).hand.Nodup := by
  by_cases hp : p < s.players.length
  · rw [getPlayer_getElem s p hp]
    refine List.Nodup.sublist ?_ hnd
    have h1 : (s.players[p].hand).Sublist (s.players.flatMap Player.hand) := by
      rw [List.flatMap]
      exact List.sublist_flatten_of_mem
        (List.mem_map_of_mem Player.hand (List.getElem_mem hp))
    unfold inPlay
    refine List.Sublist.trans h1 ?_
    exact (List.sublist_append_of_sublist_right
      (List.Sublist.refl (s.players.flatMap Player.hand))).trans
      ((List.sublist_append_left _ s.cards_to_defend).trans
        (List.sublist_append_left _ (pairsFlat s)))
  · have hdef : getPlayer s p = default := by
      unfold getPlayer
      rw [List.getD_eq_getElem?_getD, List.getElem?_len_le (by omega)]
      rfl
    rw [hdef]
    exact List.nodup_nil

/-- Every Defend-phase play of `allowed_plays` is accepted. -/
theorem accepted_defend_phase (h : Heap) (s : GameState) (hwf : WF s)
    (hne : s.is_end_state = false) (hph : s.current_action = Phase.Defend)
    (a : Action) (w : Option ℚ) (hmem : (a, w) ∈ allowedPlays h s) :
    (executeAction h s a).isSome = true := by
  rcases hctd : s.cards_to_defend with _ | ⟨td, rest0⟩
  · exfalso
    unfold allowedPlays at hmem
    rw [hph] at hmem
    dsimp only [] at hmem
    rw [hctd] at hmem
    dsimp only [] at hmem
    cases hmem
  · have hdmem := (mem_allowedPlays_defend h s td rest0 hph hctd a).mp
      ⟨w, hmem⟩
    rcases hdmem with rfl | ⟨r, hr, hdl | hrl⟩
    · simp only [executeAction]
      rw [get?_some_of_lt s.attackers _ (hwf.ca_lt hne)]
      rfl
    · rcases (mem_cardDefendList h td _ a).mp hdl with ⟨sv, hsv, hde⟩
      have ha := defendEntries_shape h td sv a hde
      subst ha
      simp only [executeAction]
      rw [hctd]
      dsimp only []
      have hsucc : (discardCard h
          { s with
            history := s.history ++ [Action.defend sv]
            cards_to_defend := rest0 }
          s.player_to_play sv true).isSome = true := by
        refine discardCard_isSome _ _ _ _ _ ?_
        exact defendIds_discard_hyp h s (getPlayer s s.player_to_play).hand
          r sv hr hsv
      rcases hdc : discardCard h
          { s with
            history := s.history ++ [Action.defend sv]
            cards_to_defend := rest0 }
          s.player_to_play sv true with _ | ⟨h1, s1, r1⟩
      · rw [hdc] at hsucc
        cases hsucc
      · dsimp only []
        by_cases hlen0 : s1.cards_to_defend.length = 0
        · rw [if_pos hlen0]
          obtain ⟨i, _, _, hs1, _⟩ := discardCard_spec h _ s.player_to_play
            sv true h1 s1 r1 hdc
          have hatt1 : s1.attackers = s.attackers := by
            rw [hs1]
            rfl
          have hca1 : s1.current_attacker = s.current_attacker := by
            rw [hs1]
            rfl
          rw [hatt1, hca1, get?_some_of_lt s.attackers _ (hwf.ca_lt hne)]
          rfl
        · rw [if_neg hlen0]
          rfl
    · rcases (mem_cardReflectList h s td _ a).mp hrl with ⟨sv, hsv, hre⟩
      have hds := hwf.defend_ptp hne hph
      rcases reflectEntries_shape h s td sv a hre with ha | ha
      · subst ha
        obtain ⟨_, _, nd, hnd, _, _⟩ :=
          (reflect_mem_reflectEntries h s td sv sv).mp hre
        have hn0 : s.attackers.length ≠ 0 := by
          intro hc
          rw [List.length_eq_zero] at hc
          rw [hc] at hnd
          cases hnd
        simp only [executeAction]
        rw [hds]
        dsimp only []
        rw [← hds]
        have hsucc : (discardCard h
            { s with history := s.history ++ [Action.reflect sv] }
            s.player_to_play sv true).isSome = true := by
          refine discardCard_isSome _ _ _ _ _ ?_
          exact defendIds_discard_hyp h s
            (getPlayer s s.player_to_play).hand r sv hr hsv
        rcases hdc : discardCard h
            { s with history := s.history ++ [Action.reflect sv] }
            s.player_to_play sv true with _ | ⟨h1, s1, r1⟩
        · rw [hdc] at hsucc
          cases hsucc
        · dsimp only []
          obtain ⟨i, _, _, hs1, _⟩ := discardCard_spec h _ s.player_to_play
            sv true h1 s1 r1 hdc
          have hatt1 : s1.attackers = s.attackers := by
            rw [hs1]
            rfl
          rw [hatt1, if_neg hn0, hnd]
          rfl
      · subst ha
        obtain ⟨_, _, nd, hnd, _, _, _, _⟩ :=
          (reflectTrump_mem_reflectEntries h s td sv sv).mp hre
        have hn0 : s.attackers.length ≠ 0 := by
          intro hc
          rw [List.length_eq_zero] at hc
          rw [hc] at hnd
          cases hnd
        simp only [executeAction]
        rw [hds]
        dsimp only []
        rw [if_pos rfl, ← hds]
        have hsucc : (discardCard h
            { s with history := s.history ++ [Action.reflectTrump sv] }
            s.player_to_play sv false).isSome = true := by
          refine discardCard_isSome _ _ _ _ _ ?_
          exact defendIds_discard_hyp h s
            (getPlayer s s.player_to_play).hand r sv hr hsv
        rcases hdc : discardCard h
            { s with history := s.history ++ [Action.reflectTrump sv] }
            s.player_to_play sv false with _ | ⟨h1, s1, r1⟩
        · rw [hdc] at hsucc
          cases hsucc
        · dsimp only []
          obtain ⟨i, _, _, hs1, _⟩ := discardCard_spec h _ s.player_to_play
            sv false h1 s1 r1 hdc
          have hatt1 : s1.attackers = s.attackers := by
            rw [hs1]
            rfl
          rw [hatt1, if_neg hn0, hnd]
          rfl

/-- Every Throw-phase play of `allowed_plays` is accepted: the `(None,)`
pass always, and every enumerated subset because its discards succeed in
sequence (`throwGo_success`). -/
theorem accepted_throw_phase (h : Heap) (s : GameState) (hwf : WF s)
    (hne : s.is_end_state = false)
    (hph : s.current_action = Phase.ThrowCards)
    (a : Action) (w : Option ℚ) (hmem : (a, w) ∈ allowedPlays h s) :
    (executeAction h s a).isSome = true := by
  obtain ⟨ast, hast, hastlt⟩ := hwf.throw_atst hne hph
  have hattne := hwf.att_ne hne
  have hlen0 : s.attackers.length ≠ 0 :=
    fun hc => hattne (List.length_eq_zero.mp hc)
  have hmodlt : ∀ k : Nat, k % s.attackers.length < s.attackers.length :=
    fun k => Nat.mod_lt _ (Nat.pos_of_ne_zero hlen0)
  rcases (mem_allowedPlays_throw h s hph (a, w)).mp hmem with
    hx | ⟨l, hx, hsub, hlen1, _, hct⟩
  · have ha : a = Action.throwCards none := congrArg Prod.fst hx
    subst ha
    simp only [executeAction]
    rw [show throwDiscards h
        ({ s with history := s.history ++ [Action.throwCards none] } :
          GameState) none =
        some (h, ({ s with
          history := s.history ++ [Action.throwCards none] } : GameState))
      from rfl]
    dsimp only []
    rw [if_neg hlen0, get?_some_of_lt s.attackers _ (hmodlt _)]
    dsimp only []
    rw [hast]
    dsimp only []
    rw [get?_some_of_lt s.attackers _ hastlt]
    dsimp only []
    split_ifs with heq
    · rcases hdd : s.defender with _ | d
      · exact absurd hdd (hwf.def_some hne)
      · exact closeTrick_isSome h _ d rfl hattne hwf.att_lt
    · rfl
  · have ha : a = Action.throwCards (some l) := congrArg Prod.fst hx
    subst ha
    rcases l with _ | ⟨sv0, lrest⟩
    · exact absurd hlen1 (by decide)
    · simp only [executeAction]
      have hnodupL : (sv0 :: lrest).Nodup := by
        have h1 : (possThrowsOf h s).Nodup := by
          unfold possThrowsOf
          exact List.Nodup.filter _ (nodup_possibleCardPlays _ _ _)
        exact List.Nodup.sublist hsub h1
      have hhandnd : (getPlayer s s.player_to_play).hand.Nodup :=
        hand_nodup_of_inPlay s hwf.nodup s.player_to_play
      have hmem2 : ∀ c ∈ (sv0 :: lrest),
          c ∈ knownIds h (getPlayer s s.player_to_play).hand ∨
          c ∈ getNonPublicCards h s := by
        intro c hc
        have hcposs : c ∈ possThrowsOf h s := hsub.subset hc
        unfold possThrowsOf at hcposs
        have hc2 := (List.mem_filter.mp hcposs).1
        rcases poss_discard_hyp h _ _ c hc2 with hk | ⟨hnp, _⟩
        · exact Or.inl hk
        · exact Or.inr hnp
      have hcount := canThrow_count h (getNonPublicCards h s)
        (getPlayer s s.player_to_play).hand (sv0 :: lrest) hct
      have hgos : (throwDiscardsGo h
          ({ s with history :=
            s.history ++ [Action.throwCards (some (sv0 :: lrest))] } :
              GameState) (sv0 :: lrest)).isSome = true :=
        throwGo_success (sv0 :: lrest) h _ hnodupL hhandnd hmem2 hcount
      rcases hgo : throwDiscardsGo h
          ({ s with history :=
            s.history ++ [Action.throwCards (some (sv0 :: lrest))] } :
              GameState) (sv0 :: lrest) with _ | ⟨h2, s2⟩
      · rw [hgo] at hgos
        cases hgos
      · rw [show throwDiscards h
            ({ s with history :=
              s.history ++ [Action.throwCards (some (sv0 :: lrest))] } :
                GameState) (some (sv0 :: lrest)) =
            throwDiscardsGo h
            ({ s with history :=
              s.history ++ [Action.throwCards (some (sv0 :: lrest))] } :
                GameState) (sv0 :: lrest) from rfl, hgo]
        dsimp only []
        obtain ⟨_, hatt2, hca2, hast2, hdef2, _, hplen2, _⟩ :=
          throwDiscards_conservation h
            ({ s with history :=
              s.history ++ [Action.throwCards (some (sv0 :: lrest))] } :
                GameState) (some (sv0 :: lrest)) h2 s2 hgo
        have hattH : s2.attackers = s.attackers := hatt2
        have hcaH : s2.current_attacker = s.current_attacker := hca2
        have hastH : s2.attacker_to_start_throwing =
            s.attacker_to_start_throwing := hast2
        have hdefH : s2.defender = s.defender := hdef2
        have hplenH : s2.players.length = s.players.length := hplen2
        rw [hattH, if_neg hlen0, hcaH,
          get?_some_of_lt s.attackers _ (hmodlt _)]
        dsimp only []
        rw [hastH, hast]
        dsimp only []
        rw [get?_some_of_lt s.attackers _ hastlt]
        dsimp only []
        split_ifs with heq
        · rcases hdd : s.defender with _ | d
          · exact absurd hdd (hwf.def_some hne)
          · refine closeTrick_isSome h2 _ d ?_ ?_ ?_
            · show s2.defender = some d
              rw [hdefH]
              exact hdd
            · exact hattne
            · intro i hi
              have hi2 : i ∈ s.attackers := hi
              show i < s2.players.length
              rw [hplenH]
              exact hwf.att_lt i hi2
        · rfl

theorem livingFrom_lt (s : GameState) (idx : Nat) :
    ∀ x ∈ livingFrom s idx, x < s.players.length := by
  intro x hx
  unfold livingFrom seatRotation at hx
  rcases List.mem_filter.mp hx with ⟨hx1, _⟩
  rcases List.mem_map.mp hx1 with ⟨k, hk, rfl⟩
  have hpos : 0 < s.players.length := by
    by_contra h0
    have h1 : s.players.length = 0 := by omega
    rw [h1] at hk
    simp at hk
  exact Nat.mod_lt _ hpos

theorem refillOver_draw (order : List Nat) :
    ∀ s : GameState, (refillOver order s).draw_order = s.draw_order := by
  induction order with
  | nil => intro s; rfl
  | cons i rest ih => intro s; exact (ih (refillStep s i)).trans rfl

theorem refillOver_end (order : List Nat) :
    ∀ s : GameState, (refillOver order s).is_end_state = s.is_end_state := by
  induction order with
  | nil => intro s; rfl
  | cons i rest ih => intro s; exact (ih (refillStep s i)).trans rfl

theorem throwDiscardsGo_end (l : List SV) :
    ∀ h s h1 s1, throwDiscardsGo h s l = some (h1, s1) →
      s1.is_end_state = s.is_end_state ∧
      s1.current_action = s.current_action ∧
      s1.player_to_play = s.player_to_play := by
  induction l with
  | nil =>
    intro h s h1 s1 hd
    injection hd with hd
    injection hd with hd1 hd2
    subst hd2
    exact ⟨rfl, rfl, rfl⟩
  | cons sv rest ih =>
    intro h s h1 s1 hd
    simp only [throwDiscardsGo] at hd
    rcases hdc : discardCard h s s.player_to_play sv true with
      _ | ⟨h2, s2, r⟩ <;> rw [hdc] at hd <;> dsimp only [] at hd
    · cases hd
    · obtain ⟨i, _, _, hs2, _⟩ := discardCard_spec h s s.player_to_play sv
        true h2 s2 r hdc
      obtain ⟨he, hca, hptp⟩ := ih h2 _ h1 s1 hd
      have h1e : s2.is_end_state = s.is_end_state := by
        rw [hs2]
        rfl
      have h1c : s2.current_action = s.current_action := by
        rw [hs2]
        rfl
      have h1p : s2.player_to_play = s.player_to_play := by
        rw [hs2]
        rfl
      exact ⟨he.trans h1e, hca.trans h1c, hptp.trans h1p⟩

theorem throwDiscards_end (h : Heap) (s : GameState)
    (p : Option (List SV)) (h1 : Heap) (s1 : GameState)
    (hd : throwDiscards h s p = some (h1, s1)) :
    s1.is_end_state = s.is_end_state ∧
    s1.current_action = s.current_action ∧
    s1.player_to_play = s.player_to_play := by
  match p, hd with
  | none, hd =>
    injection hd with hd
    injection hd with hd1 hd2
    subst hd2
    exact ⟨rfl, rfl, rfl⟩
  | some (sv :: rest), hd => exact throwDiscardsGo_end (sv :: rest) h s h1 s1 hd

/-- `new_trick` establishes every invariant on its output (the duplicate
freedom of the in-play references is supplied by the caller). -/
theorem WF_newTrick (s : GameState) (nm : String) (s1 : GameState)
    (hnt : newTrick s nm = some s1) (hnd1 : (inPlay s1).Nodup)
    (hdro : ∀ i ∈ s.draw_order, i < s.players.length)
    (hdef : ∀ d, s.defender = some d → d < s.players.length) : WF s1 := by
  unfold newTrick at hnt
  rcases hfi : s.players.findIdx? (fun p => p.name = nm) with _ | idx <;>
    rw [hfi] at hnt <;> dsimp only [] at hnt
  · cases hnt
  · rcases hl : livingFrom s idx with _ | ⟨a0, _ | ⟨d, rest⟩⟩ <;>
      rw [hl] at hnt <;> dsimp only [] at hnt <;>
      injection hnt with hnt <;> subst hnt
    · refine ⟨hnd1, ?_, ?_, ?_, ?_, ?_, ?_, ?_, ?_, ?_⟩
      · intro i hi
        cases hi
      · exact hdro
      · exact hdef
      · intro hne
        cases hne
      · intro hne
        cases hne
      · intro hne
        cases hne
      · intro hne
        cases hne
      · intro _ _
        rfl
      · intro hne
        cases hne
    · refine ⟨hnd1, ?_, ?_, ?_, ?_, ?_, ?_, ?_, ?_, ?_⟩
      · intro i hi
        rcases List.mem_singleton.mp hi with rfl
        exact livingFrom_lt s idx i (hl ▸ List.mem_singleton.mpr rfl)
      · exact hdro
      · exact hdef
      · intro hne
        cases hne
      · intro hne
        cases hne
      · intro hne
        cases hne
      · intro hne
        cases hne
      · intro _ _
        rfl
      · intro hne
        cases hne
    · have hmemliv : ∀ x, x ∈ a0 :: d :: rest → x < s.players.length := by
        intro x hx
        exact livingFrom_lt s idx x (hl ▸ hx)
      refine ⟨hnd1, ?_, ?_, ?_, ?_, ?_, ?_, ?_, ?_, ?_⟩
      · intro i hi
        rcases List.mem_cons.mp hi with rfl | hi2
        · exact hmemliv i (List.mem_cons_self _ _)
        · exact hmemliv i (List.mem_cons_of_mem a0
            (List.mem_cons_of_mem d hi2))
      · intro i hi
        rcases List.mem_append.mp hi with hi2 | hi2
        · rcases List.mem_cons.mp hi2 with rfl | hi3
          · exact hmemliv i (List.mem_cons_self _ _)
          · exact hmemliv i (List.mem_cons_of_mem a0
              (List.mem_cons_of_mem d hi3))
        · rcases List.mem_singleton.mp hi2 with rfl
          exact hmemliv i (List.mem_cons_of_mem a0 (List.mem_cons_self _ _))
      · intro d1 hd1
        injection hd1 with hd1
        subst hd1
        exact hmemliv _ (List.mem_cons_of_mem a0 (List.mem_cons_self _ _))
      · intro _
        exact List.cons_ne_nil a0 rest
      · intro _
        simp
      · intro _
        exact Option.some_ne_none d
      · intro _ hph
        cases hph
      · intro _ _
        rfl
      · intro _ hph
        cases hph

/-- The duplicate-freedom of the in-play references survives every
successful action (the in-play multiset can only shrink). -/
theorem exec_nodup (h : Heap) (s : GameState) (a : Action) (h1 : Heap)
    (s1 : GameState) (hwf : WF s)
    (hex : executeAction h s a = some (h1, s1)) : (inPlay s1).Nodup := by
  have hcons := exec_card_conservation h s a h1 s1 hwf.dro_lt hwf.def_lt hex
  have hle : ((inPlay s1 : List Nat) : Multiset Nat) ≤
      ((inPlay s : List Nat) : Multiset Nat) := by
    rw [← hcons]
    exact Multiset.le_add_right _ _
  exact Multiset.coe_nodup.mp
    (Multiset.nodup_of_le hle (Multiset.coe_nodup.mpr hwf.nodup))

theorem WF_exec_attack (h : Heap) (s : GameState) (sv : SV) (h1 : Heap)
    (s1 : GameState) (hwf : WF s)
    (hex : executeAction h s (Action.attack sv) = some (h1, s1)) :
    WF s1 := by
  have hnd1 := exec_nodup h s _ h1 s1 hwf hex
  simp only [executeAction] at hex
  rcases hdc : discardCard h
      { s with history := s.history ++ [Action.attack sv] }
      s.player_to_play sv true with _ | ⟨h2, s2, r⟩ <;>
    rw [hdc] at hex <;> dsimp only [] at hex
  · cases hex
  · rcases hdd : s2.defender with _ | d <;> rw [hdd] at hex <;>
      dsimp only [] at hex
    · cases hex
    · injection hex with hex
      injection hex with hexh hexs
      subst hexs
      obtain ⟨i, _, _, hs2, _⟩ := discardCard_spec h _ s.player_to_play sv
        true h2 s2 r hdc
      have hatt : s2.attackers = s.attackers := by rw [hs2]; rfl
      have hdro : s2.draw_order = s.draw_order := by rw [hs2]; rfl
      have hca : s2.current_attacker = s.current_attacker := by
        rw [hs2]; rfl
      have hend : s2.is_end_state = s.is_end_state := by rw [hs2]; rfl
      have hdef : s2.defender = s.defender := by rw [hs2]; rfl
      have hplen : s2.players.length = s.players.length := by
        rw [hs2]
        exact setPlayerHand_length _ _ _
      refine ⟨hnd1, ?_, ?_, ?_, ?_, ?_, ?_, ?_, ?_, ?_⟩
      · intro i2 hi2
        have hi3 : i2 ∈ s.attackers := by
          rw [← hatt]
          exact hi2
        show i2 < s2.players.length
        rw [hplen]
        exact hwf.att_lt i2 hi3
      · intro i2 hi2
        have hi3 : i2 ∈ s.draw_order := by
          rw [← hdro]
          exact hi2
        show i2 < s2.players.length
        rw [hplen]
        exact hwf.dro_lt i2 hi3
      · intro d2 hd2
        have hd3 : s.defender = some d2 := by
          rw [← hdef, hdd]
          exact hd2
        show d2 < s2.players.length
        rw [hplen]
        exact hwf.def_lt d2 hd3
      · intro hne1
        have hne : s.is_end_state = false := by
          rw [← hend]
          exact hne1
        show s2.attackers ≠ []
        rw [hatt]
        exact hwf.att_ne hne
      · intro hne1
        have hne : s.is_end_state = false := by
          rw [← hend]
          exact hne1
        show s2.current_attacker < s2.attackers.length
        rw [hca, hatt]
        exact hwf.ca_lt hne
      · intro _
        show (some d : Option Nat) ≠ none
        exact Option.some_ne_none d
      · intro _ _
        rfl
      · intro _ hph
        cases hph
      · intro _ hph
        cases hph

theorem WF_exec_take (h : Heap) (s : GameState) (h1 : Heap)
    (s1 : GameState) (hwf : WF s)
    (hex : executeAction h s Action.take = some (h1, s1)) : WF s1 := by
  have hnd1 := exec_nodup h s _ h1 s1 hwf hex
  simp only [executeAction] at hex
  rcases hga : s.attackers.get? s.current_attacker with _ | p <;>
    rw [hga] at hex <;> dsimp only [] at hex
  · cases hex
  · injection hex with hex
    injection hex with hexh hexs
    subst hexs
    refine ⟨hnd1, hwf.att_lt, hwf.dro_lt, hwf.def_lt, ?_, ?_, ?_, ?_, ?_,
      ?_⟩
    · intro hne1
      exact hwf.att_ne hne1
    · intro hne1
      exact hwf.ca_lt hne1
    · intro hne1
      exact hwf.def_some hne1
    · intro _ hph
      cases hph
    · intro _ hph
      cases hph
    · intro hne1 _
      exact ⟨s.current_attacker, rfl, hwf.ca_lt hne1⟩

theorem WF_exec_defend (h : Heap) (s : GameState) (sv : SV) (h1 : Heap)
    (s1 : GameState) (hwf : WF s)
    (hex : executeAction h s (Action.defend sv) = some (h1, s1)) :
    WF s1 := by
  have hnd1 := exec_nodup h s _ h1 s1 hwf hex
  simp only [executeAction] at hex
  rcases hctd0 : s.cards_to_defend with _ | ⟨cd, rest⟩ <;>
    rw [hctd0] at hex <;> dsimp only [] at hex
  · cases hex
  · rcases hdc : discardCard h
        { s with
          history := s.history ++ [Action.defend sv]
          cards_to_defend := rest }
        s.player_to_play sv true with _ | ⟨h2, s2, r⟩ <;>
      rw [hdc] at hex <;> dsimp only [] at hex
    · cases hex
    · obtain ⟨i, _, _, hs2, _⟩ := discardCard_spec h _ s.player_to_play sv
        true h2 s2 r hdc
      have hatt : s2.attackers = s.attackers := by rw [hs2]; rfl
      have hdro : s2.draw_order = s.draw_order := by rw [hs2]; rfl
      have hca : s2.current_attacker = s.current_attacker := by
        rw [hs2]; rfl
      have hend : s2.is_end_state = s.is_end_state := by rw [hs2]; rfl
      have hdef : s2.defender = s.defender := by rw [hs2]; rfl
      have hptp : s2.player_to_play = s.player_to_play := by rw [hs2]; rfl
      have hphz : s2.current_action = s.current_action := by rw [hs2]; rfl
      have hast : s2.attacker_to_start_throwing =
          s.attacker_to_start_throwing := by rw [hs2]; rfl
      have hctd2 : s2.cards_to_defend = rest := by rw [hs2]; rfl
      have hplen : s2.players.length = s.players.length := by
        rw [hs2]
        exact setPlayerHand_length _ _ _
      by_cases hlen0 : s2.cards_to_defend.length = 0
      · rw [if_pos hlen0] at hex
        rcases hga : s2.attackers.get? s2.current_attacker with _ | p <;>
          rw [hga] at hex <;> dsimp only [] at hex
        · cases hex
        · injection hex with hex
          injection hex with hexh hexs
          subst hexs
          refine ⟨hnd1, ?_, ?_, ?_, ?_, ?_, ?_, ?_, ?_, ?_⟩
          · intro i2 hi2
            have hi3 : i2 ∈ s.attackers := by
              rw [← hatt]
              exact hi2
            show i2 < s2.players.length
            rw [hplen]
            exact hwf.att_lt i2 hi3
          · intro i2 hi2
            have hi3 : i2 ∈ s.draw_order := by
              rw [← hdro]
              exact hi2
            show i2 < s2.players.length
            rw [hplen]
            exact hwf.dro_lt i2 hi3
          · intro d2 hd2
            have hd3 : s.defender = some d2 := by
              rw [← hdef]
              exact hd2
            show d2 < s2.players.length
            rw [hplen]
            exact hwf.def_lt d2 hd3
          · intro hne1
            have hne : s.is_end_state = false := by
              rw [← hend]
              exact hne1
            show s2.attackers ≠ []
            rw [hatt]
            exact hwf.att_ne hne
          · intro hne1
            have hne : s.is_end_state = false := by
              rw [← hend]
              exact hne1
            show s2.current_attacker < s2.attackers.length
            rw [hca, hatt]
            exact hwf.ca_lt hne
          · intro hne1
            have hne : s.is_end_state = false := by
              rw [← hend]
              exact hne1
            show s2.defender ≠ none
            rw [hdef]
            exact hwf.def_some hne
          · intro _ hph
            cases hph
          · intro _ _
            show s2.cards_to_defend = []
            exact List.length_eq_zero.mp hlen0
          · intro _ hph
            cases hph
      · rw [if_neg hlen0] at hex
        injection hex with hex
        injection hex with hexh hexs
        subst hexs
        refine ⟨hnd1, ?_, ?_, ?_, ?_, ?_, ?_, ?_, ?_, ?_⟩
        · intro i2 hi2
          have hi3 : i2 ∈ s.attackers := by
            rw [← hatt]
            exact hi2
          show i2 < s2.players.length
          rw [hplen]
          exact hwf.att_lt i2 hi3
        · intro i2 hi2
          have hi3 : i2 ∈ s.draw_order := by
            rw [← hdro]
            exact hi2
          show i2 < s2.players.length
          rw [hplen]
          exact hwf.dro_lt i2 hi3
        · intro d2 hd2
          have hd3 : s.defender = some d2 := by
            rw [← hdef]
            exact hd2
          show d2 < s2.players.length
          rw [hplen]
          exact hwf.def_lt d2 hd3
        · intro hne1
          have hne : s.is_end_state = false := by
            rw [← hend]
            exact hne1
          show s2.attackers ≠ []
          rw [hatt]
          exact hwf.att_ne hne
        · intro hne1
          have hne : s.is_end_state = false := by
            rw [← hend]
            exact hne1
          show s2.current_attacker < s2.attackers.length
          rw [hca, hatt]
          exact hwf.ca_lt hne
        · intro hne1
          have hne : s.is_end_state = false := by
            rw [← hend]
            exact hne1
          show s2.defender ≠ none
          rw [hdef]
          exact hwf.def_some hne
        · intro hne1 hph
          have hne : s.is_end_state = false := by
            rw [← hend]
            exact hne1
          have hph2 : s.current_action = Phase.Defend := by
            rw [← hphz]
            exact hph
          show s2.defender = some s2.player_to_play
          rw [hdef, hptp]
          exact hwf.defend_ptp hne hph2
        · intro hne1 hph
          have hne : s.is_end_state = false := by
            rw [← hend]
            exact hne1
          have hph2 : s.current_action = Phase.Attack := by
            rw [← hphz]
            exact hph
          have := hwf.attack_ctd hne hph2
          rw [hctd0] at this
          cases this
        · intro hne1 hph
          have hne : s.is_end_state = false := by
            rw [← hend]
            exact hne1
          have hph2 : s.current_action = Phase.ThrowCards := by
            rw [← hphz]
            exact hph
          obtain ⟨j, hj1, hj2⟩ := hwf.throw_atst hne hph2
          refine ⟨j, ?_, ?_⟩
          · show s2.attacker_to_start_throwing = some j
            rw [hast]
            exact hj1
          · show j < s2.attackers.length
            rw [hatt]
            exact hj2

/-- What the reflect rotation produces: every seat of the rotated attacker
list and draw order is the old defender or an old attacker, and the length
is preserved. -/
theorem reflect_rotation_facts (att : List Nat) (d : Nat)
    (hn : att.length ≠ 0) :
    (∀ x ∈ ((att.eraseIdx (1 % att.length)).insertIdx (1 % att.length) d),
      x = d ∨ x ∈ att) ∧
    ((att.eraseIdx (1 % att.length)).insertIdx (1 % att.length) d).length =
      att.length := by
  have hpos : 0 < att.length := Nat.pos_of_ne_zero hn
  have hj : 1 % att.length < att.length := Nat.mod_lt _ hpos
  have herl : (att.eraseIdx (1 % att.length)).length = att.length - 1 :=
    List.length_eraseIdx_of_lt hj
  have hjle : 1 % att.length ≤ (att.eraseIdx (1 % att.length)).length := by
    omega
  constructor
  · intro x hx
    rcases (List.mem_insertIdx hjle).mp hx with rfl | hx2
    · exact Or.inl rfl
    · exact Or.inr (List.eraseIdx_subset _ _ hx2)
  · rw [List.length_insertIdx _ _ hjle]
    omega

theorem WF_exec_reflect (h : Heap) (s : GameState) (sv : SV) (h1 : Heap)
    (s1 : GameState) (hwf : WF s)
    (hex : executeAction h s (Action.reflect sv) = some (h1, s1)) :
    WF s1 := by
  have hnd1 := exec_nodup h s _ h1 s1 hwf hex
  simp only [executeAction] at hex
  rcases hdd : s.defender with _ | d <;> rw [hdd] at hex <;>
    dsimp only [] at hex
  · cases hex
  · rw [← hdd] at hex
    rcases hdc : discardCard h
        { s with history := s.history ++ [Action.reflect sv] } d sv true
        with _ | ⟨h2, s2, r⟩ <;> rw [hdc] at hex <;> dsimp only [] at hex
    · cases hex
    · by_cases hn : s2.attackers.length = 0
      · rw [if_pos hn] at hex
        cases hex
      · rw [if_neg hn] at hex
        rcases hj : s2.attackers.get? (1 % s2.attackers.length) with
          _ | nd <;> rw [hj] at hex <;> dsimp only [] at hex
        · cases hex
        · injection hex with hex
          injection hex with hexh hexs
          subst hexs
          obtain ⟨i, _, _, hs2, _⟩ := discardCard_spec h _ d sv true h2 s2
            r hdc
          have hatt : s2.attackers = s.attackers := by rw [hs2]; rfl
          have hca : s2.current_attacker = s.current_attacker := by
            rw [hs2]; rfl
          have hend : s2.is_end_state = s.is_end_state := by rw [hs2]; rfl
          have hplen : s2.players.length = s.players.length := by
            rw [hs2]
            exact setPlayerHand_length _ _ _
          have hdlt : d < s.players.length := hwf.def_lt d hdd
          obtain ⟨hmemrot, hlenrot⟩ := reflect_rotation_facts s2.attackers
            d hn
          have hndmem : nd ∈ s2.attackers := List.get?_mem hj
          have hndlt : nd < s.players.length := by
            refine hwf.att_lt nd ?_
            rw [← hatt]
            exact hndmem
          have hrotmem : ∀ x, x ∈ (List.drop 1
              ((s2.attackers.eraseIdx (1 % s2.attackers.length)).insertIdx
                (1 % s2.attackers.length) d) ++
              List.take 1
              ((s2.attackers.eraseIdx (1 % s2.attackers.length)).insertIdx
                (1 % s2.attackers.length) d)) → x < s.players.length := by
            intro x hx
            have hx2 : x ∈ (s2.attackers.eraseIdx
                (1 % s2.attackers.length)).insertIdx
                (1 % s2.attackers.length) d := by
              rcases List.mem_append.mp hx with hx3 | hx3
              · exact List.drop_subset _ _ hx3
              · exact List.take_subset _ _ hx3
            rcases hmemrot x hx2 with rfl | hx4
            · exact hdlt
            · refine hwf.att_lt x ?_
              rw [← hatt]
              exact hx4
          have hrotlen : (List.drop 1
              ((s2.attackers.eraseIdx (1 % s2.attackers.length)).insertIdx
                (1 % s2.attackers.length) d) ++
              List.take 1
              ((s2.attackers.eraseIdx (1 % s2.attackers.length)).insertIdx
                (1 % s2.attackers.length) d)).length =
              s2.attackers.length := by
            rw [List.length_append, List.length_drop, List.length_take,
              hlenrot]
            omega
          refine ⟨hnd1, ?_, ?_, ?_, ?_, ?_, ?_, ?_, ?_, ?_⟩
          · intro i2 hi2
            show i2 < s2.players.length
            rw [hplen]
            exact hrotmem i2 hi2
          · intro i2 hi2
            show i2 < s2.players.length
            rw [hplen]
            rcases List.mem_append.mp hi2 with hi3 | hi3
            · rcases hmemrot i2 hi3 with rfl | hx4
              · exact hdlt
              · refine hwf.att_lt i2 ?_
                rw [← hatt]
                exact hx4
            · rcases List.mem_singleton.mp hi3 with rfl
              exact hndlt
          · intro d2 hd2
            injection hd2 with hd2
            subst hd2
            show nd < s2.players.length
            rw [hplen]
            exact hndlt
          · intro _
            intro hc
            have := congrArg List.length hc
            rw [hrotlen] at this
            exact hn this
          · intro hne1
            have hne : s.is_end_state = false := by
              rw [← hend]
              exact hne1
            show s2.current_attacker < _
            rw [hca, hrotlen, hatt]
            exact hwf.ca_lt hne
          · intro _
            exact Option.some_ne_none nd
          · intro _ _
            rfl
          · intro _ hph
            cases hph
          · intro _ hph
            cases hph

theorem WF_exec_reflectTrump (h : Heap) (s : GameState) (sv : SV)
    (h1 : Heap) (s1 : GameState) (hwf : WF s)
    (hex : executeAction h s (Action.reflectTrump sv) = some (h1, s1)) :
    WF s1 := by
  have hnd1 := exec_nodup h s _ h1 s1 hwf hex
  simp only [executeAction] at hex
  rcases hdd : s.defender with _ | d <;> rw [hdd] at hex <;>
    dsimp only [] at hex
  · cases hex
  · rw [← hdd] at hex
    by_cases hpd : s.player_to_play = d
    · rw [if_pos hpd] at hex
      rcases hdc : discardCard h
          { s with history := s.history ++ [Action.reflectTrump sv] }
          s.player_to_play sv false with _ | ⟨h2, s2, r⟩ <;>
        rw [hdc] at hex <;> dsimp only [] at hex
      · cases hex
      · by_cases hn : s2.attackers.length = 0
        · rw [if_pos hn] at hex
          cases hex
        · rw [if_neg hn] at hex
          rcases hj : s2.attackers.get? (1 % s2.attackers.length) with
            _ | nd <;> rw [hj] at hex <;> dsimp only [] at hex
          · cases hex
          · injection hex with hex
            injection hex with hexh hexs
            subst hexs
            obtain ⟨i, _, _, hs2, _⟩ := discardCard_spec h _
              s.player_to_play sv false h2 s2 r hdc
            have hatt : s2.attackers = s.attackers := by rw [hs2]; rfl
            have hca : s2.current_attacker = s.current_attacker := by
              rw [hs2]; rfl
            have hend : s2.is_end_state = s.is_end_state := by
              rw [hs2]; rfl
            have hplen : s2.players.length = s.players.length := by
              rw [hs2]
              exact setPlayerHand_length _ _ _
            have hdlt : d < s.players.length := hwf.def_lt d hdd
            obtain ⟨hmemrot, hlenrot⟩ := reflect_rotation_facts
              s2.attackers d hn
            have hndmem : nd ∈ s2.attackers := List.get?_mem hj
            have hndlt : nd < s.players.length := by
              refine hwf.att_lt nd ?_
              rw [← hatt]
              exact hndmem
            have hrotmem : ∀ x, x ∈ (List.drop 1
                ((s2.attackers.eraseIdx (1 % s2.attackers.length)).insertIdx
                  (1 % s2.attackers.length) d) ++
                List.take 1
                ((s2.attackers.eraseIdx (1 % s2.attackers.length)).insertIdx
                  (1 % s2.attackers.length) d)) → x < s.players.length := by
              intro x hx
              have hx2 : x ∈ (s2.attackers.eraseIdx
                  (1 % s2.attackers.length)).insertIdx
                  (1 % s2.attackers.length) d := by
                rcases List.mem_append.mp hx with hx3 | hx3
                · exact List.drop_subset _ _ hx3
                · exact List.take_subset _ _ hx3
              rcases hmemrot x hx2 with rfl | hx4
              · exact hdlt
              · refine hwf.att_lt x ?_
                rw [← hatt]
                exact hx4
            have hrotlen : (List.drop 1
                ((s2.attackers.eraseIdx (1 % s2.attackers.length)).insertIdx
                  (1 % s2.attackers.length) d) ++
                List.take 1
                ((s2.attackers.eraseIdx (1 % s2.attackers.length)).insertIdx
                  (1 % s2.attackers.length) d)).length =
                s2.attackers.length := by
              rw [List.length_append, List.length_drop, List.length_take,
                hlenrot]
              omega
            refine ⟨hnd1, ?_, ?_, ?_, ?_, ?_, ?_, ?_, ?_, ?_⟩
            · intro i2 hi2
              show i2 < s2.players.length
              rw [hplen]
              exact hrotmem i2 hi2
            · intro i2 hi2
              show i2 < s2.players.length
              rw [hplen]
              rcases List.mem_append.mp hi2 with hi3 | hi3
              · rcases hmemrot i2 hi3 with rfl | hx4
                · exact hdlt
                · refine hwf.att_lt i2 ?_
                  rw [← hatt]
                  exact hx4
              · rcases List.mem_singleton.mp hi3 with rfl
                exact hndlt
            · intro d2 hd2
              injection hd2 with hd2
              subst hd2
              show nd < s2.players.length
              rw [hplen]
              exact hndlt
            · intro _
              intro hc
              have := congrArg List.length hc
              rw [hrotlen] at this
              exact hn this
            · intro hne1
              have hne : s.is_end_state = false := by
                rw [← hend]
                exact hne1
              show s2.current_attacker < _
              rw [hca, hrotlen, hatt]
              exact hwf.ca_lt hne
            · intro _
              exact Option.some_ne_none nd
            · intro _ _
              rfl
            · intro _ hph
              cases hph
            · intro _ hph
              cases hph
    · rw [if_neg hpd] at hex
      cases hex

theorem WF_exec_pass (h : Heap) (s : GameState) (h1 : Heap)
    (s1 : GameState) (hwf : WF s)
    (hph : s.current_action = Phase.Attack)
    (hex : executeAction h s Action.passAttack = some (h1, s1)) :
    WF s1 := by
  have hnd1 := exec_nodup h s _ h1 s1 hwf hex
  simp only [executeAction] at hex
  by_cases hn : s.attackers.length = 0
  · rw [if_pos hn] at hex
    cases hex
  · rw [if_neg hn] at hex
    rcases hadv : s.attackers.get?
        ((s.current_attacker + 1) % s.attackers.length) with _ | p <;>
      rw [hadv] at hex <;> dsimp only [] at hex
    · cases hex
    · by_cases heq : some p = s.last_played_attacker
      · rw [if_pos heq] at hex
        have hctdR : (refillDrawOrder ({ s with
            history := s.history ++ [Action.passAttack]
            current_attacker := (s.current_attacker + 1) % s.attackers.length
            player_to_play := p } : GameState)).cards_to_defend =
            s.cards_to_defend := by
          unfold refillDrawOrder
          rw [refillOver_ctd]
        rw [hctdR] at hex
        by_cases hctd0 : s.cards_to_defend = []
        · rw [if_pos hctd0] at hex
          have hdefR : (refillDrawOrder ({ s with
              history := s.history ++ [Action.passAttack]
              current_attacker :=
                (s.current_attacker + 1) % s.attackers.length
              player_to_play := p } : GameState)).defender = s.defender := by
            unfold refillDrawOrder
            rw [refillOver_defender]
          have hdroR : (refillDrawOrder ({ s with
              history := s.history ++ [Action.passAttack]
              current_attacker :=
                (s.current_attacker + 1) % s.attackers.length
              player_to_play := p } : GameState)).draw_order =
              s.draw_order := by
            unfold refillDrawOrder
            rw [refillOver_draw]
          have hplenR : (refillDrawOrder ({ s with
              history := s.history ++ [Action.passAttack]
              current_attacker :=
                (s.current_attacker + 1) % s.attackers.length
              player_to_play := p } : GameState)).players.length =
              s.players.length := by
            unfold refillDrawOrder
            rw [refillOver_players_length]
          rcases hdd : (refillDrawOrder ({ s with
              history := s.history ++ [Action.passAttack]
              current_attacker :=
                (s.current_attacker + 1) % s.attackers.length
              player_to_play := p } : GameState)).defender with _ | d <;>
            rw [hdd] at hex <;> dsimp only [] at hex
          · cases hex
          · rcases hnt : newTrick (refillDrawOrder ({ s with
                history := s.history ++ [Action.passAttack]
                current_attacker :=
                  (s.current_attacker + 1) % s.attackers.length
                player_to_play := p } : GameState))
                (getPlayer (refillDrawOrder ({ s with
                  history := s.history ++ [Action.passAttack]
                  current_attacker :=
                    (s.current_attacker + 1) % s.attackers.length
                  player_to_play := p } : GameState)) d).name with
              _ | s3 <;> rw [hnt] at hex <;> dsimp only [] at hex
            · cases hex
            · injection hex with hex
              injection hex with hexh hexs
              subst hexs
              refine WF_newTrick _ _ _ hnt hnd1 ?_ ?_
              · intro i hi
                rw [hdroR] at hi
                rw [hplenR]
                exact hwf.dro_lt i hi
              · intro d2 hd2
                rw [hdefR] at hd2
                rw [hplenR]
                exact hwf.def_lt d2 hd2
        · rw [if_neg hctd0] at hex
          cases hex
      · rw [if_neg heq] at hex
        injection hex with hex
        injection hex with hexh hexs
        subst hexs
        refine ⟨hnd1, hwf.att_lt, hwf.dro_lt, hwf.def_lt, ?_, ?_, ?_, ?_,
          ?_, ?_⟩
        · intro hne1
          exact hwf.att_ne hne1
        · intro _
          show (s.current_attacker + 1) % s.attackers.length <
            s.attackers.length
          exact Nat.mod_lt _ (Nat.pos_of_ne_zero hn)
        · intro hne1
          exact hwf.def_some hne1
        · intro _ hph2
          have hph3 : s.current_action = Phase.Defend := hph2
          rw [hph] at hph3
          cases hph3
        · intro hne1 _
          exact hwf.attack_ctd hne1 hph
        · intro _ hph2
          have hph3 : s.current_action = Phase.ThrowCards := hph2
          rw [hph] at hph3
          cases hph3

theorem WF_exec_throw (h : Heap) (s : GameState) (p : Option (List SV))
    (h1 : Heap) (s1 : GameState) (hwf : WF s)
    (hph : s.current_action = Phase.ThrowCards)
    (hex : executeAction h s (Action.throwCards p) = some (h1, s1)) :
    WF s1 := by
  have hnd1 := exec_nodup h s _ h1 s1 hwf hex
  simp only [executeAction] at hex
  rcases hdis : throwDiscards h
      { s with history := s.history ++ [Action.throwCards p] } p with
    _ | ⟨h2, s2⟩ <;> rw [hdis] at hex <;> dsimp only [] at hex
  · cases hex
  · obtain ⟨_, hatt2, hca2, hast2, hdef2, hdro2, hplen2, _⟩ :=
      throwDiscards_conservation h _ p h2 s2 hdis
    obtain ⟨hend2, hphz2, _⟩ := throwDiscards_end h _ p h2 s2 hdis
    have hattH : s2.attackers = s.attackers := hatt2
    have hcaH : s2.current_attacker = s.current_attacker := hca2
    have hastH : s2.attacker_to_start_throwing =
        s.attacker_to_start_throwing := hast2
    have hdefH : s2.defender = s.defender := hdef2
    have hdroH : s2.draw_order = s.draw_order := hdro2
    have hplenH : s2.players.length = s.players.length := hplen2
    have hendH : s2.is_end_state = s.is_end_state := hend2
    have hphH : s2.current_action = s.current_action := hphz2
    by_cases hn : s2.attackers.length = 0
    · rw [if_pos hn] at hex
      cases hex
    · rw [if_neg hn] at hex
      rcases hadv : s2.attackers.get?
          ((s2.current_attacker + 1) % s2.attackers.length) with _ | padv <;>
        rw [hadv] at hex <;> dsimp only [] at hex
      · cases hex
      · rcases hast : s2.attacker_to_start_throwing with _ | ast <;>
          rw [hast] at hex <;> dsimp only [] at hex
        · cases hex
        · rcases hget : s2.attackers.get? ast with _ | startP <;>
            rw [hget] at hex <;> dsimp only [] at hex
          · cases hex
          · rw [← hast] at hex
            by_cases heq : padv = startP
            · rw [if_pos heq] at hex
              simp only [closeTrick] at hex
              rcases hdd : s2.defender with _ | d <;> rw [hdd] at hex <;>
                dsimp only [] at hex
              · cases hex
              · rw [← hdd] at hex
                rcases hna : (closeIntermediate ({ s2 with
                    current_attacker :=
                      (s2.current_attacker + 1) % s2.attackers.length
                    player_to_play := padv } : GameState) d).attackers.get?
                    (1 % (closeIntermediate ({ s2 with
                      current_attacker :=
                        (s2.current_attacker + 1) % s2.attackers.length
                      player_to_play := padv } : GameState)
                        d).attackers.length) with _ | na <;>
                  rw [hna] at hex <;> dsimp only [] at hex
                · cases hex
                · rcases hnt : newTrick (closeIntermediate ({ s2 with
                      current_attacker :=
                        (s2.current_attacker + 1) % s2.attackers.length
                      player_to_play := padv } : GameState) d)
                      (getPlayer (closeIntermediate ({ s2 with
                        current_attacker :=
                          (s2.current_attacker + 1) % s2.attackers.length
                        player_to_play := padv } : GameState) d) na).name
                      with _ | s3 <;> rw [hnt] at hex <;>
                    dsimp only [] at hex
                  · cases hex
                  · injection hex with hex
                    injection hex with hexh hexs
                    subst hexs
                    refine WF_newTrick _ _ _ hnt hnd1 ?_ ?_
                    · intro i hi
                      have hdroC : (closeIntermediate ({ s2 with
                          current_attacker :=
                            (s2.current_attacker + 1) % s2.attackers.length
                          player_to_play := padv } : GameState)
                            d).draw_order = s2.draw_order := by
                        unfold closeIntermediate refillDrawOrder
                        rw [refillOver_draw]
                        rfl
                      rw [hdroC, hdroH] at hi
                      rw [closeIntermediate_players_length]
                      have : (({ s2 with
                          current_attacker :=
                            (s2.current_attacker + 1) % s2.attackers.length
                          player_to_play := padv } :
                            GameState)).players.length =
                          s.players.length := hplenH
                      rw [this]
                      exact hwf.dro_lt i hi
                    · intro d2 hd2
                      have hdefC : (closeIntermediate ({ s2 with
                          current_attacker :=
                            (s2.current_attacker + 1) % s2.attackers.length
                          player_to_play := padv } : GameState)
                            d).defender = s2.defender :=
                        closeIntermediate_defender _ d
                      rw [hdefC, hdefH] at hd2
                      rw [closeIntermediate_players_length]
                      have : (({ s2 with
                          current_attacker :=
                            (s2.current_attacker + 1) % s2.attackers.length
                          player_to_play := padv } :
                            GameState)).players.length =
                          s.players.length := hplenH
                      rw [this]
                      exact hwf.def_lt d2 hd2
            · rw [if_neg heq] at hex
              injection hex with hex
              injection hex with hexh hexs
              subst hexs
              refine ⟨hnd1, ?_, ?_, ?_, ?_, ?_, ?_, ?_, ?_, ?_⟩
              · intro i hi
                have hi2 : i ∈ s.attackers := by
                  rw [← hattH]
                  exact hi
                show i < s2.players.length
                rw [hplenH]
                exact hwf.att_lt i hi2
              · intro i hi
                have hi2 : i ∈ s.draw_order := by
                  rw [← hdroH]
                  exact hi
                show i < s2.players.length
                rw [hplenH]
                exact hwf.dro_lt i hi2
              · intro d2 hd2
                have hd3 : s.defender = some d2 := by
                  rw [← hdefH]
                  exact hd2
                show d2 < s2.players.length
                rw [hplenH]
                exact hwf.def_lt d2 hd3
              · intro hne1
                have hne : s.is_end_state = false := by
                  rw [← hendH]
                  exact hne1
                show s2.attackers ≠ []
                rw [hattH]
                exact hwf.att_ne hne
              · intro _
                show (s2.current_attacker + 1) % s2.attackers.length <
                  s2.attackers.length
                exact Nat.mod_lt _ (Nat.pos_of_ne_zero hn)
              · intro hne1
                have hne : s.is_end_state = false := by
                  rw [← hendH]
                  exact hne1
                show s2.defender ≠ none
                rw [hdefH]
                exact hwf.def_some hne
              · intro _ hph2
                have hph3 : s2.current_action = Phase.Defend := hph2
                rw [hphH, hph] at hph3
                cases hph3
              · intro _ hph2
                have hph3 : s2.current_action = Phase.Attack := hph2
                rw [hphH, hph] at hph3
                cases hph3
              · intro hne1 _
                have hne : s.is_end_state = false := by
                  rw [← hendH]
                  exact hne1
                obtain ⟨j, hj1, hj2⟩ := hwf.throw_atst hne hph
                refine ⟨j, ?_, ?_⟩
                · show s2.attacker_to_start_throwing = some j
                  rw [hastH]
                  exact hj1
                · show j < s2.attackers.length
                  rw [hattH]
                  exact hj2

/-- In the Defend phase, the enumerated actions are take, defend, reflect
or reflect-trump. -/
theorem defend_phase_shapes (h : Heap) (s : GameState) (a : Action)
    (w : Option ℚ) (hph : s.current_action = Phase.Defend)
    (hmem : (a, w) ∈ allowedPlays h s) :
    a = Action.take ∨ (∃ sv, a = Action.defend sv) ∨
    (∃ sv, a = Action.reflect sv) ∨ (∃ sv, a = Action.reflectTrump sv) := by
  rcases hctd : s.cards_to_defend with _ | ⟨td, rest0⟩
  · exfalso
    unfold allowedPlays at hmem
    rw [hph] at hmem
    dsimp only [] at hmem
    rw [hctd] at hmem
    dsimp only [] at hmem
    cases hmem
  · rcases (mem_allowedPlays_defend h s td rest0 hph hctd a).mp ⟨w, hmem⟩
      with rfl | ⟨r, _, hdl | hrl⟩
    · exact Or.inl rfl
    · rcases (mem_cardDefendList h td _ a).mp hdl with ⟨sv, _, hde⟩
      exact Or.inr (Or.inl ⟨sv, defendEntries_shape h td sv a hde⟩)
    · rcases (mem_cardReflectList h s td _ a).mp hrl with ⟨sv, _, hre⟩
      rcases reflectEntries_shape h s td sv a hre with ha | ha
      · exact Or.inr (Or.inr (Or.inl ⟨sv, ha⟩))
      · exact Or.inr (Or.inr (Or.inr ⟨sv, ha⟩))

/-- The invariants survive every allowed `execute_action`. -/
theorem WF_step (h : Heap) (s : GameState) (a : Action) (w : Option ℚ)
    (h1 : Heap) (s1 : GameState) (hwf : WF s)
    (hmem : (a, w) ∈ allowedPlays h s)
    (hex : executeAction h s a = some (h1, s1)) : WF s1 := by
  cases a with
  | attack sv => exact WF_exec_attack h s sv h1 s1 hwf hex
  | defend sv => exact WF_exec_defend h s sv h1 s1 hwf hex
  | take => exact WF_exec_take h s h1 s1 hwf hex
  | reflect sv => exact WF_exec_reflect h s sv h1 s1 hwf hex
  | reflectTrump sv => exact WF_exec_reflectTrump h s sv h1 s1 hwf hex
  | passAttack =>
    refine WF_exec_pass h s h1 s1 hwf ?_ hex
    rcases hph : s.current_action with _ | _ | _
    · rfl
    · exfalso
      rcases defend_phase_shapes h s _ w hph hmem with ha | ⟨sv, ha⟩ |
        ⟨sv, ha⟩ | ⟨sv, ha⟩ <;> cases ha
    · exfalso
      rcases (mem_allowedPlays_throw h s hph (Action.passAttack, w)).mp hmem
        with hx | ⟨l, hx, _⟩ <;> cases congrArg Prod.fst hx
  | throwCards p =>
    refine WF_exec_throw h s p h1 s1 hwf ?_ hex
    rcases hph : s.current_action with _ | _ | _
    · exfalso
      rcases (mem_allowedPlays_attack h s hph (Action.throwCards p, w)).mp
        hmem with ⟨hx, _⟩ | ⟨sv, hx, _⟩ <;> cases congrArg Prod.fst hx
    · exfalso
      rcases defend_phase_shapes h s _ w hph hmem with ha | ⟨sv, ha⟩ |
        ⟨sv, ha⟩ | ⟨sv, ha⟩ <;> cases ha
    · rfl

/-- Dealing hands only moves cards from the deck into the produced hands:
the flattened hands followed by the remaining deck are the original cards. -/
theorem deal_flat (nms : List String) :
    ∀ acc : List Player × List Nat,
      ((nms.foldl (fun (acc : List Player × List Nat) nm =>
        let dh := fillHand acc.2 []
        (acc.1 ++ [{ name := nm, hand := dh.2 }], dh.1)) acc).1.flatMap
          Player.hand) ++
        (nms.foldl (fun (acc : List Player × List Nat) nm =>
          let dh := fillHand acc.2 []
          (acc.1 ++ [{ name := nm, hand := dh.2 }], dh.1)) acc).2 =
      (acc.1.flatMap Player.hand) ++ acc.2 := by
  induction nms with
  | nil =>
    intro acc
    rfl
  | cons nm rest ih =>
    intro acc
    rw [List.foldl_cons]
    rw [ih]
    dsimp only []
    rw [List.flatMap_append]
    simp only [List.flatMap_cons, List.flatMap_nil, List.append_nil,
      fillHand, List.nil_append]
    rw [List.append_assoc, List.take_append_drop]

theorem init_match_elim {s0 : GameState} {ma : String} {hp : Heap}
    {h : Heap} {s : GameState}
    (hinit : (match newTrick s0 ma with
      | none => none
      | some s1 => some (hp, s1)) = some (h, s)) :
    newTrick s0 ma = some s := by
  rcases hnt : newTrick s0 ma with _ | s1 <;> rw [hnt] at hinit
  · cases hinit
  · dsimp only [] at hinit
    injection hinit with hinit
    injection hinit with hh hs
    subst hs
    rfl

theorem initGame_WF (names : List String) (bottom : SV) (ma : String)
    (h : Heap) (s : GameState)
    (hinit : initGame names bottom ma = some (h, s)) : WF s := by
  simp only [initGame] at hinit
  split_ifs at hinit with hg
  · have hnt := init_match_elim hinit
    obtain ⟨hpl, hpr, hctd, hdk, _⟩ := newTrick_facts _ ma s hnt
    refine WF_newTrick _ ma s hnt ?_ ?_ ?_
    · have h1 : inPlay s = s.deck ++ s.players.flatMap Player.hand := by
        unfold inPlay
        rw [hctd, show pairsFlat s = [] from by
          unfold pairsFlat
          rw [hpr]
          rfl]
        simp
      rw [h1, hdk, hpl]
      dsimp only []
      have hdf := deal_flat names ([], List.range 36)
      dsimp only [] at hdf
      simp only [List.flatMap_nil, List.nil_append] at hdf
      rw [List.Perm.nodup_iff List.perm_append_comm, hdf]
      exact List.nodup_range 36
    · intro i hi
      cases hi
    · intro d hd
      cases hd

/-- A `(heap, state)` pair is reachable when it is an initial deal, or is
obtained from a reachable non-terminal state by executing one of the plays
enumerated by `allowedPlays`. -/
inductive Reachable : Heap → GameState → Prop where
  | init (names : List String) (bottom : SV) (ma : String)
      (h : Heap) (s : GameState)
      (hinit : initGame names bottom ma = some (h, s)) : Reachable h s
  | step (h : Heap) (s : GameState) (a : Action) (w : Option ℚ)
      (h1 : Heap) (s1 : GameState)
      (hr : Reachable h s) (hne : s.is_end_state = false)
      (hmem : (a, w) ∈ allowedPlays h s)
      (hex : executeAction h s a = some (h1, s1)) : Reachable h1 s1

theorem Reachable_WF (h : Heap) (s : GameState) (hr : Reachable h s) :
    WF s := by
  induction hr with
  | init names bottom ma h s hinit =>
    exact initGame_WF names bottom ma h s hinit
  | step h s a w h1 s1 hr hne hmem hex ih =>
    exact WF_step h s a w h1 s1 ih hmem hex

/-- C1: for every reachable non-terminal game state, every weighted action
returned by `allowedPlays` is accepted by `executeAction` on that same state
without failure (the result is `some`); in particular `discardCard` locates a
matching hand card for every card payload, including each card of every
`ThrowCards` subset that passed `canThrow`. -/
theorem allowed_plays_accepted (h : Heap) (s : GameState)
    (hr : Reachable h s) (hne : s.is_end_state = false)
    (a : Action) (w : Option ℚ) (hmem : (a, w) ∈ allowedPlays h s) :
    (executeAction h s a).isSome = true := by
  have hwf := Reachable_WF h s hr
  rcases hph : s.current_action with _ | _ | _
  · exact accepted_attack_phase h s hwf hne hph a w hmem
  · exact accepted_defend_phase h s hwf hne hph a w hmem
  · exact accepted_throw_phase h s hwf hne hph a w hmem

set_option maxRecDepth 8000 in
/-- Witness for C1 at the concrete two-player initial deal: the attack with
`(1, 0)` enumerated by `allowedPlays` there is executed successfully. -/
theorem allowed_plays_accepted_witness :
    (executeAction demoInit.1 demoInit.2 (Action.attack (1, 0))).isSome =
      true :=
  allowed_plays_accepted demoInit.1 demoInit.2
    (Reachable.init ["P1", "P2"] (0, 0) "P1" demoInit.1 demoInit.2
      (by decide))
    (by decide) (Action.attack (1, 0)) none (by decide)

end Durak
